import Mathlib

/-!
Bhojpur Subscription engine: card numbers and nullable scalars.

A shallow embedding of `pkg/engine/card.go` (`IsLuhnValid`, `GetCardType`),
`pkg/engine/util.go` (the `UnmarshalJSON` hooks of `Int`, `Int64`, `Bool`,
`String`) and `pkg/engine/engine.go` (`query`), together with the parts of the Go
standard library they call (`strings.Split` with an empty separator,
`strconv.Atoi`, `strconv.ParseInt`, `strconv.ParseBool`, `strconv.Unquote`,
`url.Parse`, `(*URL).String`, `http.NewRequest`).

Conventions.
* A Go `string` / `[]byte` is a list of bytes, a byte is a `Fin 256`, so byte
  arithmetic wraps modulo 256 as in Go.
* Go `int` is taken to be 64 bits wide (`strconv.IntSize = 64`).
* A Go function returning `(v, err)` is a Lean function returning a pair
  `(v, err)` with `err : Option _`, `none` standing for `nil`.
* A run-time panic (slice bounds out of range) is the result `none` of a function
  returning `Option`.
-/

namespace Engine

/-! ## Go strings -/

/-- A byte, with Go's wrapping arithmetic. -/
abbrev Byte := Fin 256

/-- A Go string: a finite sequence of bytes. -/
abbrev GoString := List Byte

/-- The Go string of an ASCII literal (each character is one byte). -/
def ascii (s : String) : GoString := s.toList.map (fun c => Fin.ofNat c.toNat)

/-- The slice expression `s[lo:hi]` of a string: it panics (`none`) unless
`lo ≤ hi ≤ len(s)`. -/
def slice (s : GoString) (lo hi : Nat) : Option GoString :=
  if lo ≤ hi ∧ hi ≤ s.length then some ((s.take hi).drop lo) else none

/-! ## unicode/utf8 -/

/-- Table `first` of `unicode/utf8`: information about the first byte of a
UTF-8 sequence (`as = 0xF0` ASCII, `xx = 0xF1` invalid, otherwise the low three bits are
the sequence length and the high four bits index `acceptRanges`). -/
def first (b : Byte) : Nat :=
  if b.val < 0x80 then 0xF0
  else if b.val < 0xC2 then 0xF1
  else if b.val < 0xE0 then 0x02
  else if b.val = 0xE0 then 0x13
  else if b.val < 0xED then 0x03
  else if b.val = 0xED then 0x23
  else if b.val < 0xF0 then 0x03
  else if b.val = 0xF0 then 0x34
  else if b.val < 0xF4 then 0x04
  else if b.val = 0xF4 then 0x44
  else 0xF1

/-- Table `acceptRanges` of `unicode/utf8`: the range `(lo, hi)` allowed for the
second byte of a sequence. -/
def acceptRanges (i : Nat) : Nat × Nat :=
  match i with
  | 0 => (0x80, 0xBF)
  | 1 => (0xA0, 0xBF)
  | 2 => (0x80, 0x9F)
  | 3 => (0x90, 0xBF)
  | 4 => (0x80, 0x8F)
  | _ => (0, 0)

/-- The `size` result of `utf8.DecodeRuneInString`: the number of bytes of the
first rune of `s` (1 for an invalid or truncated sequence, 0 for the empty
string). -/
def DecodeRuneInString_size (s : GoString) : Nat :=
  match s with
  | [] => 0
  | s0 :: rest =>
    let x := first s0
    if x ≥ 0xF0 then 1
    else
      let sz := x % 8
      let accept := acceptRanges (x / 16)
      if s.length < sz then 1
      else
        match rest with
        | [] => 1
        | s1 :: rest1 =>
          if s1.val < accept.1 ∨ accept.2 < s1.val then 1
          else if sz ≤ 2 then 2
          else
            match rest1 with
            | [] => 1
            | s2 :: rest2 =>
              if s2.val < 0x80 ∨ 0xBF < s2.val then 1
              else if sz ≤ 3 then 3
              else
                match rest2 with
                | [] => 1
                | s3 :: _ =>
                  if s3.val < 0x80 ∨ 0xBF < s3.val then 1 else 4

/-! ## strings -/

/-- The loop of `strings.explode`: cut the string into its successive runes.  The
first argument bounds the number of iterations. -/
def explodeAux : Nat → GoString → List GoString
  | 0, _ => []
  | _, [] => []
  | n + 1, s =>
    let size := DecodeRuneInString_size s
    s.take size :: explodeAux n (s.drop size)

/-- `strings.Split(s, "")`, that is `explode(s, -1)`: the list of the UTF-8
sequences of `s`, one string per rune, invalid bytes sliced individually.  Every
iteration consumes at least one byte, so `len(s)` iterations are enough. -/
def explode (s : GoString) : List GoString := explodeAux s.length s

/-! ## strconv -/

/-- The two error causes of `strconv`: `ErrSyntax` and `ErrRange`. -/
inductive ErrKind where
  | ErrSyntax
  | ErrRange
deriving DecidableEq, Repr

/-- `strconv.NumError`: the failing function, the input text and the cause. -/
structure NumError where
  Func : String
  Num : GoString
  Err : ErrKind
deriving DecidableEq, Repr

/-- `syntaxError(fn, str)` of `strconv`. -/
def syntaxError (fn : String) (str : GoString) : NumError := ⟨fn, str, ErrKind.ErrSyntax⟩

/-- `rangeError(fn, str)` of `strconv`. -/
def rangeError (fn : String) (str : GoString) : NumError := ⟨fn, str, ErrKind.ErrRange⟩

/-- The digit loop of the fast path of `strconv.Atoi`: `ch -= '0'` on a byte,
a syntax error when `ch > 9`, else `n = n*10 + int(ch)`. -/
def atoiLoop (s0 : GoString) : GoString → Int → Int × Option NumError
  | [], n => (n, none)
  | c :: rest, n =>
    let ch : Byte := c - 48
    if ch.val > 9 then (0, some (syntaxError "Atoi" s0))
    else atoiLoop s0 rest (n * 10 + (ch.val : Int))

/-- The digit loop of `strconv.ParseUint(s, 10, 64)`.  In base 10 a letter is a
digit value of at least 10 and so a syntax error like any other non-digit byte;
`cutoff = maxUint64/10 + 1`, `maxVal = 2^64 - 1` and the addition wraps modulo
`2^64`. -/
def parseUintLoop (s0 : GoString) : GoString → Nat → Nat × Option NumError
  | [], n => (n, none)
  | c :: rest, n =>
    if 48 ≤ c.val ∧ c.val ≤ 57 then
      let d := c.val - 48
      if n ≥ (2 ^ 64 - 1) / 10 + 1 then (2 ^ 64 - 1, some (rangeError "ParseUint" s0))
      else
        let n10 := n * 10
        let n1 := (n10 + d) % 2 ^ 64
        if n1 < n10 ∨ n1 > 2 ^ 64 - 1 then (2 ^ 64 - 1, some (rangeError "ParseUint" s0))
        else parseUintLoop s0 rest n1
    else (0, some (syntaxError "ParseUint" s0))

/-- `strconv.ParseUint(s, 10, 64)`. -/
def ParseUint (s : GoString) : Nat × Option NumError :=
  if s = [] then (0, some (syntaxError "ParseUint" s)) else parseUintLoop s s 0

/-- `strconv.ParseInt(s, 10, 64)` (also `ParseInt(s, 10, 0)` with 64-bit `int`). -/
def ParseInt (s : GoString) : Int × Option NumError :=
  match s with
  | [] => (0, some (syntaxError "ParseInt" s))
  | c :: rest =>
    let neg : Bool := c == 45
    let body : GoString := if c = 43 ∨ c = 45 then rest else s
    match ParseUint body with
    | (_, some ⟨_, _, ErrKind.ErrSyntax⟩) => (0, some (syntaxError "ParseInt" s))
    | (un, _) =>
      let cutoff : Nat := 2 ^ 63
      if !neg && decide (un ≥ cutoff) then ((cutoff : Int) - 1, some (rangeError "ParseInt" s))
      else if neg && decide (un > cutoff) then (-(cutoff : Int), some (rangeError "ParseInt" s))
      else if neg then (-(un : Int), none)
      else ((un : Int), none)

/-- `strconv.Atoi(s)` with 64-bit `int`: a fast path for inputs of 1 to 18 bytes,
`ParseInt(s, 10, 0)` with the error renamed otherwise. -/
def Atoi (s : GoString) : Int × Option NumError :=
  match s with
  | [] =>
    match ParseInt s with
    | (i64, some nerr) => (i64, some ⟨"Atoi", nerr.Num, nerr.Err⟩)
    | (i64, none) => (i64, none)
  | c :: rest =>
    if s.length < 19 then
      if c = 45 ∨ c = 43 then
        if rest.length < 1 then (0, some (syntaxError "Atoi" s))
        else
          match atoiLoop s rest 0 with
          | (_, some err) => (0, some err)
          | (n, none) => if c = 45 then (-n, none) else (n, none)
      else atoiLoop s s 0
    else
      match ParseInt s with
      | (i64, some nerr) => (i64, some ⟨"Atoi", nerr.Num, nerr.Err⟩)
      | (i64, none) => (i64, none)

/-- `strconv.ParseBool(str)`. -/
def ParseBool (str : GoString) : Bool × Option NumError :=
  if str = ascii "1" ∨ str = ascii "t" ∨ str = ascii "T" ∨ str = ascii "true"
      ∨ str = ascii "TRUE" ∨ str = ascii "True" then (true, none)
  else if str = ascii "0" ∨ str = ascii "f" ∨ str = ascii "F" ∨ str = ascii "false"
      ∨ str = ascii "FALSE" ∨ str = ascii "False" then (false, none)
  else (false, some (syntaxError "ParseBool" str))

/-! ## card.go -/

def AmericanExpress : String := "American Express"
def DinersClub : String := "Diners Club"
def Discover : String := "Discover"
def JCB : String := "JCB"
def MasterCard : String := "MasterCard"
def RuPay : String := "RuPay"
def Visa : String := "Visa"
def UnknownCard : String := "Unknown"

/-- The loop of `IsLuhnValid` over the digits from the last one to the first:
`even` is the alternating flag, `sum` the running sum.  The sum of a string of
`n` digits is at most `9 * n`, far from the 64-bit limit for any string that a
machine can hold, so `sum` is an unbounded integer here. -/
def luhnLoop : List GoString → Bool → Int → Bool × Option NumError
  | [], _, sum => (decide (sum.tmod 10 = 0), none)
  | d :: rest, even, sum =>
    match Atoi d with
    | (_, some err) => (false, some err)
    | (digit, none) =>
      if even && decide (digit > 4) then luhnLoop rest (!even) (sum + ((digit * 2) - 9))
      else if even then luhnLoop rest (!even) (sum + digit * 2)
      else luhnLoop rest (!even) (sum + digit)

/-- `IsLuhnValid(card)`: the result pair `(valid, err)`. -/
def IsLuhnValid (card : GoString) : Bool × Option NumError :=
  luhnLoop (explode card).reverse false 0

/-- `GetCardType(card)`: `some tag` when the function returns `tag`, `none` when
it panics on a slice expression. -/
def GetCardType (card : GoString) : Option String := do
  let p1 ← slice card 0 1
  if p1 = ascii "4" then
    return Visa
  else if p1 = ascii "2" ∨ p1 = ascii "1" then
    let p4 ← slice card 0 4
    if p4 = ascii "2131" ∨ p4 = ascii "1800" then return JCB
    else return UnknownCard
  else if p1 = ascii "6" then
    let p4 ← slice card 0 4
    if p4 = ascii "6011" then return Discover
    else return UnknownCard
  else if p1 = ascii "5" then
    let p2 ← slice card 0 2
    if p2 = ascii "51" ∨ p2 = ascii "52" ∨ p2 = ascii "53" ∨ p2 = ascii "54"
        ∨ p2 = ascii "55" then return MasterCard
    else return UnknownCard
  else if p1 = ascii "3" then
    let p2 ← slice card 0 2
    if p2 = ascii "34" ∨ p2 = ascii "37" then return AmericanExpress
    else if p2 = ascii "35" then return RuPay
    else if p2 = ascii "36" then return DinersClub
    else if p2 = ascii "30" then
      let p3 ← slice card 0 3
      if p3 = ascii "300" ∨ p3 = ascii "301" ∨ p3 = ascii "302" ∨ p3 = ascii "303"
          ∨ p3 = ascii "304" ∨ p3 = ascii "305" then return DinersClub
      else return UnknownCard
    else return JCB
  else
    return UnknownCard

/-! ## util.go

Each `UnmarshalJSON` method takes the value `self` that the receiver points to
before the call and returns the value it points to afterwards, with the error. -/

/-- `(*Int).UnmarshalJSON(data)`. -/
def Int_UnmarshalJSON (self : Int) (data : GoString) : Int × Option NumError :=
  let str := data
  if str = ascii "null" then (self, none)
  else
    match Atoi str with
    | (_, some err) => (self, some err)
    | (i, none) => (i, none)

/-- `(*Int64).UnmarshalJSON(data)`. -/
def Int64_UnmarshalJSON (self : Int) (data : GoString) : Int × Option NumError :=
  let str := data
  if str = ascii "null" then (self, none)
  else
    match ParseInt str with
    | (_, some err) => (self, some err)
    | (i, none) => (i, none)

/-- `(*Bool).UnmarshalJSON(data)`. -/
def Bool_UnmarshalJSON (self : Bool) (data : GoString) : Bool × Option NumError :=
  let str := data
  if str = ascii "null" then (self, none)
  else
    match ParseBool str with
    | (_, some err) => (self, some err)
    | (b, none) => (b, none)

/-- `(*String).UnmarshalJSON(data)`.  The library function `strconv.Unquote` is a
parameter: it returns the unquoted string, or the plain error `ErrSyntax`. -/
def String_UnmarshalJSON (Unquote : GoString → GoString × Option ErrKind)
    (self : GoString) (data : GoString) : GoString × Option ErrKind :=
  let str := data
  if str = ascii "null" then (self, none)
  else
    match Unquote str with
    | (_, some err) => (self, some err)
    | (str, none) => (str, none)

/-! ## card_test.go -/

/-- The test table `cards`: number, expected type, expected validity. -/
def cards : List (GoString × String × Bool) :=
  [ (ascii "4242424242424242", Visa, true),
    (ascii "4213729238347292", Visa, false),
    (ascii "79927398713", UnknownCard, true),
    (ascii "79927398710", UnknownCard, false),
    (ascii "601134239348202", Discover, false),
    (ascii "344347386473833", AmericanExpress, false),
    (ascii "374347386473833", AmericanExpress, false),
    (ascii "361134239348202", DinersClub, false),
    (ascii "300134239348202", DinersClub, false),
    (ascii "521134239348202", MasterCard, false),
    (ascii "380134239348202", JCB, false),
    (ascii "180034239348202", JCB, false) ]

/-! ## Specification vocabulary -/

/-- An ASCII decimal digit `0`..`9`. -/
abbrev isDigit (c : Byte) : Prop := 48 ≤ c.val ∧ c.val ≤ 57

/-- The numeric value of an ASCII digit. -/
def digitVal (c : Byte) : Nat := c.val - 48

/-- The contribution to the Luhn sum of the digit `d` at distance `k` from the
right end: unchanged at an even distance, doubled at an odd distance, with 9
subtracted when the doubled value exceeds 9. -/
def luhnTerm (k d : Nat) : Nat :=
  if k % 2 = 0 then d else if 2 * d > 9 then 2 * d - 9 else 2 * d

/-- The Luhn sum of a digit string, as the specification words it: position `k`
of the reversed string is the digit at distance `k` from the right end. -/
def luhnSum (s : GoString) : Nat :=
  (s.reverse.enum.map (fun p => luhnTerm p.1 (digitVal p.2))).sum

/-- The number written by the ASCII digits `ds`, most significant first, read on
top of the number `n` already read. -/
def decValFrom (n : Nat) (ds : GoString) : Nat :=
  ds.foldl (fun acc c => acc * 10 + digitVal c) n

/-- The number written by a string of ASCII digits. -/
def decVal (ds : GoString) : Nat := decValFrom 0 ds

/-- The integer that a text denotes when it is an optional sign `+` or `-`
followed by a non-empty string of ASCII decimal digits; `none` for every other
text. -/
def intText (data : GoString) : Option Int :=
  match data with
  | [] => none
  | c :: rest =>
    if c = 43 then
      (if rest ≠ [] ∧ ∀ d ∈ rest, isDigit d then some (decVal rest : Int) else none)
    else if c = 45 then
      (if rest ≠ [] ∧ ∀ d ∈ rest, isDigit d then some (-(decVal rest : Int)) else none)
    else if ∀ d ∈ data, isDigit d then some (decVal data : Int)
    else none

/-- The 64-bit signed range. -/
abbrev fitsInt64 (v : Int) : Prop := -(2 : Int) ^ 63 ≤ v ∧ v < (2 : Int) ^ 63

/-- The digits of a natural number in base 10, most significant first, as ASCII
(`0` for zero). -/
def formatNat (n : Nat) : GoString :=
  if n = 0 then [48] else (Nat.digits 10 n).reverse.map (fun d => Fin.ofNat (d + 48))

/-- The base-10 text of an integer, as `strconv.FormatInt(n, 10)` renders it: a
minus sign for a negative number, then the digits without leading zeros. -/
def formatInt (n : Int) : GoString :=
  if n < 0 then 45 :: formatNat n.natAbs else formatNat n.natAbs

/-- Texts that are not integers: the empty text, `abc`, `1.5`, `1e3`, a number
after a blank, `NULL`, the quoted `"5"` and `9223372036854775808` (that is 2^63). -/
def badIntTexts : List GoString :=
  [ascii "", ascii "abc", ascii "1.5", ascii "1e3", ascii " 1", ascii "NULL",
    34 :: ascii "5" ++ [34], ascii "9223372036854775808"]

/-- The texts that `ParseBool` reads as true. -/
def trueTexts : List GoString :=
  [ascii "1", ascii "t", ascii "T", ascii "TRUE", ascii "true", ascii "True"]

/-- The texts that `ParseBool` reads as false. -/
def falseTexts : List GoString :=
  [ascii "0", ascii "f", ascii "F", ascii "FALSE", ascii "false", ascii "False"]

/-! ## unicode/utf8 and strconv: unquoting -/

/-- `utf8.RuneError`, the replacement character U+FFFD. -/
def RuneError : Nat := 0xFFFD

/-- `utf8.DecodeRuneInString`: the first rune of `s` and its width in bytes;
`(RuneError, 1)` for an invalid or truncated sequence, `(RuneError, 0)` for the
empty string. -/
def DecodeRuneInString (s : GoString) : Nat × Nat :=
  match s with
  | [] => (RuneError, 0)
  | s0 :: rest =>
    let x := first s0
    if x ≥ 0xF0 then
      -- `mask := rune(x) << 31 >> 31`: zero for `as`, all ones for `xx`
      (if x % 2 = 1 then RuneError else s0.val, 1)
    else
      let sz := x % 8
      let accept := acceptRanges (x / 16)
      if s.length < sz then (RuneError, 1)
      else
        match rest with
        | [] => (RuneError, 1)
        | s1 :: rest1 =>
          if s1.val < accept.1 ∨ accept.2 < s1.val then (RuneError, 1)
          else if sz ≤ 2 then (((s0.val &&& 0x1F) <<< 6) ||| (s1.val &&& 0x3F), 2)
          else
            match rest1 with
            | [] => (RuneError, 1)
            | s2 :: rest2 =>
              if s2.val < 0x80 ∨ 0xBF < s2.val then (RuneError, 1)
              else if sz ≤ 3 then
                (((s0.val &&& 0x0F) <<< 12) ||| ((s1.val &&& 0x3F) <<< 6)
                  ||| (s2.val &&& 0x3F), 3)
              else
                match rest2 with
                | [] => (RuneError, 1)
                | s3 :: _ =>
                  if s3.val < 0x80 ∨ 0xBF < s3.val then (RuneError, 1)
                  else
                    (((s0.val &&& 0x07) <<< 18) ||| ((s1.val &&& 0x3F) <<< 12)
                      ||| ((s2.val &&& 0x3F) <<< 6) ||| (s3.val &&& 0x3F), 4)

/-- `utf8.ValidString`: whether `s` consists entirely of valid UTF-8 sequences. -/
def ValidString : GoString → Bool
  | [] => true
  | si :: rest =>
    if si.val < 0x80 then ValidString rest
    else
      let x := first si
      if x = 0xF1 then false
      else
        let size := x % 8
        if (si :: rest).length < size then false
        else
          let accept := acceptRanges (x / 16)
          match rest with
          | [] => false
          | c1 :: r1 =>
            if c1.val < accept.1 ∨ accept.2 < c1.val then false
            else if size = 2 then ValidString r1
            else
              match r1 with
              | [] => false
              | c2 :: r2 =>
                if c2.val < 0x80 ∨ 0xBF < c2.val then false
                else if size = 3 then ValidString r2
                else
                  match r2 with
                  | [] => false
                  | c3 :: r3 =>
                    if c3.val < 0x80 ∨ 0xBF < c3.val then false
                    else ValidString r3

/-- `utf8.ValidRune`, on a rune given by its 32-bit pattern (a pattern of 2^31 or
more is a negative rune, invalid like any value above `MaxRune`). -/
def ValidRune (r : Nat) : Bool :=
  decide (r < 0xD800) || decide (0xDFFF < r ∧ r ≤ 0x10FFFF)

/-- `utf8.AppendRune(p, r)`: `p` followed by the UTF-8 encoding of `r`, that of
`RuneError` when `r` is a surrogate or out of range. -/
def AppendRune (p : GoString) (r : Nat) : GoString :=
  if r ≤ 0x7F then p ++ [Fin.ofNat r]
  else if r ≤ 0x7FF then
    p ++ [Fin.ofNat (0xC0 ||| (r >>> 6) % 256), Fin.ofNat (0x80 ||| (r % 256 &&& 0x3F))]
  else
    let r3 := if r > 0x10FFFF ∨ (0xD800 ≤ r ∧ r ≤ 0xDFFF) then RuneError else r
    if r > 0x10FFFF ∨ (0xD800 ≤ r ∧ r ≤ 0xDFFF) ∨ r ≤ 0xFFFF then
      p ++ [Fin.ofNat (0xE0 ||| (r3 >>> 12) % 256),
        Fin.ofNat (0x80 ||| ((r3 >>> 6) % 256 &&& 0x3F)),
        Fin.ofNat (0x80 ||| (r3 % 256 &&& 0x3F))]
    else
      p ++ [Fin.ofNat (0xF0 ||| (r >>> 18) % 256),
        Fin.ofNat (0x80 ||| ((r >>> 12) % 256 &&& 0x3F)),
        Fin.ofNat (0x80 ||| ((r >>> 6) % 256 &&& 0x3F)),
        Fin.ofNat (0x80 ||| (r % 256 &&& 0x3F))]

/-- `unhex(b)` of `strconv`: the value of a hexadecimal digit, `none` for `ok = false`. -/
def unhex (b : Byte) : Option Nat :=
  if 48 ≤ b.val ∧ b.val ≤ 57 then some (b.val - 48)
  else if 97 ≤ b.val ∧ b.val ≤ 102 then some (b.val - 97 + 10)
  else if 65 ≤ b.val ∧ b.val ≤ 70 then some (b.val - 65 + 10)
  else none

/-- The loop `v = v<<4 | x` of `UnquoteChar` over the hexadecimal digits `ds`;
`none` when a byte is not a hexadecimal digit. -/
def hexLoop : GoString → Nat → Option Nat
  | [], v => some v
  | b :: rest, v =>
    match unhex b with
    | none => none
    | some x => hexLoop rest ((v <<< 4) ||| x)

/-- The loop `v = (v << 3) | x` of `UnquoteChar` over the octal digits `ds`;
`none` when a byte is not an octal digit. -/
def octLoop : GoString → Nat → Option Nat
  | [], v => some v
  | b :: rest, v =>
    if b.val < 48 ∨ b.val - 48 > 7 then none
    else octLoop rest ((v <<< 3) ||| (b.val - 48))

/-- The cases `'x'`, `'u'`, `'U'` of the escape switch of `strconv.UnquoteChar`:
`c` is the byte after the backslash and `s` the text after `c`.  The rune is
built in 32 bits; a value of 2^31 or more is a negative rune and invalid. -/
def unquoteHex (c : Byte) (s : GoString) : Nat × Bool × GoString × Option ErrKind :=
  let n := if c = 120 then 2 else if c = 117 then 4 else 8
  if s.length < n then (0, false, [], some ErrKind.ErrSyntax)
  else
    match hexLoop (s.take n) 0 with
    | none => (0, false, [], some ErrKind.ErrSyntax)
    | some v =>
      if c = 120 then (v, false, s.drop n, none)
      else if !ValidRune v then (0, false, [], some ErrKind.ErrSyntax)
      else (v, true, s.drop n, none)

/-- The cases `'0'` to `'7'` of the escape switch of `strconv.UnquoteChar`. -/
def unquoteOctal (c : Byte) (s : GoString) : Nat × Bool × GoString × Option ErrKind :=
  if s.length < 2 then (0, false, [], some ErrKind.ErrSyntax)
  else
    match octLoop (s.take 2) (c.val - 48) with
    | none => (0, false, [], some ErrKind.ErrSyntax)
    | some v =>
      if v > 255 then (0, false, [], some ErrKind.ErrSyntax)
      else (v, false, s.drop 2, none)

/-- The hard case of `strconv.UnquoteChar`, where the first byte is a backslash:
`s1` is the text after the backslash.  The results are `(value, multibyte, tail,
err)`; when `err` is `ErrSyntax` the other results are not used by the caller. -/
def unquoteEscape (s1 : GoString) (quote : Byte) : Nat × Bool × GoString × Option ErrKind :=
  match s1 with
  | [] => (0, false, [], some ErrKind.ErrSyntax)
  | c :: s =>
    if c = 97 then (7, false, s, none)
    else if c = 98 then (8, false, s, none)
    else if c = 102 then (12, false, s, none)
    else if c = 110 then (10, false, s, none)
    else if c = 114 then (13, false, s, none)
    else if c = 116 then (9, false, s, none)
    else if c = 118 then (11, false, s, none)
    else if c = 120 ∨ c = 117 ∨ c = 85 then unquoteHex c s
    else if 48 ≤ c.val ∧ c.val ≤ 55 then unquoteOctal c s
    else if c = 92 then (92, false, s, none)
    else if c = 39 ∨ c = 34 then
      -- `if c != quote { err = ErrSyntax; return }`
      if c = quote then (c.val, false, s, none)
      else (0, false, [], some ErrKind.ErrSyntax)
    else (0, false, [], some ErrKind.ErrSyntax)

/-- `strconv.UnquoteChar(s, quote)`: the results `(value, multibyte, tail, err)`.
When `err` is `ErrSyntax` the other results are not used by the caller. -/
def UnquoteChar (s : GoString) (quote : Byte) : Nat × Bool × GoString × Option ErrKind :=
  match s with
  | [] => (0, false, [], some ErrKind.ErrSyntax)
  | c :: s1 =>
    if c = quote ∧ (quote = 39 ∨ quote = 34) then (0, false, [], some ErrKind.ErrSyntax)
    else if c.val ≥ 0x80 then
      ((DecodeRuneInString s).1, true, s.drop (DecodeRuneInString s).2, none)
    else if c ≠ 92 then (c.val, false, s1, none)
    else unquoteEscape s1 quote

/-- `index(s, c)` of `strconv`: the position of the first byte `c` of `s`, `none`
for the result -1. -/
def index : GoString → Byte → Option Nat
  | [], _ => none
  | b :: rest, c => if b = c then some 0 else (index rest c).map (fun i => i + 1)

/-- The loop of `strconv.unquote` over a quoted string with escape sequences,
after the starting quote: `inp` is the text left, `buf` the bytes unquoted so far.
The result is `some none` when the loop returns `ErrSyntax`, `some (some (inp, buf))`
when the loop ends, and `none` when the iteration bound is used up. -/
def unquoteLoop (quote : Byte) : Nat → GoString → GoString →
    Option (Option (GoString × GoString))
  | 0, _, _ => none
  | fuel + 1, inp, buf =>
    match inp with
    | [] => some (some (inp, buf))
    | c :: _ =>
      if c = quote then some (some (inp, buf))
      else
        match UnquoteChar inp quote with
        | (r, multibyte, rem, err) =>
          if c = 10 ∨ err ≠ none then some none
          else
            let buf1 := if r < 0x80 ∨ multibyte = false then buf ++ [Fin.ofNat r]
              else AppendRune buf r
            if quote = 39 then some (some (rem, buf1))
            else unquoteLoop quote fuel rem buf1

/-- `strconv.unquote(in, true)`: the results `(out, rem, err)`. -/
def unquote (inp : GoString) : GoString × GoString × Option ErrKind :=
  match inp with
  | [] => ([], inp, some ErrKind.ErrSyntax)
  | quote :: in1 =>
    if inp.length < 2 then ([], inp, some ErrKind.ErrSyntax)
    else
      match index in1 quote with
      | none => ([], inp, some ErrKind.ErrSyntax)
      | some i =>
        let e := i + 2
        if quote = 96 then
          if ¬ (13 : Byte) ∈ inp.take e then (((inp.take e).drop 1).take (e - 2), inp.drop e, none)
          else ((((inp.take e).drop 1).take (e - 2)).filter (fun b => b ≠ 13), inp.drop e, none)
        else if quote = 34 ∨ quote = 39 then
          let valid : Bool :=
            if quote = 34 then ValidString (((inp.take e).drop 1).take (e - 2))
            else
              let rn := DecodeRuneInString (((inp.take e).drop 1).take (e - 2))
              decide (1 + rn.2 + 1 = e ∧ (rn.1 ≠ RuneError ∨ rn.2 ≠ 1))
          if ¬ (92 : Byte) ∈ inp.take e ∧ ¬ (10 : Byte) ∈ inp.take e ∧ valid = true then
            (((inp.take e).drop 1).take (e - 2), inp.drop e, none)
          else
            match unquoteLoop quote (in1.length + 1) in1 [] with
            | some (some (c :: rest, buf)) =>
              if c = quote then (buf, rest, none) else ([], inp, some ErrKind.ErrSyntax)
            | _ => ([], inp, some ErrKind.ErrSyntax)
        else ([], inp, some ErrKind.ErrSyntax)

/-- `strconv.Unquote(s)`. -/
def Unquote (s : GoString) : GoString × Option ErrKind :=
  match unquote s with
  | (out, rem, err) => if rem.length > 0 then ([], some ErrKind.ErrSyntax) else (out, err)

/-- A text between double quotes. -/
def quoted (s : GoString) : GoString := 34 :: s ++ [34]

/-- A quoted literal in the sense of `strconv.Unquote`: a text of at least two
bytes that starts with a double quote, a single quote or a backquote and ends
with that same character. -/
abbrev isQuotedLiteral (data : GoString) : Prop :=
  2 ≤ data.length ∧ data.head? = data.getLast? ∧
    (data.head? = some 34 ∨ data.head? = some 39 ∨ data.head? = some 96)

/-! ## net/url, net/http and engine.go

`query` calls the libraries `net/url`, `net/http`, `io/ioutil` and
`encoding/json`.  The calls whose result the claims do not look into are fields of
a `Library` record.  `buildRequest` is the part of `query` up to the call
`http.NewRequest(method, endpoint.String(), reqBody)`: its result holds the
arguments of that call, with the assembled value `endpoint` as the field `URL`,
and the header set afterwards.  The request itself, whose URL `http.NewRequest`
parses from the text `endpoint.String()`, is `queryRequest`; it follows the models
of `url.Parse`, `(*URL).String` and `http.NewRequest` below.  The diagnostic
output under `_log` is not modelled. -/

/-- `url.Userinfo`: a username and an optional password. -/
structure Userinfo where
  username : GoString
  password : GoString
  passwordSet : Bool
deriving DecidableEq, Repr

/-- `url.User(username)`: the user name alone, no password set. -/
def User (username : GoString) : Userinfo := ⟨username, [], false⟩

/-- `url.URL`.  The field `OmitHost` is left out: `String` reads it only when
`Host` is empty and `User` is nil, and `query` always sets `User`. -/
structure URL where
  Scheme : GoString
  Opaque : GoString
  User : Option Userinfo
  Host : GoString
  Path : GoString
  RawPath : GoString
  ForceQuery : Bool
  RawQuery : GoString
  Fragment : GoString
  RawFragment : GoString
deriving DecidableEq, Repr

/-- `url.Values`, a map from a key to its list of values; `none` is the nil map. -/
abbrev Values := Option (List (GoString × List GoString))

/-- A request: the method, the URL, the body (`none` for a nil reader) and the
headers.  In the result of `buildRequest` the field `URL` is the value `endpoint`
whose text `query` passes to `http.NewRequest`; in the result of `NewRequest` and
of `queryRequest` it is the URL of the `*http.Request`. -/
structure Request where
  Method : GoString
  URL : URL
  Body : Option GoString
  Header : List (GoString × GoString)
deriving DecidableEq, Repr

/-- What `http.DefaultClient.Do` hands back: the status code and the result of
reading the body with `ioutil.ReadAll`. -/
structure Response (ε : Type) where
  StatusCode : Int
  Body : Except ε GoString

/-- Modelled from the spec: the detail object of the Domain Error type of
`error.go`, a machine error `type` and `code`. -/
structure ErrorDetail where
  Type_ : GoString
  Code : GoString
deriving DecidableEq, Repr

/-- Modelled from the spec: the Domain Error type `Error` of `error.go`, a
human-readable message, an optional nested detail object and a request
identifier. -/
structure Error where
  Message : GoString
  Detail : Option ErrorDetail
  RequestID : GoString
deriving DecidableEq, Repr

/-- The library calls of `query`, for a type `ε` of library errors and a type `τ`
of decoding targets: `url.Parse`, `Values.Encode`, the error of
`http.NewRequest(method, endpoint.String(), body)` if any, `http.DefaultClient.Do`
with the read of the body, `json.Unmarshal` into an `Error` (the target
afterwards) and `json.Unmarshal` into the target `v` (the target afterwards and
the error). -/
structure Library (ε τ : Type) where
  Parse : GoString → Except ε URL
  Encode : Values → GoString
  NewRequestErr : GoString → URL → Option ε
  Do : Request → Except ε (Response ε)
  UnmarshalError : GoString → Error → Error
  Unmarshal : GoString → τ → τ × Option ε

/-- The error value that `query` returns: an error of a library, or a pointer to
a Domain Error. -/
inductive QueryErr (ε : Type) where
  | lib (e : ε)
  | domain (e : Error)

/-- The constant `apiVersion`. -/
def apiVersion : GoString := ascii "2018-03-26"

/-- The first part of `query`, up to `req.Header.Set`: the request it creates, or
the error of `url.Parse` or `http.NewRequest`. -/
def buildRequest {ε τ : Type} (L : Library ε τ) (_url _key : GoString)
    (method path : GoString) (values : Values) : Except ε Request :=
  match L.Parse _url with
  | .error err => .error err
  | .ok endpoint =>
    -- endpoint.Path = path; endpoint.User = url.User(_key)
    let endpoint1 : URL := ⟨endpoint.Scheme, endpoint.Opaque, some (User _key), endpoint.Host,
      path, endpoint.RawPath, endpoint.ForceQuery, endpoint.RawQuery, endpoint.Fragment,
      endpoint.RawFragment⟩
    -- if method == "GET" { endpoint.RawQuery = values.Encode() }
    let endpoint2 : URL :=
      if method = ascii "GET" then
        ⟨endpoint1.Scheme, endpoint1.Opaque, endpoint1.User, endpoint1.Host, endpoint1.Path,
          endpoint1.RawPath, endpoint1.ForceQuery, L.Encode values, endpoint1.Fragment,
          endpoint1.RawFragment⟩
      else endpoint1
    -- if method != "GET" && values != nil { reqBody = strings.NewReader(values.Encode()) }
    let reqBody : Option GoString :=
      if method ≠ ascii "GET" ∧ values ≠ none then some (L.Encode values) else none
    match L.NewRequestErr method endpoint2 with
    | some err => .error err
    | none => .ok ⟨method, endpoint2, reqBody, [(ascii "Bhojpur-Version", apiVersion)]⟩

/-- The last part of `query`, once `http.DefaultClient.Do` has returned the
response `r`: the target afterwards and the error returned. -/
def readResponse {ε τ : Type} (L : Library ε τ) (r : Response ε) (v : τ) :
    τ × Option (QueryErr ε) :=
  match r.Body with
  | .error err => (v, some (QueryErr.lib err))
  | .ok body =>
    if r.StatusCode ≠ 200 then
      (v, some (QueryErr.domain (L.UnmarshalError body ⟨[], none, []⟩)))
    else
      match L.Unmarshal body v with
      | (v1, some err) => (v1, some (QueryErr.lib err))
      | (v1, none) => (v1, none)

/-- `query(method, path, values, v)` with the package variables `_url` and `_key`:
the target afterwards and the error returned. -/
def query {ε τ : Type} (L : Library ε τ) (_url _key : GoString)
    (method path : GoString) (values : Values) (v : τ) : τ × Option (QueryErr ε) :=
  match buildRequest L _url _key method path values with
  | .error err => (v, some (QueryErr.lib err))
  | .ok req =>
    match L.Do req with
    | .error err => (v, some (QueryErr.lib err))
    | .ok r => readResponse L r v

/-- `shouldEscape(c, encodeQueryComponent)` of `net/url`: every byte but the
letters, the digits and `-`, `_`, `.`, `~` is escaped in a query component. -/
def shouldEscapeQuery (c : Byte) : Bool :=
  if (97 ≤ c.val ∧ c.val ≤ 122) ∨ (65 ≤ c.val ∧ c.val ≤ 90) ∨ (48 ≤ c.val ∧ c.val ≤ 57) then
    false
  else if c = 45 ∨ c = 95 ∨ c = 46 ∨ c = 126 then false
  else true

/-- The digit `"0123456789ABCDEF"[n]` of `net/url`, for `n < 16`. -/
def upperhex (n : Nat) : Byte := if n < 10 then Fin.ofNat (48 + n) else Fin.ofNat (55 + n)

/-- `url.QueryEscape(s)`: a blank becomes `+`, an escaped byte becomes `%XX`. -/
def QueryEscape (s : GoString) : GoString :=
  s.flatMap (fun c =>
    if c = 32 then [43]
    else if shouldEscapeQuery c then [37, upperhex (c.val / 16), upperhex (c.val % 16)]
    else [c])

/-- `Values.Encode()`: the pairs `key=value`, escaped, joined by `&`, the keys in
increasing order; the empty string for a nil or empty map. -/
def EncodeValues (v : Values) : GoString :=
  match v with
  | none => []
  | some m =>
    let keys := m.insertionSort (fun a b => a.1 ≤ b.1)
    let pairs := keys.flatMap (fun kv => kv.2.map (fun x => QueryEscape kv.1 ++ [61] ++ QueryEscape x))
    (pairs.intersperse [38]).flatten

/-! ## net/url: escaping, `Parse` and `String`; net/http: `NewRequest`

The functions of `net/url` and `net/http` below are translated one by one from the
library.  An error is a text that names it; the wrapping of the errors of
`url.Parse` in a `*url.Error` is not modelled. -/

/-- The escaping modes of `net/url`. -/
inductive encoding where
  | encodePath
  | encodePathSegment
  | encodeHost
  | encodeZone
  | encodeUserPassword
  | encodeQueryComponent
  | encodeFragment
deriving DecidableEq, Repr

/-- `shouldEscape(c, mode)` of `net/url`. -/
def shouldEscape (c : Byte) (mode : encoding) : Bool :=
  -- unreserved characters (alphanum)
  if (97 ≤ c.val ∧ c.val ≤ 122) ∨ (65 ≤ c.val ∧ c.val ≤ 90) ∨ (48 ≤ c.val ∧ c.val ≤ 57) then
    false
  -- the bytes `!$&'()*+,;=:[]<>"` that a host allows
  else if (mode = encoding.encodeHost ∨ mode = encoding.encodeZone) ∧
      c ∈ ([33, 36, 38, 39, 40, 41, 42, 43, 44, 59, 61, 58, 91, 93, 60, 62, 34] : List Byte) then
    false
  -- unreserved characters (mark) `-_.~`
  else if c ∈ ([45, 95, 46, 126] : List Byte) then false
  -- reserved characters `$&+,/:;=?@`
  else if c ∈ ([36, 38, 43, 44, 47, 58, 59, 61, 63, 64] : List Byte) then
    match mode with
    | encoding.encodePath => decide (c = 63)
    | encoding.encodePathSegment => decide (c = 47 ∨ c = 59 ∨ c = 44 ∨ c = 63)
    | encoding.encodeUserPassword => decide (c = 64 ∨ c = 47 ∨ c = 63 ∨ c = 58)
    | encoding.encodeQueryComponent => true
    | encoding.encodeFragment => false
    | _ => true
  -- the bytes `!()*` that a fragment allows
  else if mode = encoding.encodeFragment ∧ c ∈ ([33, 40, 41, 42] : List Byte) then false
  else true

/-- `ishex(c)` of `net/url`. -/
def url_ishex (c : Byte) : Bool :=
  decide ((48 ≤ c.val ∧ c.val ≤ 57) ∨ (97 ≤ c.val ∧ c.val ≤ 102) ∨ (65 ≤ c.val ∧ c.val ≤ 70))

/-- `unhex(c)` of `net/url`: the value of a hexadecimal digit, 0 for another byte. -/
def url_unhex (c : Byte) : Nat :=
  if 48 ≤ c.val ∧ c.val ≤ 57 then c.val - 48
  else if 97 ≤ c.val ∧ c.val ≤ 102 then c.val - 97 + 10
  else if 65 ≤ c.val ∧ c.val ≤ 70 then c.val - 65 + 10
  else 0

/-- `escape(s, mode)` of `net/url`: a byte that `shouldEscape` becomes `%XX` in
upper-case hexadecimal digits (a blank becomes `+` in a query component), every
other byte is kept. -/
def escape (s : GoString) (mode : encoding) : GoString :=
  s.flatMap (fun c =>
    if shouldEscape c mode then
      if c = 32 ∧ mode = encoding.encodeQueryComponent then [43]
      else [37, upperhex (c.val / 16), upperhex (c.val % 16)]
    else [c])

/-- The first loop of `unescape(s, mode)` of `net/url`, which checks the text:
`true` when it returns no error. -/
def unescapeValid (mode : encoding) : GoString → Bool
  | [] => true
  | c :: rest =>
    if c = 37 then
      match rest with
      | a :: b :: rest1 =>
        if !url_ishex a || !url_ishex b then false
        else if mode = encoding.encodeHost ∧ url_unhex a < 8 ∧ ¬ (a = 50 ∧ b = 53) then false
        else if mode = encoding.encodeZone ∧ ¬ (a = 50 ∧ b = 53) ∧
            url_unhex a * 16 + url_unhex b ≠ 32 ∧
            shouldEscape (Fin.ofNat (url_unhex a * 16 + url_unhex b)) encoding.encodeHost = true
          then false
        else unescapeValid mode rest1
      | _ => false
    else if (mode = encoding.encodeHost ∨ mode = encoding.encodeZone) ∧ c.val < 128 ∧
        shouldEscape c encoding.encodeHost = true then false
    else unescapeValid mode rest

/-- The second loop of `unescape(s, mode)` of `net/url`, which decodes a checked
text: `%XX` becomes the byte `XX`, and `+` a blank in a query component. -/
def unescapeBytes (mode : encoding) : GoString → GoString
  | [] => []
  | c :: rest =>
    if c = 37 then
      match rest with
      | a :: b :: rest1 => Fin.ofNat (url_unhex a * 16 + url_unhex b) :: unescapeBytes mode rest1
      | _ => []
    else if c = 43 then
      (if mode = encoding.encodeQueryComponent then 32 else 43) :: unescapeBytes mode rest
    else c :: unescapeBytes mode rest

/-- `unescape(s, mode)` of `net/url`.  The shortcut that returns `s` itself when
it has no `%` (and no `+` in a query component) gives what the second loop gives. -/
def unescape (s : GoString) (mode : encoding) : Except String GoString :=
  if unescapeValid mode s then .ok (unescapeBytes mode s) else .error "invalid URL escape"

/-- `validEncoded(s, mode)` of `net/url`. -/
def validEncoded (s : GoString) (mode : encoding) : Bool :=
  s.all (fun c =>
    if c ∈ ([33, 36, 38, 39, 40, 41, 42, 43, 44, 59, 61, 58, 64] : List Byte) then true
    else if c = 91 ∨ c = 93 then true
    else if c = 37 then true
    else !shouldEscape c mode)

/-- `validUserinfo(s)` of `net/url`: letters, digits and ``-._:~!$&'()*+,;=%@``.
The loop of the source runs over runes; a rune of a byte of 0x80 or more is none
of these. -/
def validUserinfo (s : GoString) : Bool :=
  s.all (fun c =>
    if (65 ≤ c.val ∧ c.val ≤ 90) ∨ (97 ≤ c.val ∧ c.val ≤ 122) ∨ (48 ≤ c.val ∧ c.val ≤ 57) then
      true
    else decide (c ∈ ([45, 46, 95, 58, 126, 33, 36, 38, 39, 40, 41, 42, 43, 44, 59, 61, 37, 64]
      : List Byte)))

/-- `validOptionalPort(port)` of `net/url`: empty, or a colon and digits. -/
def validOptionalPort (port : GoString) : Bool :=
  match port with
  | [] => true
  | c :: ds => if c ≠ 58 then false else ds.all (fun b => decide (48 ≤ b.val ∧ b.val ≤ 57))

/-- `stringContainsCTLByte(s)` of `net/url`. -/
def stringContainsCTLByte (s : GoString) : Bool :=
  s.any (fun b => decide (b.val < 32 ∨ b = 127))

/-- `strings.Cut(s, sep)` for a separator of one byte: the text before the first
`sep`, the text after it, and whether `sep` was found. -/
def Cut (s : GoString) (sep : Byte) : GoString × GoString × Bool :=
  match index s sep with
  | none => (s, [], false)
  | some i => (s.take i, s.drop (i + 1), true)

/-- `strings.LastIndex(s, sep)` for a separator of one byte, `none` for -1. -/
def LastIndex : GoString → Byte → Option Nat
  | [], _ => none
  | b :: rest, c =>
    match LastIndex rest c with
    | some i => some (i + 1)
    | none => if b = c then some 0 else none

/-- `strings.Index(s, substr)`, `none` for -1. -/
def Index : GoString → GoString → Option Nat
  | [], substr => if substr = [] then some 0 else none
  | b :: rest, substr =>
    if substr.isPrefixOf (b :: rest) then some 0 else (Index rest substr).map (fun i => i + 1)

/-- `strings.ToLower(s)` on ASCII text. -/
def ToLower (s : GoString) : GoString :=
  s.map (fun c => if 65 ≤ c.val ∧ c.val ≤ 90 then c + 32 else c)

/-- The loop of `getScheme(rawURL)` of `net/url` from position `i` on, `rest`
being `rawURL[i:]`. -/
def getSchemeLoop (rawURL : GoString) : Nat → GoString → Except String (GoString × GoString)
  | _, [] => .ok ([], rawURL)
  | i, c :: rest =>
    if (97 ≤ c.val ∧ c.val ≤ 122) ∨ (65 ≤ c.val ∧ c.val ≤ 90) then getSchemeLoop rawURL (i + 1) rest
    else if (48 ≤ c.val ∧ c.val ≤ 57) ∨ c = 43 ∨ c = 45 ∨ c = 46 then
      if i = 0 then .ok ([], rawURL) else getSchemeLoop rawURL (i + 1) rest
    else if c = 58 then
      if i = 0 then .error "missing protocol scheme"
      else .ok (rawURL.take i, rawURL.drop (i + 1))
    else .ok ([], rawURL)

/-- `getScheme(rawURL)` of `net/url`: the scheme and the text after its colon, or
no scheme and the whole text. -/
def getScheme (rawURL : GoString) : Except String (GoString × GoString) :=
  getSchemeLoop rawURL 0 rawURL

/-- `parseHost(host)` of `net/url`.  The check of recent Go versions that a host
in square brackets is a valid IPv6 address is not modelled: it makes `parseHost`
fail on more texts and changes no result. -/
def parseHost (host : GoString) : Except String GoString :=
  if host.head? = some 91 then
    match LastIndex host 93 with
    | none => .error "missing ] in host"
    | some i =>
      if !validOptionalPort (host.drop (i + 1)) then .error "invalid port after host"
      else
        match Index (host.take i) (ascii "%25") with
        | some zone =>
          match unescape (host.take zone) encoding.encodeHost with
          | .error e => .error e
          | .ok host1 =>
            match unescape ((host.take i).drop zone) encoding.encodeZone with
            | .error e => .error e
            | .ok host2 =>
              match unescape (host.drop i) encoding.encodeHost with
              | .error e => .error e
              | .ok host3 => .ok (host1 ++ host2 ++ host3)
        | none => unescape host encoding.encodeHost
  else
    match LastIndex host 58 with
    | some i =>
      if !validOptionalPort (host.drop i) then .error "invalid port after host"
      else unescape host encoding.encodeHost
    | none => unescape host encoding.encodeHost

/-- `url.UserPassword(username, password)`. -/
def UserPassword (username password : GoString) : Userinfo := ⟨username, password, true⟩

/-- `parseAuthority(authority)` of `net/url`: the user information, `none` for
nil, and the host. -/
def parseAuthority (authority : GoString) : Except String (Option Userinfo × GoString) :=
  match LastIndex authority 64 with
  | none =>
    match parseHost authority with
    | .error e => .error e
    | .ok host => .ok (none, host)
  | some i =>
    match parseHost (authority.drop (i + 1)) with
    | .error e => .error e
    | .ok host =>
      if !validUserinfo (authority.take i) then .error "net/url: invalid userinfo"
      else if ¬ (58 : Byte) ∈ authority.take i then
        match unescape (authority.take i) encoding.encodeUserPassword with
        | .error e => .error e
        | .ok userinfo => .ok (some (User userinfo), host)
      else
        match unescape (Cut (authority.take i) 58).1 encoding.encodeUserPassword with
        | .error e => .error e
        | .ok username =>
          match unescape (Cut (authority.take i) 58).2.1 encoding.encodeUserPassword with
          | .error e => .error e
          | .ok password => .ok (some (UserPassword username password), host)

/-- `(*URL).setPath(p)` of `net/url`: the fields `Path` and `RawPath` afterwards. -/
def setPath (p : GoString) : Except String (GoString × GoString) :=
  match unescape p encoding.encodePath with
  | .error e => .error e
  | .ok path => .ok (path, if p = escape path encoding.encodePath then [] else p)

/-- `(*URL).setFragment(f)` of `net/url`: the fields `Fragment` and `RawFragment`
afterwards. -/
def setFragment (f : GoString) : Except String (GoString × GoString) :=
  match unescape f encoding.encodeFragment with
  | .error e => .error e
  | .ok frag => .ok (frag, if f = escape frag encoding.encodeFragment then [] else f)

/-- The split of `parse` at the query: from the text after the scheme, the text
before the query and the fields `ForceQuery` and `RawQuery`.  A single `?` at the
very end forces an empty query; else the query is what follows the first `?`. -/
def splitQuery (rest : GoString) : GoString × Bool × GoString :=
  if rest.getLast? = some 63 ∧ rest.count 63 = 1 then (rest.dropLast, true, [])
  else ((Cut rest 63).1, false, (Cut rest 63).2.1)

/-- The split of `parse` at the end of the authority: from the text after `//`,
the authority up to the first slash and the rest from that slash on. -/
def splitAuthority (s : GoString) : GoString × GoString :=
  match index s 47 with
  | some i => (s.take i, s.drop i)
  | none => (s, [])

/-- The part of `parse(rawURL, viaRequest)` of `net/url` that follows `getScheme`,
for `viaRequest = false`: `scheme` is the scheme in lower case and `rest0` the text
after it. -/
def parseAfterScheme (scheme rest0 : GoString) : Except String URL :=
  let rest := (splitQuery rest0).1
  let forceQuery := (splitQuery rest0).2.1
  let rawQuery := (splitQuery rest0).2.2
  if rest.head? ≠ some 47 ∧ scheme ≠ [] then
    -- a rootless path is opaque
    .ok ⟨scheme, rest, none, [], [], [], forceQuery, rawQuery, [], []⟩
  else if rest.head? ≠ some 47 ∧ (58 : Byte) ∈ (Cut rest 47).1 then
    .error "first path segment in URL cannot contain colon"
  else if (scheme ≠ [] ∨ rest.take 3 ≠ [47, 47, 47]) ∧ rest.take 2 = [47, 47] then
    match parseAuthority (splitAuthority (rest.drop 2)).1 with
    | .error e => .error e
    | .ok (user, host) =>
      match setPath (splitAuthority (rest.drop 2)).2 with
      | .error e => .error e
      | .ok (path, rawPath) =>
        .ok ⟨scheme, [], user, host, path, rawPath, forceQuery, rawQuery, [], []⟩
  else
    match setPath rest with
    | .error e => .error e
    | .ok (path, rawPath) =>
      .ok ⟨scheme, [], none, [], path, rawPath, forceQuery, rawQuery, [], []⟩

/-- `parse(rawURL, viaRequest)` of `net/url` for `viaRequest = false`, the value
that `url.Parse` passes. -/
def parse (rawURL : GoString) : Except String URL :=
  if stringContainsCTLByte rawURL then .error "net/url: invalid control character in URL"
  else if rawURL = [42] then .ok ⟨[], [], none, [], [42], [], false, [], [], []⟩
  else
    match getScheme rawURL with
    | .error e => .error e
    | .ok (scheme, rest) => parseAfterScheme (ToLower scheme) rest

/-- `url.Parse(rawURL)`. -/
def Parse (rawURL : GoString) : Except String URL :=
  match parse (Cut rawURL 35).1 with
  | .error e => .error e
  | .ok url =>
    if (Cut rawURL 35).2.1 = [] then .ok url
    else
      match setFragment (Cut rawURL 35).2.1 with
      | .error e => .error e
      | .ok (frag, rawFrag) =>
        .ok ⟨url.Scheme, url.Opaque, url.User, url.Host, url.Path, url.RawPath, url.ForceQuery,
          url.RawQuery, frag, rawFrag⟩

/-- `(*URL).EscapedPath()`. -/
def EscapedPath (u : URL) : GoString :=
  let escp : GoString := if u.Path = [42] then [42] else escape u.Path encoding.encodePath
  if u.RawPath ≠ [] ∧ validEncoded u.RawPath encoding.encodePath = true then
    match unescape u.RawPath encoding.encodePath with
    | .ok p => if p = u.Path then u.RawPath else escp
    | .error _ => escp
  else escp

/-- `(*URL).EscapedFragment()`. -/
def EscapedFragment (u : URL) : GoString :=
  if u.RawFragment ≠ [] ∧ validEncoded u.RawFragment encoding.encodeFragment = true then
    match unescape u.RawFragment encoding.encodeFragment with
    | .ok f => if f = u.Fragment then u.RawFragment else escape u.Fragment encoding.encodeFragment
    | .error _ => escape u.Fragment encoding.encodeFragment
  else escape u.Fragment encoding.encodeFragment

/-- `(*Userinfo).String()` on a pointer that is not nil. -/
def Userinfo_String (u : Userinfo) : GoString :=
  if u.passwordSet then
    escape u.username encoding.encodeUserPassword ++ [58] ++
      escape u.password encoding.encodeUserPassword
  else escape u.username encoding.encodeUserPassword

/-- `(*URL).String()`: the scheme with its colon, then the opaque text or else
`//`, the user information with `@`, the host and the path, then the query and the
fragment.  The model of `URL` has no field `OmitHost`: `String` reads it only when
`Host` is empty and `User` is nil. -/
def URL_String (u : URL) : GoString :=
  let scheme : GoString := if u.Scheme ≠ [] then u.Scheme ++ [58] else []
  let authority : GoString :=
    if u.Scheme ≠ [] ∨ u.Host ≠ [] ∨ u.User ≠ none then
      (if u.Host ≠ [] ∨ u.Path ≠ [] ∨ u.User ≠ none then [47, 47] else []) ++
      (match u.User with
        | some ui => Userinfo_String ui ++ [64]
        | none => []) ++
      (if u.Host ≠ [] then escape u.Host encoding.encodeHost else [])
    else []
  let path := EscapedPath u
  let slash : GoString :=
    if path ≠ [] ∧ path.head? ≠ some 47 ∧ u.Host ≠ [] then [47] else []
  let dot : GoString :=
    if scheme ++ authority ++ slash = [] ∧ (58 : Byte) ∈ (Cut path 47).1 then [46, 47] else []
  let query : GoString := if u.ForceQuery = true ∨ u.RawQuery ≠ [] then 63 :: u.RawQuery else []
  let fragment : GoString := if u.Fragment ≠ [] then 35 :: EscapedFragment u else []
  (if u.Opaque ≠ [] then scheme ++ u.Opaque
    else scheme ++ authority ++ slash ++ dot ++ path) ++ query ++ fragment

/-- `removeEmptyPort(host)` of `net/http`: a trailing colon is dropped when the
host has a port part, that is a colon after the last `]`. -/
def removeEmptyPort (host : GoString) : GoString :=
  let hasPort : Bool :=
    match LastIndex host 58, LastIndex host 93 with
    | some i, some j => decide (i > j)
    | some _, none => true
    | none, _ => false
  if hasPort ∧ host.getLast? = some 58 then host.dropLast else host

/-- `validMethod(method)` of `net/http`: not empty and made of token bytes, the
letters, the digits and ``!#$%&'*+-.^_`|~``. -/
def validMethod (method : GoString) : Bool :=
  decide (method ≠ []) &&
  method.all (fun c =>
    decide ((97 ≤ c.val ∧ c.val ≤ 122) ∨ (65 ≤ c.val ∧ c.val ≤ 90) ∨ (48 ≤ c.val ∧ c.val ≤ 57)
      ∨ c ∈ ([33, 35, 36, 37, 38, 39, 42, 43, 45, 46, 94, 95, 96, 124, 126] : List Byte)))

/-- `http.NewRequest(method, url, body)`: the method (`GET` for the empty one),
the URL parsed from the text `url`, its host without an empty port, the body, and
an empty header. -/
def NewRequest (method url : GoString) (body : Option GoString) : Except String Request :=
  if !validMethod (if method = [] then ascii "GET" else method) then
    .error "net/http: invalid method"
  else
    match Parse url with
    | .error e => .error e
    | .ok u =>
      .ok ⟨if method = [] then ascii "GET" else method,
        ⟨u.Scheme, u.Opaque, u.User, removeEmptyPort u.Host, u.Path, u.RawPath, u.ForceQuery,
          u.RawQuery, u.Fragment, u.RawFragment⟩, body, []⟩

/-- The request `req` of `query` that is handed to `http.DefaultClient.Do`:
`buildRequest` gives the arguments of `http.NewRequest(method, endpoint.String(),
reqBody)`, with the assembled `endpoint` as the field `URL`; `NewRequest` parses
the text of that URL again, and `req.Header.Set` adds the version header. -/
def queryRequest {τ : Type} (L : Library String τ) (_url _key : GoString)
    (method path : GoString) (values : Values) : Except String Request :=
  match buildRequest L _url _key method path values with
  | .error e => .error e
  | .ok r0 =>
    match NewRequest r0.Method (URL_String r0.URL) r0.Body with
    | .error e => .error e
    | .ok req => .ok ⟨req.Method, req.URL, req.Body, r0.Header⟩

/-- A scheme as `Parse` stores it: a lower-case letter, then lower-case letters,
digits, `+`, `-` and `.`. -/
def isScheme (s : GoString) : Prop :=
  (∃ c rest, s = c :: rest ∧ 97 ≤ c.val ∧ c.val ≤ 122) ∧
  ∀ c ∈ s, (97 ≤ c.val ∧ c.val ≤ 122) ∨ (48 ≤ c.val ∧ c.val ≤ 57) ∨ c = 43 ∨ c = 45 ∨ c = 46

/-- A library for the examples: the models `Parse` and `EncodeValues`, an
`http.NewRequest` that reports no error, a transport that answers `r` to every
request, and decoders that find nothing to store (as on a body that is not JSON
for `UnmarshalError`) and report no error. -/
def exampleLibrary (r : Response String) : Library String Unit :=
  ⟨Parse, EncodeValues, fun _ _ => none, fun _ => .ok r, fun _ e => e,
    fun _ v => (v, none)⟩

/-- The request without the user information of its URL. -/
def withoutUser (req : Request) : Request :=
  ⟨req.Method, ⟨req.URL.Scheme, req.URL.Opaque, none, req.URL.Host, req.URL.Path,
    req.URL.RawPath, req.URL.ForceQuery, req.URL.RawQuery, req.URL.Fragment,
    req.URL.RawFragment⟩, req.Body, req.Header⟩

/-! ## engine.go: the key -/

/-- `SetKey(key)`: the package variable `_key` afterwards. -/
def SetKey (key : GoString) (_key : GoString) : GoString := key

/-- `os.Getenv(name)` in the environment `env`, which gives the value of each
variable that is set: the empty string for a variable that is not set. -/
def Getenv (env : GoString → Option GoString) (name : GoString) : GoString :=
  (env name).getD []

/-- `SetKeyEnv()` in the environment `env`: the package variable `_key`
afterwards and the error returned (the message of `errors.New`). -/
def SetKeyEnv (env : GoString → Option GoString) (_key : GoString) :
    GoString × Option GoString :=
  let _key1 := Getenv env (ascii "BHOJPUR_API_KEY")
  if _key1 = [] then (_key1, some (ascii "BHOJPUR_API_KEY not found in environment"))
  else (_key1, none)

/-! ## Parameter sets: invoice_item.go, charge.go, customer.go

A `float64` amount is a value of a type `F` given with the test `Amount != 0` and
the rendering `strconv.FormatFloat(Amount, 'E', -1, 64)` as parameters. -/

/-- `Values.Add(key, value)` on a map that is not nil:
`v[key] = append(v[key], value)`. -/
def Values_Add : List (GoString × List GoString) → GoString → GoString →
    List (GoString × List GoString)
  | [], key, value => [(key, [value])]
  | (k, vs) :: rest, key, value =>
    if k = key then (k, vs ++ [value]) :: rest else (k, vs) :: Values_Add rest key value

/-- The map expression `v[key]`: the values of `key`, the nil slice when the map
has no such key. -/
def Values_index : List (GoString × List GoString) → GoString → List GoString
  | [], _ => []
  | (k, vs) :: rest, key => if k = key then vs else Values_index rest key

/-- The map has an entry for `key`. -/
def hasKey (m : List (GoString × List GoString)) (key : GoString) : Prop :=
  key ∈ m.map Prod.fst

/-- `strconv.Itoa(i)`, the base-10 text of `i`. -/
def Itoa (i : Int) : GoString := formatInt i

/-- `InvoiceItemParams`. -/
structure InvoiceItemParams (F : Type) where
  Customer : GoString
  Amount : F
  Currency : GoString
  Desc : GoString
  Invoice : GoString

/-- The arguments `(method, path, values)` of the call of `query` in
`InvoiceItemClient.Create`. -/
def InvoiceItemClient_Create {F : Type} (FormatFloat : F → GoString)
    (params : InvoiceItemParams F) : GoString × GoString × Values :=
  let values : List (GoString × List GoString) :=
    [(ascii "amount", [FormatFloat params.Amount]),
      (ascii "currency", [params.Currency]),
      (ascii "customer", [params.Customer])]
  let values1 := if params.Desc.length ≠ 0 then
    Values_Add values (ascii "description") params.Desc else values
  let values2 := if params.Invoice.length ≠ 0 then
    Values_Add values1 (ascii "invoice") params.Invoice else values1
  (ascii "POST", ascii "/v1/invoiceitems", some values2)

/-- The arguments `(method, path, values)` of the call of `query` in
`InvoiceItemClient.Update`; `isZero` is the test `Amount == 0`. -/
def InvoiceItemClient_Update {F : Type} (isZero : F → Bool) (FormatFloat : F → GoString)
    (id : GoString) (params : InvoiceItemParams F) : GoString × GoString × Values :=
  let values : List (GoString × List GoString) := []
  let values1 := if params.Desc.length ≠ 0 then
    Values_Add values (ascii "description") params.Desc else values
  let values2 := if isZero params.Amount = false then
    Values_Add values1 (ascii "invoice") (FormatFloat params.Amount) else values1
  (ascii "POST", ascii "/v1/invoiceitems/" ++ QueryEscape id, some values2)

/-- `CardParams`. -/
structure CardParams where
  Name : GoString
  Number : GoString
  ExpMonth : Int
  ExpYear : Int
  CVC : GoString
  Address1 : GoString
  Address2 : GoString
  AddressCountry : GoString
  AddressState : GoString
  AddressPIN : GoString

/-- The statement `if x != "" { values.Add(key, x) }`: the map afterwards. -/
def addNonEmpty (values : List (GoString × List GoString)) (key x : GoString) :
    List (GoString × List GoString) :=
  if x ≠ [] then Values_Add values key x else values

/-- `appendCardParamsToValues(c, values)`: the map `*values` afterwards. -/
def appendCardParamsToValues (c : CardParams) (values : List (GoString × List GoString)) :
    List (GoString × List GoString) :=
  let v1 := Values_Add values (ascii "card[number]") c.Number
  let v2 := Values_Add v1 (ascii "card[exp_month]") (Itoa c.ExpMonth)
  let v3 := Values_Add v2 (ascii "card[exp_year]") (Itoa c.ExpYear)
  let v4 := addNonEmpty v3 (ascii "card[name]") c.Name
  let v5 := addNonEmpty v4 (ascii "card[cvc]") c.CVC
  let v6 := addNonEmpty v5 (ascii "card[address_line1]") c.Address1
  let v7 := addNonEmpty v6 (ascii "card[address_line2]") c.Address2
  let v8 := addNonEmpty v7 (ascii "card[address_pin]") c.AddressPIN
  let v9 := addNonEmpty v8 (ascii "card[address_state]") c.AddressState
  addNonEmpty v9 (ascii "card[address_country]") c.AddressCountry

/-- `ChargeParams`; `Card` is `none` for a nil pointer. -/
structure ChargeParams (F : Type) where
  Amount : F
  Currency : GoString
  Customer : GoString
  Card : Option CardParams
  Token : GoString
  Desc : GoString
  StatementDescription : GoString

/-- The map `values` that `ChargeClient.Create` builds. -/
def ChargeClient_Create_values {F : Type} (FormatFloat : F → GoString)
    (params : ChargeParams F) : List (GoString × List GoString) :=
  let values : List (GoString × List GoString) :=
    [(ascii "amount", [FormatFloat params.Amount]),
      (ascii "currency", [params.Currency]),
      (ascii "description", [params.Desc])]
  let values1 :=
    match params.Card with
    | some card => appendCardParamsToValues card values
    | none =>
      if params.Token.length > 0 then Values_Add values (ascii "card") params.Token
      else Values_Add values (ascii "customer") params.Customer
  addNonEmpty values1 (ascii "statement_description") params.StatementDescription

/-- The arguments `(method, path, values)` of the call of `query` in
`ChargeClient.Create`. -/
def ChargeClient_Create {F : Type} (FormatFloat : F → GoString) (params : ChargeParams F) :
    GoString × GoString × Values :=
  (ascii "POST", ascii "/v1/charges", some (ChargeClient_Create_values FormatFloat params))

/-- The eight card type tags. -/
def cardTags : List String :=
  [Visa, MasterCard, AmericanExpress, DinersClub, Discover, JCB, RuPay, UnknownCard]

/-- The Luhn sum of the digits `l` taken from the right end, the first of them at
distance `k`. -/
def luhnSumFrom (k : Nat) (l : GoString) : Nat :=
  ((l.enumFrom k).map (fun p => luhnTerm p.1 (digitVal p.2))).sum

end Engine

namespace Engine

/-! ## Lemmas on the library functions -/

set_option maxRecDepth 100000 in
theorem Atoi_digit : ∀ c : Byte, isDigit c → Atoi [c] = ((digitVal c : Int), none) := by
  decide

set_option maxRecDepth 100000 in
theorem Atoi_single_nondigit : ∀ c : Byte, ¬ isDigit c → (Atoi [c]).2 ≠ none := by
  decide

set_option maxRecDepth 100000 in
theorem high_byte : ∀ c : Byte, 128 ≤ c.val → 9 < (c - 48).val ∧ c ≠ 45 ∧ c ≠ 43 := by
  decide

theorem Atoi_high (c : Byte) (t : GoString) (hc : 128 ≤ c.val) (ht : t.length ≤ 3) :
    (Atoi (c :: t)).2 ≠ none := by
  obtain ⟨h1, h2, h3⟩ := high_byte c hc
  have hlen : t.length + 1 < 19 := by omega
  simp [Atoi, hlen, h2, h3, atoiLoop, h1]

theorem size_ascii (c : Byte) (rest : GoString) (h : c.val < 128) :
    DecodeRuneInString_size (c :: rest) = 1 := by
  simp [DecodeRuneInString_size, first, h]

theorem size_bounds (c : Byte) (rest : GoString) :
    1 ≤ DecodeRuneInString_size (c :: rest) ∧ DecodeRuneInString_size (c :: rest) ≤ 4 := by
  unfold DecodeRuneInString_size
  simp only []
  repeat (first | split | omega)

/-- The pieces of `explode` put together give the string back: the iteration
bound of `explode` is never what ends the loop. -/
theorem explodeAux_join (n : Nat) : ∀ s : GoString, s.length ≤ n → (explodeAux n s).flatten = s := by
  induction n with
  | zero =>
    intro s hs
    have : s = [] := List.length_eq_zero.mp (by omega)
    subst this
    rfl
  | succ n ih =>
    intro s hs
    cases s with
    | nil => rfl
    | cons c rest =>
      have hb := (size_bounds c rest).1
      have hlen : ((c :: rest).drop (DecodeRuneInString_size (c :: rest))).length ≤ n := by
        rw [List.length_drop]
        simp only [List.length_cons] at hs ⊢
        omega
      simp only [explodeAux, List.flatten_cons]
      rw [ih _ hlen, List.take_append_drop]

theorem explode_join (s : GoString) : (explode s).flatten = s :=
  explodeAux_join s.length s (Nat.le_refl _)

/-- On a string of ASCII digits `explode` yields one single-byte string per digit. -/
theorem explodeAux_digits (n : Nat) : ∀ s : GoString, s.length ≤ n → (∀ c ∈ s, isDigit c) →
    explodeAux n s = s.map (fun c => [c]) := by
  induction n with
  | zero =>
    intro s hs _
    have : s = [] := List.length_eq_zero.mp (by omega)
    subst this
    rfl
  | succ n ih =>
    intro s hs hd
    cases s with
    | nil => rfl
    | cons c rest =>
      have hc : c.val < 128 := by
        have := hd c (List.mem_cons_self c rest)
        omega
      have hr : ∀ x ∈ rest, isDigit x := fun x hx => hd x (List.mem_cons_of_mem c hx)
      have hl : rest.length ≤ n := by
        simp only [List.length_cons] at hs
        omega
      simp only [explodeAux, size_ascii c rest hc, List.take_succ_cons, List.take_zero,
        List.drop_succ_cons, List.drop_zero, List.map_cons]
      rw [ih rest hl hr]

/-- The pieces of `explode` all convert exactly when every byte is a digit. -/
theorem explodeAux_err_iff (n : Nat) : ∀ s : GoString, s.length ≤ n →
    ((∃ p ∈ explodeAux n s, (Atoi p).2 ≠ none) ↔ ∃ c ∈ s, ¬ isDigit c) := by
  induction n with
  | zero =>
    intro s hs
    have : s = [] := List.length_eq_zero.mp (by omega)
    subst this
    simp [explodeAux]
  | succ n ih =>
    intro s hs
    cases s with
    | nil => simp [explodeAux]
    | cons c rest =>
      have hl : rest.length ≤ n := by
        simp only [List.length_cons] at hs
        omega
      by_cases hc : c.val < 128
      · simp only [explodeAux, size_ascii c rest hc, List.take_succ_cons, List.take_zero,
          List.drop_succ_cons, List.drop_zero, List.exists_mem_cons_iff]
        rw [ih rest hl]
        by_cases hd : isDigit c
        · have h1 : (Atoi [c]).2 = none := by rw [Atoi_digit c hd]
          simp [h1, hd]
        · have h1 := Atoi_single_nondigit c hd
          simp [h1, hd]
      · have hb := size_bounds c rest
        obtain ⟨w, hw⟩ : ∃ w, DecodeRuneInString_size (c :: rest) = w + 1 :=
          ⟨DecodeRuneInString_size (c :: rest) - 1, by omega⟩
        have hnd : ¬ isDigit c := by
          intro h
          omega
        have herr : (Atoi (c :: rest.take w)).2 ≠ none :=
          Atoi_high c (rest.take w) (by omega) (by
            rw [List.length_take]
            omega)
        constructor
        · intro _
          exact ⟨c, List.mem_cons_self c rest, hnd⟩
        · intro _
          refine ⟨c :: rest.take w, ?_, herr⟩
          simp only [explodeAux, hw, List.take_succ_cons]
          exact List.mem_cons_self _ _

theorem luhnLoop_err_iff : ∀ (l : List GoString) (even : Bool) (sum : Int),
    ((luhnLoop l even sum).2 ≠ none ↔ ∃ p ∈ l, (Atoi p).2 ≠ none) := by
  intro l
  induction l with
  | nil => intro even sum; simp [luhnLoop]
  | cons d rest ih =>
    intro even sum
    rcases hA : Atoi d with ⟨digit, _ | err⟩
    · simp only [luhnLoop, hA, List.exists_mem_cons_iff]
      split <;> [skip; split] <;> rw [ih] <;> simp
    · simp [luhnLoop, hA]

theorem luhnLoop_err_false : ∀ (l : List GoString) (even : Bool) (sum : Int),
    (luhnLoop l even sum).2 ≠ none → (luhnLoop l even sum).1 = false := by
  intro l
  induction l with
  | nil => intro even sum; simp [luhnLoop]
  | cons d rest ih =>
    intro even sum
    rcases hA : Atoi d with ⟨digit, _ | err⟩
    · simp only [luhnLoop, hA]
      split <;> [skip; split] <;> exact ih _ _
    · simp [luhnLoop, hA]

/-- The loop of `IsLuhnValid` on digits, started at distance `k` from the right
end with the flag `even` set exactly when `k` is odd. -/
theorem luhnLoop_digits : ∀ (ds : GoString) (k : Nat) (sum : Nat), (∀ c ∈ ds, isDigit c) →
    luhnLoop (ds.map (fun c => [c])) (decide (k % 2 = 1)) (sum : Int) =
      (decide ((sum + ((ds.enumFrom k).map
        (fun p => luhnTerm p.1 (digitVal p.2))).sum) % 10 = 0), none) := by
  intro ds
  induction ds with
  | nil =>
    intro k sum _
    have h : ((sum : Int).tmod 10 = 0) ↔ (sum % 10 = 0) := by
      rw [show (10 : Int) = ((10 : Nat) : Int) from rfl, ← Int.ofNat_tmod]
      exact Int.natCast_eq_zero
    simp only [List.map_nil, luhnLoop, List.enumFrom_nil, List.sum_nil, Nat.add_zero, h]
  | cons d rest ih =>
    intro k sum hd
    have hdd : isDigit d := hd d (List.mem_cons_self d rest)
    have hr : ∀ x ∈ rest, isDigit x := fun x hx => hd x (List.mem_cons_of_mem d hx)
    have hv : digitVal d ≤ 9 := by
      unfold digitVal
      omega
    simp only [List.map_cons, luhnLoop, Atoi_digit d hdd, List.enumFrom_cons, List.sum_cons]
    rcases Nat.mod_two_eq_zero_or_one k with hk | hk
    · have hf : (!decide (k % 2 = 1)) = decide ((k + 1) % 2 = 1) := by
        have : (k + 1) % 2 = 1 := by omega
        simp [hk, this]
      have hs : (sum : Int) + (digitVal d : Int) = ((sum + digitVal d : Nat) : Int) := by
        push_cast
        rfl
      have ht : luhnTerm k (digitVal d) = digitVal d := by simp [luhnTerm, hk]
      rw [hf, hs, ih (k + 1) (sum + digitVal d) hr]
      simp [hk, ht, Nat.add_assoc]
    · have hf : (!decide (k % 2 = 1)) = decide ((k + 1) % 2 = 1) := by
        have : (k + 1) % 2 = 0 := by omega
        simp [hk, this]
      by_cases h4 : 4 < digitVal d
      · have hs : (sum : Int) + ((digitVal d : Int) * 2 - 9)
            = ((sum + (2 * digitVal d - 9) : Nat) : Int) := by
          omega
        have ht : luhnTerm k (digitVal d) = 2 * digitVal d - 9 := by
          have : 9 < 2 * digitVal d := by omega
          simp [luhnTerm, hk, this]
        have h4z : (4 : Int) < (digitVal d : Int) := by omega
        rw [hf, hs, ih (k + 1) (sum + (2 * digitVal d - 9)) hr]
        simp [hk, h4z, ht, Nat.add_assoc]
      · have hs : (sum : Int) + (digitVal d : Int) * 2 = ((sum + 2 * digitVal d : Nat) : Int) := by
          omega
        have ht : luhnTerm k (digitVal d) = 2 * digitVal d := by
          have : ¬ 9 < 2 * digitVal d := by omega
          simp [luhnTerm, hk, this]
        have h4z : ¬ (4 : Int) < (digitVal d : Int) := by omega
        rw [hf, hs, ih (k + 1) (sum + 2 * digitVal d) hr]
        simp [hk, h4z, ht, Nat.add_assoc]

/-! ## Lemmas on `GetCardType` -/

/-- The byte strings of the literals that `GetCardType` compares with. -/
theorem ascii_literals :
    ascii "4" = [52] ∧ ascii "2" = [50] ∧ ascii "1" = [49] ∧ ascii "6" = [54] ∧
    ascii "5" = [53] ∧ ascii "3" = [51] ∧
    ascii "2131" = [50, 49, 51, 49] ∧ ascii "1800" = [49, 56, 48, 48] ∧
    ascii "6011" = [54, 48, 49, 49] ∧
    ascii "51" = [53, 49] ∧ ascii "52" = [53, 50] ∧ ascii "53" = [53, 51] ∧
    ascii "54" = [53, 52] ∧ ascii "55" = [53, 53] ∧
    ascii "34" = [51, 52] ∧ ascii "37" = [51, 55] ∧ ascii "35" = [51, 53] ∧
    ascii "36" = [51, 54] ∧ ascii "30" = [51, 48] ∧
    ascii "300" = [51, 48, 48] ∧ ascii "301" = [51, 48, 49] ∧ ascii "302" = [51, 48, 50] ∧
    ascii "303" = [51, 48, 51] ∧ ascii "304" = [51, 48, 52] ∧ ascii "305" = [51, 48, 53] := by
  decide

/-- On an input of at least four bytes no slice of `GetCardType` panics, and the
result is read off the first four bytes. -/
theorem GetCardType_cons4 (a b c d : Byte) (rest : GoString) :
    GetCardType (a :: b :: c :: d :: rest) = some (
      if a = 52 then Visa
      else if a = 50 ∨ a = 49 then
        (if (a = 50 ∧ b = 49 ∧ c = 51 ∧ d = 49) ∨ (a = 49 ∧ b = 56 ∧ c = 48 ∧ d = 48)
          then JCB else UnknownCard)
      else if a = 54 then
        (if b = 48 ∧ c = 49 ∧ d = 49 then Discover else UnknownCard)
      else if a = 53 then
        (if b = 49 ∨ b = 50 ∨ b = 51 ∨ b = 52 ∨ b = 53 then MasterCard else UnknownCard)
      else if a = 51 then
        (if b = 52 ∨ b = 55 then AmericanExpress
         else if b = 53 then RuPay
         else if b = 54 then DinersClub
         else if b = 48 then
           (if c = 48 ∨ c = 49 ∨ c = 50 ∨ c = 51 ∨ c = 52 ∨ c = 53 then DinersClub
            else UnknownCard)
         else JCB)
      else UnknownCard) := by
  obtain ⟨h1, h2, h3, h4, h5, h6, h7, h8, h9, h10, h11, h12, h13, h14, h15, h16, h17, h18,
    h19, h20, h21, h22, h23, h24, h25⟩ := ascii_literals
  simp only [GetCardType, slice, h1, h2, h3, h4, h5, h6, h7, h8, h9, h10, h11, h12, h13, h14,
    h15, h16, h17, h18, h19, h20, h21, h22, h23, h24, h25]
  clear h1 h2 h3 h4 h5 h6 h7 h8 h9 h10 h11 h12 h13 h14 h15 h16 h17 h18 h19 h20 h21 h22 h23 h24 h25
  simp only [apply_ite some]
  simp
  by_cases ha : a = 52
  · simp [ha]
  by_cases ha1 : a = 50
  · simp [ha1]
  by_cases ha2 : a = 49
  · simp [ha2]
  by_cases ha3 : a = 54
  · simp [ha3]
  by_cases ha4 : a = 53
  · simp [ha4]
  by_cases ha5 : a = 51
  · by_cases hb : b = 48
    · simp [ha5, hb]
    · simp [ha5, hb]
  simp [ha, ha1, ha2, ha3, ha4, ha5]

theorem prefix_one (x a : Byte) (l : GoString) : [x] <+: a :: l ↔ a = x := by
  simp [List.cons_prefix_cons, eq_comm]

theorem prefix_two (x y a b : Byte) (l : GoString) :
    [x, y] <+: a :: b :: l ↔ a = x ∧ b = y := by
  simp [List.cons_prefix_cons, eq_comm]

theorem prefix_three (x y z a b c : Byte) (l : GoString) :
    [x, y, z] <+: a :: b :: c :: l ↔ a = x ∧ b = y ∧ c = z := by
  simp [List.cons_prefix_cons, eq_comm]

theorem prefix_four (x y z w a b c d : Byte) (l : GoString) :
    [x, y, z, w] <+: a :: b :: c :: d :: l ↔ a = x ∧ b = y ∧ c = z ∧ d = w := by
  simp [List.cons_prefix_cons, eq_comm]

theorem length_ge_four (card : GoString) (h : 4 ≤ card.length) :
    ∃ a b c d rest, card = a :: b :: c :: d :: rest := by
  match card, h with
  | a :: b :: c :: d :: rest, _ => exact ⟨a, b, c, d, rest, rfl⟩

/-! ## The claims -/

/-- Claim C1: on a string made only of ASCII decimal digits `IsLuhnValid` returns
`(b, nil)` where `b` is true exactly when the Luhn sum (digits at an even distance
from the right end unchanged, digits at an odd distance doubled, minus 9 when the
doubled value exceeds 9) is divisible by 10; so a digit string that fails the
checksum yields `false` with no error. -/
theorem IsLuhnValid_digits (s : GoString) (h : ∀ c ∈ s, isDigit c) :
    IsLuhnValid s = (decide (luhnSum s % 10 = 0), none) := by
  have he : explode s = s.map (fun c => [c]) :=
    explodeAux_digits s.length s (Nat.le_refl _) h
  have hr : ∀ c ∈ s.reverse, isDigit c := fun c hc => h c (List.mem_reverse.mp hc)
  have hl := luhnLoop_digits s.reverse 0 0 hr
  unfold IsLuhnValid
  rw [he, ← List.map_reverse]
  simpa [luhnSum, List.enum] using hl

set_option maxRecDepth 100000 in
/-- Witness of claim C1 at the digit string `79927398710`, which fails the checksum. -/
theorem IsLuhnValid_digits_witness :
    (∀ c ∈ ascii "79927398710", isDigit c) ∧
    IsLuhnValid (ascii "79927398710")
      = (decide (luhnSum (ascii "79927398710") % 10 = 0), none) :=
  ⟨by decide, IsLuhnValid_digits (ascii "79927398710") (by decide)⟩

/-- Claim C2: `IsLuhnValid` returns a non-nil error if and only if its input
contains at least one byte that is not an ASCII decimal digit, and whenever it
returns an error the boolean result is `false`. -/
theorem IsLuhnValid_error_iff (s : GoString) :
    ((IsLuhnValid s).2 ≠ none ↔ ∃ c ∈ s, ¬ isDigit c) ∧
    ((IsLuhnValid s).2 ≠ none → (IsLuhnValid s).1 = false) := by
  constructor
  · unfold IsLuhnValid
    rw [luhnLoop_err_iff, ← explodeAux_err_iff s.length s (Nat.le_refl _)]
    simp [explode]
  · exact luhnLoop_err_false _ _ _

/-- Claim C3: for each of the 12 rows of the test table `cards`, `IsLuhnValid`
returns the expected validity with no error and `GetCardType` returns the expected
type; `GetCardType` of `6011000990139424` is Discover and `GetCardType` of a
non-empty all-zero number is Unknown. -/
theorem cards_table_holds :
    cards.length = 12 ∧
    (∀ row ∈ cards, IsLuhnValid row.1 = (row.2.2, none) ∧
      GetCardType row.1 = some row.2.1) ∧
    GetCardType (ascii "6011000990139424") = some Discover ∧
    ∀ n : Nat, GetCardType (List.replicate (n + 1) 48) = some UnknownCard := by
  refine ⟨by decide, by decide, by decide, ?_⟩
  intro n
  obtain ⟨h1, h2, h3, h4, h5, h6, -⟩ := ascii_literals
  simp [GetCardType, slice, List.replicate_succ, h1, h2, h3, h4, h5, h6]

/-- Claim C4: on an input of at least 4 bytes `GetCardType` returns the network
of the prefix table: Visa for 4; JCB for 2131 and 1800; Discover for 6011;
MasterCard for 51 to 55; American Express for 34 and 37; RuPay for 35; Diners
Club for 36 and for 300 to 305. -/
theorem GetCardType_prefix_table (card : GoString) (h : 4 ≤ card.length) :
    (ascii "4" <+: card → GetCardType card = some Visa) ∧
    (ascii "2131" <+: card ∨ ascii "1800" <+: card → GetCardType card = some JCB) ∧
    (ascii "6011" <+: card → GetCardType card = some Discover) ∧
    (ascii "51" <+: card ∨ ascii "52" <+: card ∨ ascii "53" <+: card ∨ ascii "54" <+: card
      ∨ ascii "55" <+: card → GetCardType card = some MasterCard) ∧
    (ascii "34" <+: card ∨ ascii "37" <+: card → GetCardType card = some AmericanExpress) ∧
    (ascii "35" <+: card → GetCardType card = some RuPay) ∧
    (ascii "36" <+: card → GetCardType card = some DinersClub) ∧
    (ascii "300" <+: card ∨ ascii "301" <+: card ∨ ascii "302" <+: card ∨ ascii "303" <+: card
      ∨ ascii "304" <+: card ∨ ascii "305" <+: card → GetCardType card = some DinersClub) := by
  obtain ⟨a, b, c, d, rest, rfl⟩ := length_ge_four card h
  obtain ⟨h1, h2, h3, h4, h5, h6, h7, h8, h9, h10, h11, h12, h13, h14, h15, h16, h17, h18,
    h19, h20, h21, h22, h23, h24, h25⟩ := ascii_literals
  rw [GetCardType_cons4, h1, h7, h8, h9, h10, h11, h12, h13, h14, h15, h16, h17, h18,
    h20, h21, h22, h23, h24, h25]
  clear h1 h2 h3 h4 h5 h6 h7 h8 h9 h10 h11 h12 h13 h14 h15 h16 h17 h18 h19 h20 h21 h22 h23 h24 h25
  simp only [List.cons_prefix_cons, List.nil_prefix, and_true]
  refine ⟨?_, ?_, ?_, ?_, ?_, ?_, ?_, ?_⟩
  · rintro rfl
    simp
  · rintro (⟨rfl, rfl, rfl, rfl⟩ | ⟨rfl, rfl, rfl, rfl⟩) <;> simp
  · rintro ⟨rfl, rfl, rfl, rfl⟩
    simp
  · rintro (⟨rfl, rfl⟩ | ⟨rfl, rfl⟩ | ⟨rfl, rfl⟩ | ⟨rfl, rfl⟩ | ⟨rfl, rfl⟩) <;> simp
  · rintro (⟨rfl, rfl⟩ | ⟨rfl, rfl⟩) <;> simp
  · rintro ⟨rfl, rfl⟩
    simp
  · rintro ⟨rfl, rfl⟩
    simp
  · rintro (⟨rfl, rfl, rfl⟩ | ⟨rfl, rfl, rfl⟩ | ⟨rfl, rfl, rfl⟩ | ⟨rfl, rfl, rfl⟩
      | ⟨rfl, rfl, rfl⟩ | ⟨rfl, rfl, rfl⟩) <;> simp

/-- Witness of claim C4 at the first row of the test table. -/
theorem GetCardType_prefix_table_witness :
    4 ≤ (ascii "4242424242424242").length ∧
    GetCardType (ascii "4242424242424242") = some Visa :=
  ⟨by decide, (GetCardType_prefix_table (ascii "4242424242424242") (by decide)).1 (by decide)⟩

/-- Counterexample to claim C5: `3060` has 4 bytes, starts with 3 and with none of
34, 37, 35, 36, 300 to 305, yet `GetCardType` returns Unknown, not JCB. -/
theorem GetCardType_three_counterexample :
    4 ≤ (ascii "3060").length ∧ ascii "3" <+: ascii "3060" ∧
    ¬ ascii "34" <+: ascii "3060" ∧ ¬ ascii "37" <+: ascii "3060" ∧
    ¬ ascii "35" <+: ascii "3060" ∧ ¬ ascii "36" <+: ascii "3060" ∧
    ¬ ascii "300" <+: ascii "3060" ∧ ¬ ascii "301" <+: ascii "3060" ∧
    ¬ ascii "302" <+: ascii "3060" ∧ ¬ ascii "303" <+: ascii "3060" ∧
    ¬ ascii "304" <+: ascii "3060" ∧ ¬ ascii "305" <+: ascii "3060" ∧
    GetCardType (ascii "3060") = some UnknownCard ∧
    GetCardType (ascii "3060") ≠ some JCB := by
  decide

/-- Claim C5, amended: an input of at least 4 bytes that starts with 3 and with
none of 34, 37, 35, 36, 300 to 305 gets JCB when it does not start with 30, and
Unknown when it starts with 30 (306 to 309 and 30 followed by a non-digit). -/
theorem GetCardType_three_fallback (card : GoString) (h : 4 ≤ card.length)
    (hp : ascii "3" <+: card)
    (hn : ¬ ascii "34" <+: card ∧ ¬ ascii "37" <+: card ∧ ¬ ascii "35" <+: card ∧
      ¬ ascii "36" <+: card ∧ ¬ ascii "300" <+: card ∧ ¬ ascii "301" <+: card ∧
      ¬ ascii "302" <+: card ∧ ¬ ascii "303" <+: card ∧ ¬ ascii "304" <+: card ∧
      ¬ ascii "305" <+: card) :
    (¬ ascii "30" <+: card → GetCardType card = some JCB) ∧
    (ascii "30" <+: card → GetCardType card = some UnknownCard) := by
  obtain ⟨a, b, c, d, rest, rfl⟩ := length_ge_four card h
  obtain ⟨h1, h2, h3, h4, h5, h6, h7, h8, h9, h10, h11, h12, h13, h14, h15, h16, h17, h18,
    h19, h20, h21, h22, h23, h24, h25⟩ := ascii_literals
  rw [h6] at hp
  rw [h15, h16, h17, h18, h20, h21, h22, h23, h24, h25] at hn
  rw [GetCardType_cons4, h19]
  clear h1 h2 h3 h4 h5 h6 h7 h8 h9 h10 h11 h12 h13 h14 h15 h16 h17 h18 h19 h20 h21 h22 h23 h24 h25
  simp only [prefix_one, prefix_two, prefix_three] at hp hn ⊢
  subst hp
  simp only [true_and] at hn ⊢
  obtain ⟨n1, n2, n3, n4, n5, n6, n7, n8, n9, n10⟩ := hn
  constructor
  · intro hb
    simp [n1, n2, n3, n4, hb]
  · intro hb
    subst hb
    simp only [true_and] at n5 n6 n7 n8 n9 n10
    simp [n5, n6, n7, n8, n9, n10]

/-- Witness of the amended claim C5 at `380134239348202`, a row of the test table. -/
theorem GetCardType_three_fallback_witness :
    4 ≤ (ascii "380134239348202").length ∧ ascii "3" <+: ascii "380134239348202" ∧
    ¬ ascii "30" <+: ascii "380134239348202" ∧
    GetCardType (ascii "380134239348202") = some JCB :=
  ⟨by decide, by decide, by decide,
    (GetCardType_three_fallback (ascii "380134239348202") (by decide) (by decide)
      (by decide)).1 (by decide)⟩

/-- Claim C6: an input of at least 4 bytes that does not start with 3 and starts
with none of 4, 2131, 1800, 6011, 51 to 55 gets Unknown. -/
theorem GetCardType_unlisted (card : GoString) (h : 4 ≤ card.length)
    (hp : ¬ ascii "3" <+: card)
    (hn : ¬ ascii "4" <+: card ∧ ¬ ascii "2131" <+: card ∧ ¬ ascii "1800" <+: card ∧
      ¬ ascii "6011" <+: card ∧ ¬ ascii "51" <+: card ∧ ¬ ascii "52" <+: card ∧
      ¬ ascii "53" <+: card ∧ ¬ ascii "54" <+: card ∧ ¬ ascii "55" <+: card) :
    GetCardType card = some UnknownCard := by
  obtain ⟨a, b, c, d, rest, rfl⟩ := length_ge_four card h
  obtain ⟨h1, h2, h3, h4, h5, h6, h7, h8, h9, h10, h11, h12, h13, h14, h15, h16, h17, h18,
    h19, h20, h21, h22, h23, h24, h25⟩ := ascii_literals
  rw [h6] at hp
  rw [h1, h7, h8, h9, h10, h11, h12, h13, h14] at hn
  rw [GetCardType_cons4]
  clear h1 h2 h3 h4 h5 h6 h7 h8 h9 h10 h11 h12 h13 h14 h15 h16 h17 h18 h19 h20 h21 h22 h23 h24 h25
  simp only [prefix_one, prefix_two, prefix_four] at hp hn
  obtain ⟨n1, n2, n3, n4, n5, n6, n7, n8, n9⟩ := hn
  simp only [Option.some.injEq]
  by_cases ha1 : a = 50
  · subst ha1
    simp only [true_and] at n2
    simp [n2]
  by_cases ha2 : a = 49
  · subst ha2
    simp only [true_and] at n3
    simp [n3]
  by_cases ha3 : a = 54
  · subst ha3
    simp only [true_and] at n4
    simp [n4]
  by_cases ha4 : a = 53
  · subst ha4
    simp only [true_and] at n5 n6 n7 n8 n9
    simp [n5, n6, n7, n8, n9]
  simp [n1, ha1, ha2, ha3, ha4, hp]

/-- Witness of claim C6 at `79927398713`, a row of the test table. -/
theorem GetCardType_unlisted_witness :
    4 ≤ (ascii "79927398713").length ∧ ¬ ascii "3" <+: ascii "79927398713" ∧
    GetCardType (ascii "79927398713") = some UnknownCard :=
  ⟨by decide, by decide,
    GetCardType_unlisted (ascii "79927398713") (by decide) (by decide) (by decide)⟩

/-- Claim C7 fails on the code: on the empty string the slice `card[0:1]` of
`GetCardType` is out of range and the call panics; no tag is returned. -/
theorem GetCardType_empty_panics : GetCardType (ascii "") = none := by
  decide

/-- Claim C8 fails on the code: on each of the inputs `3`, `1`, `21`, `601`, `5`
and `30` a slice of `GetCardType` is out of range and the call panics. -/
theorem GetCardType_short_panics :
    GetCardType (ascii "3") = none ∧ GetCardType (ascii "1") = none ∧
    GetCardType (ascii "21") = none ∧ GetCardType (ascii "601") = none ∧
    GetCardType (ascii "5") = none ∧ GetCardType (ascii "30") = none := by
  decide

/-- Claim C9: `GetCardType` is a pure prefix match: two inputs of at least 4 bytes
that agree on their first four bytes both get a tag, and the same one, whatever
the rest of the inputs and so whatever `IsLuhnValid` says of them. -/
theorem GetCardType_prefix_only (s t : GoString) (hs : 4 ≤ s.length) (ht : 4 ≤ t.length)
    (h : s.take 4 = t.take 4) :
    GetCardType s = GetCardType t ∧ ∃ tag, GetCardType s = some tag := by
  obtain ⟨a, b, c, d, rs, rfl⟩ := length_ge_four s hs
  obtain ⟨a', b', c', d', rt, rfl⟩ := length_ge_four t ht
  simp only [List.take_succ_cons, List.take_zero, List.cons.injEq, and_true] at h
  obtain ⟨rfl, rfl, rfl, rfl⟩ := h
  rw [GetCardType_cons4, GetCardType_cons4]
  exact ⟨rfl, _, rfl⟩

set_option maxRecDepth 100000 in
/-- Witness of claim C9: `4242424242424242` passes the Luhn check and
`42424242424242429` does not, they differ in length, and both are Visa. -/
theorem GetCardType_prefix_only_witness :
    (IsLuhnValid (ascii "4242424242424242")).1 = true ∧
    (IsLuhnValid (ascii "42424242424242429")).1 = false ∧
    (GetCardType (ascii "4242424242424242") = GetCardType (ascii "42424242424242429") ∧
      ∃ tag, GetCardType (ascii "4242424242424242") = some tag) :=
  ⟨by decide, by decide,
    GetCardType_prefix_only (ascii "4242424242424242") (ascii "42424242424242429")
      (by decide) (by decide) (by decide)⟩

/-- Counterexample to claim C10: a target that holds a non-zero value still holds
it after `UnmarshalJSON` of `null`, for each of the four wrapper types. -/
theorem UnmarshalJSON_null_counterexample :
    Int_UnmarshalJSON 5 (ascii "null") = (5, none) ∧
    Int64_UnmarshalJSON 5 (ascii "null") = (5, none) ∧
    Bool_UnmarshalJSON true (ascii "null") = (true, none) ∧
    String_UnmarshalJSON (fun _ => ([], some ErrKind.ErrSyntax)) (ascii "x") (ascii "null")
      = (ascii "x", none) ∧
    (5 : Int) ≠ 0 ∧ true ≠ false ∧ ascii "x" ≠ [] := by
  decide

/-- Claim C10, amended: for each wrapper type `UnmarshalJSON` applied to exactly
the 4 bytes `null` returns no error and leaves the target as it was before the
call, whatever it held; so a target holding the zero value still holds it. -/
theorem UnmarshalJSON_null_keeps (i j : Int) (b : Bool) (s : GoString)
    (Unquote : GoString → GoString × Option ErrKind) :
    Int_UnmarshalJSON i (ascii "null") = (i, none) ∧
    Int64_UnmarshalJSON j (ascii "null") = (j, none) ∧
    Bool_UnmarshalJSON b (ascii "null") = (b, none) ∧
    String_UnmarshalJSON Unquote s (ascii "null") = (s, none) ∧
    Int_UnmarshalJSON 0 (ascii "null") = (0, none) ∧
    Int64_UnmarshalJSON 0 (ascii "null") = (0, none) ∧
    Bool_UnmarshalJSON false (ascii "null") = (false, none) ∧
    String_UnmarshalJSON Unquote [] (ascii "null") = ([], none) := by
  simp [Int_UnmarshalJSON, Int64_UnmarshalJSON, Bool_UnmarshalJSON, String_UnmarshalJSON]

/-! ## Lemmas on `strconv` -/

theorem decValFrom_cons (n : Nat) (c : Byte) (ds : GoString) :
    decValFrom n (c :: ds) = decValFrom (n * 10 + digitVal c) ds := rfl

theorem decValFrom_ge : ∀ (ds : GoString) (n : Nat), n ≤ decValFrom n ds := by
  intro ds
  induction ds with
  | nil => intro n; exact Nat.le_refl _
  | cons c rest ih =>
    intro n
    rw [decValFrom_cons]
    have := ih (n * 10 + digitVal c)
    omega

theorem decValFrom_lt : ∀ (ds : GoString) (n : Nat), (∀ c ∈ ds, isDigit c) →
    decValFrom n ds < (n + 1) * 10 ^ ds.length := by
  intro ds
  induction ds with
  | nil => intro n _; simp [decValFrom]
  | cons c rest ih =>
    intro n hd
    have hc : isDigit c := hd c (List.mem_cons_self c rest)
    have hr : ∀ x ∈ rest, isDigit x := fun x hx => hd x (List.mem_cons_of_mem c hx)
    have hv : digitVal c ≤ 9 := by
      unfold digitVal
      omega
    rw [decValFrom_cons, List.length_cons, Nat.pow_succ]
    calc decValFrom (n * 10 + digitVal c) rest
        < (n * 10 + digitVal c + 1) * 10 ^ rest.length := ih _ hr
      _ ≤ ((n + 1) * 10) * 10 ^ rest.length := Nat.mul_le_mul_right _ (by omega)
      _ = (n + 1) * (10 ^ rest.length * 10) := by ring

theorem two_pow_64 : (2 : Nat) ^ 64 = 18446744073709551616 := by norm_num

theorem two_pow_63 : (2 : Nat) ^ 63 = 9223372036854775808 := by norm_num

/-- The loop of `ParseUint` on digits: the number read when it is below `2^64`,
the range error otherwise. -/
theorem parseUintLoop_digits (s0 : GoString) : ∀ (ds : GoString) (n : Nat),
    (∀ c ∈ ds, isDigit c) → n < 2 ^ 64 →
    parseUintLoop s0 ds n =
      if decValFrom n ds < 2 ^ 64 then (decValFrom n ds, none)
      else (2 ^ 64 - 1, some (rangeError "ParseUint" s0)) := by
  intro ds
  induction ds with
  | nil =>
    intro n _ hn
    rw [two_pow_64] at hn
    simp [parseUintLoop, decValFrom, hn]
  | cons c rest ih =>
    intro n hd hn
    have hc : isDigit c := hd c (List.mem_cons_self c rest)
    have hr : ∀ x ∈ rest, isDigit x := fun x hx => hd x (List.mem_cons_of_mem c hx)
    have hv : digitVal c ≤ 9 := by
      unfold digitVal
      omega
    have hge := decValFrom_ge rest (n * 10 + digitVal c)
    rw [decValFrom_cons]
    rw [two_pow_64] at hn ⊢
    unfold parseUintLoop
    rw [two_pow_64]
    have hc' : 48 ≤ c.val ∧ c.val ≤ 57 := hc
    simp only [hc', and_self, if_true]
    by_cases hcut : n ≥ (18446744073709551616 - 1) / 10 + 1
    · have h2 : ¬ decValFrom (n * 10 + digitVal c) rest < 18446744073709551616 := by omega
      simp only [hcut, if_true, h2, if_false]
    · simp only [hcut, if_false]
      have hd' : c.val - 48 = digitVal c := rfl
      rw [hd']
      by_cases hov : n * 10 + digitVal c < 18446744073709551616
      · have hmod : (n * 10 + digitVal c) % 18446744073709551616 = n * 10 + digitVal c :=
          Nat.mod_eq_of_lt hov
        have h3 : ¬ (n * 10 + digitVal c < n * 10 ∨
            n * 10 + digitVal c > 18446744073709551616 - 1) := by omega
        rw [hmod]
        simp only [h3, if_false]
        have := ih (n * 10 + digitVal c) hr (by rw [two_pow_64]; exact hov)
        rw [two_pow_64] at this
        exact this
      · have hmod : (n * 10 + digitVal c) % 18446744073709551616
            = n * 10 + digitVal c - 18446744073709551616 := by
          rw [Nat.mod_eq_sub_mod (by omega), Nat.mod_eq_of_lt (by omega)]
        have h3 : (n * 10 + digitVal c - 18446744073709551616 < n * 10 ∨
            n * 10 + digitVal c - 18446744073709551616 > 18446744073709551616 - 1) := by
          omega
        have h2 : ¬ decValFrom (n * 10 + digitVal c) rest < 18446744073709551616 := by omega
        rw [hmod]
        simp only [h3, if_true, h2, if_false]


/-- The loop of `ParseUint` on a string with a byte that is not a digit: a syntax
error, or the range error when the digits before that byte overflow first. -/
theorem parseUintLoop_nondigit (s0 : GoString) : ∀ (ds : GoString) (n : Nat),
    (∃ c ∈ ds, ¬ isDigit c) →
    parseUintLoop s0 ds n = (0, some (syntaxError "ParseUint" s0)) ∨
    parseUintLoop s0 ds n = (2 ^ 64 - 1, some (rangeError "ParseUint" s0)) := by
  intro ds
  induction ds with
  | nil => intro n h; simp at h
  | cons c rest ih =>
    intro n h
    unfold parseUintLoop
    by_cases hc : 48 ≤ c.val ∧ c.val ≤ 57
    · have hr : ∃ x ∈ rest, ¬ isDigit x := by
        obtain ⟨x, hx, hnx⟩ := h
        rcases List.mem_cons.mp hx with rfl | hx'
        · exact absurd hc hnx
        · exact ⟨x, hx', hnx⟩
      simp only [hc, and_self, if_true]
      split
      · exact Or.inr rfl
      · split
        · exact Or.inr rfl
        · exact ih _ hr
    · simp [hc]

theorem atoiLoop_digits (s0 : GoString) : ∀ (ds : GoString) (n : Nat),
    (∀ c ∈ ds, isDigit c) →
    atoiLoop s0 ds (n : Int) = (((decValFrom n ds : Nat) : Int), none) := by
  intro ds
  induction ds with
  | nil => intro n _; rfl
  | cons c rest ih =>
    intro n hd
    have hc : isDigit c := hd c (List.mem_cons_self c rest)
    have hr : ∀ x ∈ rest, isDigit x := fun x hx => hd x (List.mem_cons_of_mem c hx)
    have hsub : (c - 48 : Byte).val = digitVal c := by
      unfold digitVal
      rw [Fin.sub_def]
      simp
      omega
    unfold atoiLoop
    simp only [hsub]
    have hv : ¬ digitVal c > 9 := by
      unfold digitVal
      omega
    simp only [hv, if_false]
    rw [decValFrom_cons]
    have := ih (n * 10 + digitVal c) hr
    push_cast at this
    exact this

set_option maxRecDepth 100000 in
theorem sub48_not_digit : ∀ c : Byte, ¬ isDigit c → (c - 48 : Byte).val > 9 := by
  decide

theorem atoiLoop_nondigit (s0 : GoString) : ∀ (ds : GoString) (n : Int),
    (∃ c ∈ ds, ¬ isDigit c) →
    atoiLoop s0 ds n = (0, some (syntaxError "Atoi" s0)) := by
  intro ds
  induction ds with
  | nil => intro n h; simp at h
  | cons c rest ih =>
    intro n h
    unfold atoiLoop
    by_cases hc : isDigit c
    · have hr : ∃ x ∈ rest, ¬ isDigit x := by
        obtain ⟨x, hx, hnx⟩ := h
        rcases List.mem_cons.mp hx with rfl | hx'
        · exact absurd hc hnx
        · exact ⟨x, hx', hnx⟩
      dsimp only
      split
      · rfl
      · exact ih _ hr
    · have := sub48_not_digit c hc
      simp only [this, if_true]


theorem ParseUint_digits (body : GoString) (hne : body ≠ []) (hd : ∀ c ∈ body, isDigit c) :
    ParseUint body =
      if decVal body < 2 ^ 64 then (decVal body, none)
      else (2 ^ 64 - 1, some (rangeError "ParseUint" body)) := by
  unfold ParseUint decVal
  rw [if_neg hne]
  exact parseUintLoop_digits body body 0 hd (by norm_num)

theorem ParseUint_bad (body : GoString) (h : body = [] ∨ ∃ c ∈ body, ¬ isDigit c) :
    ParseUint body = (0, some (syntaxError "ParseUint" body)) ∨
    ParseUint body = (2 ^ 64 - 1, some (rangeError "ParseUint" body)) := by
  unfold ParseUint
  by_cases hb : body = []
  · rw [if_pos hb]
    exact Or.inl rfl
  · rw [if_neg hb]
    rcases h with h | h
    · exact absurd h hb
    · exact parseUintLoop_nondigit body body 0 h

/-- `ParseInt` after `ParseUint` succeeded on the text without its sign. -/
theorem ParseInt_of_ok (c : Byte) (rest : GoString) (un : Nat)
    (h : ParseUint (if c = 43 ∨ c = 45 then rest else c :: rest) = (un, none)) :
    ParseInt (c :: rest) =
      if c ≠ 45 ∧ un ≥ 2 ^ 63 then
        (((2 ^ 63 : Nat) : Int) - 1, some (rangeError "ParseInt" (c :: rest)))
      else if c = 45 ∧ un > 2 ^ 63 then
        (-((2 ^ 63 : Nat) : Int), some (rangeError "ParseInt" (c :: rest)))
      else if c = 45 then (-(un : Int), none)
      else ((un : Int), none) := by
  unfold ParseInt
  simp only [h]
  by_cases hc : c = 45 <;> simp [hc]

/-- `ParseInt` after `ParseUint` failed on the text without its sign. -/
theorem ParseInt_of_bad (c : Byte) (rest : GoString)
    (h : ParseUint (if c = 43 ∨ c = 45 then rest else c :: rest)
        = (0, some (syntaxError "ParseUint" (if c = 43 ∨ c = 45 then rest else c :: rest)))
      ∨ ParseUint (if c = 43 ∨ c = 45 then rest else c :: rest)
        = (2 ^ 64 - 1,
          some (rangeError "ParseUint" (if c = 43 ∨ c = 45 then rest else c :: rest)))) :
    ∃ v k, ParseInt (c :: rest) = (v, some ⟨"ParseInt", c :: rest, k⟩) := by
  unfold ParseInt
  rcases h with h | h
  · simp only [h, syntaxError]
    exact ⟨_, _, rfl⟩
  · have e1 : decide ((2 : Nat) ^ 64 - 1 ≥ 2 ^ 63) = true := by decide
    have e2 : decide ((2 : Nat) ^ 64 - 1 > 2 ^ 63) = true := by decide
    simp only [h, rangeError, e1, e2, Bool.and_true]
    by_cases hc : c = 45
    · subst hc
      exact ⟨_, _, rfl⟩
    · have hb : (c == 45) = false := by simpa using hc
      simp only [hb, Bool.not_false]
      exact ⟨_, _, rfl⟩


/-- The text without its sign, as `ParseInt` and `Atoi` cut it. -/
theorem intText_cons (c : Byte) (rest : GoString) :
    intText (c :: rest) =
      if (if c = 43 ∨ c = 45 then rest else c :: rest) ≠ [] ∧
          ∀ d ∈ (if c = 43 ∨ c = 45 then rest else c :: rest), isDigit d then
        some (if c = 45 then -(decVal (if c = 43 ∨ c = 45 then rest else c :: rest) : Int)
          else (decVal (if c = 43 ∨ c = 45 then rest else c :: rest) : Int))
      else none := by
  unfold intText
  by_cases h1 : c = 43
  · subst h1
    simp
  · by_cases h2 : c = 45
    · subst h2
      simp
    · simp [h1, h2]

theorem ParseInt_ok (data : GoString) (v : Int) (h : intText data = some v)
    (hf : fitsInt64 v) : ParseInt data = (v, none) := by
  cases data with
  | nil => simp [intText] at h
  | cons c rest =>
    rw [intText_cons] at h
    by_cases hg : (if c = 43 ∨ c = 45 then rest else c :: rest) ≠ [] ∧
        ∀ d ∈ (if c = 43 ∨ c = 45 then rest else c :: rest), isDigit d
    · rw [if_pos hg] at h
      obtain ⟨hne, hd⟩ := hg
      have hv := Option.some.inj h
      have hU := ParseUint_digits _ hne hd
      obtain ⟨hf1, hf2⟩ := hf
      have h63 : ((2 : Int) ^ 63) = ((9223372036854775808 : Nat) : Int) := by norm_num
      rw [h63] at hf1 hf2
      rw [two_pow_64] at hU
      by_cases hc : c = 45
      · rw [if_pos hc] at hv
        have hlt : decVal (if c = 43 ∨ c = 45 then rest else c :: rest)
            < 18446744073709551616 := by omega
        rw [if_pos hlt] at hU
        rw [ParseInt_of_ok c rest _ hU, two_pow_63]
        have h1 : ¬ (c ≠ 45 ∧ decVal (if c = 43 ∨ c = 45 then rest else c :: rest)
            ≥ 9223372036854775808) := by simp [hc]
        have h2 : ¬ (c = 45 ∧ decVal (if c = 43 ∨ c = 45 then rest else c :: rest)
            > 9223372036854775808) := by
          intro hh
          omega
        rw [if_neg h1, if_neg h2, if_pos hc, hv]
      · rw [if_neg hc] at hv
        have hlt : decVal (if c = 43 ∨ c = 45 then rest else c :: rest)
            < 18446744073709551616 := by omega
        rw [if_pos hlt] at hU
        rw [ParseInt_of_ok c rest _ hU, two_pow_63]
        have h1 : ¬ (c ≠ 45 ∧ decVal (if c = 43 ∨ c = 45 then rest else c :: rest)
            ≥ 9223372036854775808) := by
          intro hh
          omega
        have h2 : ¬ (c = 45 ∧ decVal (if c = 43 ∨ c = 45 then rest else c :: rest)
            > 9223372036854775808) := by simp [hc]
        rw [if_neg h1, if_neg h2, if_neg hc, hv]
    · rw [if_neg hg] at h
      exact absurd h (by simp)

theorem ParseInt_bad (data : GoString) (h : ∀ v, intText data = some v → ¬ fitsInt64 v) :
    ∃ v k, ParseInt data = (v, some ⟨"ParseInt", data, k⟩) := by
  cases data with
  | nil => exact ⟨0, ErrKind.ErrSyntax, rfl⟩
  | cons c rest =>
    rw [intText_cons] at h
    by_cases hg : (if c = 43 ∨ c = 45 then rest else c :: rest) ≠ [] ∧
        ∀ d ∈ (if c = 43 ∨ c = 45 then rest else c :: rest), isDigit d
    · rw [if_pos hg] at h
      have hnf := h _ rfl
      obtain ⟨hne, hd⟩ := hg
      have hU := ParseUint_digits _ hne hd
      have h63 : ((2 : Int) ^ 63) = ((9223372036854775808 : Nat) : Int) := by norm_num
      unfold fitsInt64 at hnf
      rw [h63] at hnf
      rw [two_pow_64] at hU
      by_cases hlt : decVal (if c = 43 ∨ c = 45 then rest else c :: rest)
          < 18446744073709551616
      · rw [if_pos hlt] at hU
        rw [ParseInt_of_ok c rest _ hU, two_pow_63]
        by_cases hc : c = 45
        · rw [if_pos hc] at hnf
          have h1 : ¬ (c ≠ 45 ∧ decVal (if c = 43 ∨ c = 45 then rest else c :: rest)
              ≥ 9223372036854775808) := by simp [hc]
          have h2 : (c = 45 ∧ decVal (if c = 43 ∨ c = 45 then rest else c :: rest)
              > 9223372036854775808) := by
            refine ⟨hc, ?_⟩
            omega
          rw [if_neg h1, if_pos h2]
          exact ⟨_, _, rfl⟩
        · rw [if_neg hc] at hnf
          have h1 : (c ≠ 45 ∧ decVal (if c = 43 ∨ c = 45 then rest else c :: rest)
              ≥ 9223372036854775808) := by
            refine ⟨hc, ?_⟩
            omega
          rw [if_pos h1]
          exact ⟨_, _, rfl⟩
      · rw [if_neg hlt] at hU
        exact ParseInt_of_bad c rest (Or.inr (by rw [two_pow_64]; exact hU))
    · have hb : (if c = 43 ∨ c = 45 then rest else c :: rest) = [] ∨
          ∃ d ∈ (if c = 43 ∨ c = 45 then rest else c :: rest), ¬ isDigit d := by
        by_cases he : (if c = 43 ∨ c = 45 then rest else c :: rest) = []
        · exact Or.inl he
        · right
          by_contra hcon
          push_neg at hcon
          exact hg ⟨he, fun d hd => hcon d hd⟩
      exact ParseInt_of_bad c rest (ParseUint_bad _ hb)


theorem atoiLoop_zero (s0 ds : GoString) (hd : ∀ c ∈ ds, isDigit c) :
    atoiLoop s0 ds 0 = ((decVal ds : Int), none) := by
  have := atoiLoop_digits s0 ds 0 hd
  simpa [decVal] using this

theorem decVal_short (ds : GoString) (hd : ∀ c ∈ ds, isDigit c) (hl : ds.length < 19) :
    decVal ds < 1000000000000000000 := by
  have h1 := decValFrom_lt ds 0 hd
  have h2 : 10 ^ ds.length ≤ 10 ^ 18 := Nat.pow_le_pow_right (by norm_num) (by omega)
  have h3 : (10 : Nat) ^ 18 = 1000000000000000000 := by norm_num
  unfold decVal
  omega

theorem Atoi_ok (data : GoString) (v : Int) (h : intText data = some v)
    (hf : fitsInt64 v) : Atoi data = (v, none) := by
  cases data with
  | nil => simp [intText] at h
  | cons c rest =>
    by_cases hl : (c :: rest).length < 19
    · rw [intText_cons] at h
      by_cases hg : (if c = 43 ∨ c = 45 then rest else c :: rest) ≠ [] ∧
          ∀ d ∈ (if c = 43 ∨ c = 45 then rest else c :: rest), isDigit d
      · rw [if_pos hg] at h
        have hv := Option.some.inj h
        obtain ⟨hne, hd⟩ := hg
        unfold Atoi
        simp only [hl, if_true]
        by_cases hs : c = 43 ∨ c = 45
        · rw [if_pos hs] at hne hd hv
          have hs' : c = 45 ∨ c = 43 := hs.symm
          have hr : ¬ rest.length < 1 := by
            cases rest with
            | nil => exact absurd rfl hne
            | cons _ _ => simp
          simp only [hs', if_true, hr, if_false, atoiLoop_zero _ rest hd]
          rw [← hv]
          split <;> rfl
        · rw [if_neg hs] at hd hv
          have hs' : ¬ (c = 45 ∨ c = 43) := fun hh => hs hh.symm
          have hc : c ≠ 45 := fun hh => hs (Or.inr hh)
          simp only [hs', if_false, atoiLoop_zero _ (c :: rest) hd]
          rw [← hv, if_neg hc]
      · rw [if_neg hg] at h
        exact absurd h (by simp)
    · have hP := ParseInt_ok (c :: rest) v h hf
      unfold Atoi
      simp only [hl, if_false, hP]

theorem Atoi_bad (data : GoString) (h : ∀ v, intText data = some v → ¬ fitsInt64 v) :
    ∃ v k, Atoi data = (v, some ⟨"Atoi", data, k⟩) := by
  cases data with
  | nil => exact ⟨0, ErrKind.ErrSyntax, rfl⟩
  | cons c rest =>
    by_cases hl : (c :: rest).length < 19
    · rw [intText_cons] at h
      by_cases hg : (if c = 43 ∨ c = 45 then rest else c :: rest) ≠ [] ∧
          ∀ d ∈ (if c = 43 ∨ c = 45 then rest else c :: rest), isDigit d
      · exfalso
        rw [if_pos hg] at h
        have hnf := h _ rfl
        obtain ⟨hne, hd⟩ := hg
        have hlen : (if c = 43 ∨ c = 45 then rest else c :: rest).length < 19 := by
          split
          · simp only [List.length_cons] at hl
            omega
          · exact hl
        have hb := decVal_short _ hd hlen
        have h63 : ((2 : Int) ^ 63) = ((9223372036854775808 : Nat) : Int) := by norm_num
        apply hnf
        unfold fitsInt64
        rw [h63]
        split <;> omega
      · unfold Atoi
        simp only [hl, if_true]
        by_cases hs : c = 43 ∨ c = 45
        · rw [if_pos hs] at hg
          have hs' : c = 45 ∨ c = 43 := hs.symm
          simp only [hs', if_true]
          by_cases hr : rest.length < 1
          · simp only [hr, if_true]
            exact ⟨_, _, rfl⟩
          · have hne : rest ≠ [] := by
              intro he
              apply hr
              simp [he]
            have hnd : ∃ d ∈ rest, ¬ isDigit d := by
              by_contra hcon
              push_neg at hcon
              exact hg ⟨hne, fun d hd => hcon d hd⟩
            simp only [hr, if_false, atoiLoop_nondigit _ rest 0 hnd]
            exact ⟨_, _, rfl⟩
        · rw [if_neg hs] at hg
          have hs' : ¬ (c = 45 ∨ c = 43) := fun hh => hs hh.symm
          have hnd : ∃ d ∈ c :: rest, ¬ isDigit d := by
            by_contra hcon
            push_neg at hcon
            exact hg ⟨by simp, fun d hd => hcon d hd⟩
          simp only [hs', if_false, atoiLoop_nondigit _ (c :: rest) 0 hnd]
          exact ⟨_, _, rfl⟩
    · obtain ⟨v, k, hP⟩ := ParseInt_bad (c :: rest) h
      unfold Atoi
      simp only [hl, if_false, hP]
      exact ⟨_, _, rfl⟩


theorem decValFrom_append (n : Nat) (a b : GoString) :
    decValFrom n (a ++ b) = decValFrom (decValFrom n a) b := by
  simp [decValFrom, List.foldl_append]

theorem digit_byte (d : Nat) (h : d < 10) :
    isDigit (Fin.ofNat (d + 48) : Byte) ∧ digitVal (Fin.ofNat (d + 48) : Byte) = d := by
  have hv : (Fin.ofNat (d + 48) : Byte).val = d + 48 := by
    show (d + 48) % 256 = d + 48
    omega
  unfold isDigit digitVal
  rw [hv]
  omega

theorem decVal_digits_rev (L : List Nat) (h : ∀ d ∈ L, d < 10) :
    decVal (L.reverse.map (fun d => (Fin.ofNat (d + 48) : Byte))) = Nat.ofDigits 10 L := by
  induction L with
  | nil => rfl
  | cons x t ih =>
    have hx : x < 10 := h x (List.mem_cons_self x t)
    have ht : ∀ d ∈ t, d < 10 := fun d hd => h d (List.mem_cons_of_mem x hd)
    have := ih ht
    unfold decVal at this ⊢
    rw [List.reverse_cons, List.map_append, decValFrom_append, this, Nat.ofDigits_cons]
    simp only [List.map_cons, List.map_nil, decValFrom_cons, (digit_byte x hx).2]
    show Nat.ofDigits 10 t * 10 + x = _
    ring

set_option maxRecDepth 100000 in
theorem formatNat_spec (m : Nat) :
    formatNat m ≠ [] ∧ (∀ c ∈ formatNat m, isDigit c) ∧ decVal (formatNat m) = m := by
  unfold formatNat
  by_cases h0 : m = 0
  · subst h0
    simp only [if_true]
    decide
  · rw [if_neg h0]
    have hlt : ∀ d ∈ Nat.digits 10 m, d < 10 := fun d hd => Nat.digits_lt_base (by norm_num) hd
    refine ⟨?_, ?_, ?_⟩
    · intro he
      have : (Nat.digits 10 m) = [] := by simpa using he
      exact h0 (Nat.digits_eq_nil_iff_eq_zero.mp this)
    · intro c hc
      obtain ⟨d, hd, rfl⟩ := List.mem_map.mp hc
      exact (digit_byte d (hlt d (List.mem_reverse.mp hd))).1
    · rw [decVal_digits_rev _ hlt, Nat.ofDigits_digits]

set_option maxRecDepth 100000 in
theorem intText_formatInt (n : Int) : intText (formatInt n) = some n := by
  obtain ⟨hne, hd, hv⟩ := formatNat_spec n.natAbs
  unfold formatInt
  by_cases hn : n < 0
  · rw [if_pos hn]
    unfold intText
    simp only [show ¬ ((45 : Byte) = 43) by decide, if_false, if_true, hne, hd, ne_eq,
      not_false_eq_true, implies_true, and_self, hv]
    rw [if_pos ⟨trivial, hd⟩]
    congr 1
    omega
  · rw [if_neg hn]
    rcases hf : formatNat n.natAbs with _ | ⟨c, rest⟩
    · exact absurd hf hne
    · rw [hf] at hd hv
      have hc : isDigit c := hd c (List.mem_cons_self c rest)
      have h1 : c ≠ 43 := by
        intro hh
        rw [hh] at hc
        revert hc
        decide
      have h2 : c ≠ 45 := by
        intro hh
        rw [hh] at hc
        revert hc
        decide
      unfold intText
      simp only [h1, h2, if_false, hv]
      rw [if_pos hd]
      congr 1
      omega

theorem formatInt_ne_null (n : Int) : formatInt n ≠ ascii "null" := by
  obtain ⟨hne, hd, -⟩ := formatNat_spec n.natAbs
  have hnull : ascii "null" = [110, 117, 108, 108] := by decide
  rw [hnull]
  unfold formatInt
  split
  · simp
  · rcases hf : formatNat n.natAbs with _ | ⟨c, rest⟩
    · exact absurd hf hne
    · rw [hf] at hd
      have hc : isDigit c := hd c (List.mem_cons_self c rest)
      intro hh
      have : c = 110 := (List.cons.inj hh).1
      rw [this] at hc
      revert hc
      decide


theorem Int_UnmarshalJSON_err_indep (self : Int) (data : GoString) :
    (Int_UnmarshalJSON self data).2 = (Int_UnmarshalJSON 0 data).2 ∧
    (Int64_UnmarshalJSON self data).2 = (Int64_UnmarshalJSON 0 data).2 := by
  unfold Int_UnmarshalJSON Int64_UnmarshalJSON
  constructor
  · dsimp only
    split
    · rfl
    · split <;> rfl
  · dsimp only
    split
    · rfl
    · split <;> rfl

/-- Claim C11: `Int.UnmarshalJSON` and `Int64.UnmarshalJSON` return an error if
and only if the raw bytes are not `null` and are not an optionally signed,
non-empty string of ASCII decimal digits whose value fits the 64-bit signed range;
the empty text, `abc`, `1.5`, `1e3`, ` 1`, `NULL`, the quoted `"5"` and
9223372036854775808 are errors, and `null` is not. -/
theorem Int_UnmarshalJSON_error_iff (self : Int) (data : GoString) :
    ((Int_UnmarshalJSON self data).2 ≠ none ↔
      data ≠ ascii "null" ∧ ¬ ∃ v, intText data = some v ∧ fitsInt64 v) ∧
    ((Int64_UnmarshalJSON self data).2 ≠ none ↔
      data ≠ ascii "null" ∧ ¬ ∃ v, intText data = some v ∧ fitsInt64 v) ∧
    (∀ bad ∈ badIntTexts, (Int_UnmarshalJSON self bad).2 ≠ none ∧
      (Int64_UnmarshalJSON self bad).2 ≠ none) ∧
    (Int_UnmarshalJSON self (ascii "null")).2 = none ∧
    (Int64_UnmarshalJSON self (ascii "null")).2 = none := by
  refine ⟨?_, ?_, ?_, ?_, ?_⟩
  · unfold Int_UnmarshalJSON
    by_cases hn : data = ascii "null"
    · simp [hn]
    · by_cases hok : ∃ v, intText data = some v ∧ fitsInt64 v
      · obtain ⟨v, hv, hf⟩ := hok
        have hex : ∃ v, intText data = some v ∧ fitsInt64 v := ⟨v, hv, hf⟩
        simp only [hn, if_false, Atoi_ok data v hv hf, ne_eq, not_true_eq_false,
          not_false_eq_true, true_and, hex, not_true_eq_false]
      · obtain ⟨v, k, hA⟩ := Atoi_bad data (fun v hv hf => hok ⟨v, hv, hf⟩)
        simp [hn, hA, hok]
  · unfold Int64_UnmarshalJSON
    by_cases hn : data = ascii "null"
    · simp [hn]
    · by_cases hok : ∃ v, intText data = some v ∧ fitsInt64 v
      · obtain ⟨v, hv, hf⟩ := hok
        have hex : ∃ v, intText data = some v ∧ fitsInt64 v := ⟨v, hv, hf⟩
        simp only [hn, if_false, ParseInt_ok data v hv hf, ne_eq, not_true_eq_false,
          not_false_eq_true, true_and, hex, not_true_eq_false]
      · obtain ⟨v, k, hA⟩ := ParseInt_bad data (fun v hv hf => hok ⟨v, hv, hf⟩)
        simp [hn, hA, hok]
  · intro bad hbad
    rw [(Int_UnmarshalJSON_err_indep self bad).1, (Int_UnmarshalJSON_err_indep self bad).2]
    revert bad
    decide
  · simp [Int_UnmarshalJSON]
  · simp [Int64_UnmarshalJSON]

/-- Claim C12: decoding undoes decimal rendering: for every integer `n` of the
64-bit signed range, `Int64.UnmarshalJSON` and `Int.UnmarshalJSON` applied to the
base-10 text of `n` return no error and set the target to `n`, whatever it held. -/
theorem UnmarshalJSON_formatInt (n : Int) (h1 : -(2 : Int) ^ 63 ≤ n) (h2 : n < (2 : Int) ^ 63)
    (self : Int) :
    Int64_UnmarshalJSON self (formatInt n) = (n, none) ∧
    Int_UnmarshalJSON self (formatInt n) = (n, none) := by
  have ht := intText_formatInt n
  have hnn := formatInt_ne_null n
  have hf : fitsInt64 n := ⟨h1, h2⟩
  unfold Int64_UnmarshalJSON Int_UnmarshalJSON
  simp only [hnn, if_false, ParseInt_ok _ n ht hf, Atoi_ok _ n ht hf, and_self]

/-- Witness of claim C12 at the least 64-bit integer, with a target holding 7. -/
theorem UnmarshalJSON_formatInt_witness :
    formatInt (-9223372036854775808) = ascii "-9223372036854775808" ∧
    (Int64_UnmarshalJSON 7 (formatInt (-9223372036854775808)) = (-9223372036854775808, none) ∧
    Int_UnmarshalJSON 7 (formatInt (-9223372036854775808)) = (-9223372036854775808, none)) :=
  ⟨by
    norm_num [formatInt, formatNat]
    decide,
    UnmarshalJSON_formatInt (-9223372036854775808) (by norm_num) (by norm_num) 7⟩


/-- Claim C15: `Bool.UnmarshalJSON` succeeds on exactly the inputs `null`, `1`,
`t`, `T`, `TRUE`, `true`, `True`, `0`, `f`, `F`, `FALSE`, `false`, `False`; it sets
the target to true on the first six non-null texts, to false on the last six, and
returns an error on every other input. -/
theorem Bool_UnmarshalJSON_texts (self : Bool) (data : GoString) :
    (data ∈ trueTexts → Bool_UnmarshalJSON self data = (true, none)) ∧
    (data ∈ falseTexts → Bool_UnmarshalJSON self data = (false, none)) ∧
    (data = ascii "null" → Bool_UnmarshalJSON self data = (self, none)) ∧
    ((Bool_UnmarshalJSON self data).2 = none ↔
      data = ascii "null" ∨ data ∈ trueTexts ∨ data ∈ falseTexts) := by
  have hT : (data = ascii "1" ∨ data = ascii "t" ∨ data = ascii "T" ∨ data = ascii "true"
      ∨ data = ascii "TRUE" ∨ data = ascii "True") ↔ data ∈ trueTexts := by
    simp only [trueTexts, List.mem_cons, List.mem_singleton, List.not_mem_nil, or_false]
    tauto
  have hF : (data = ascii "0" ∨ data = ascii "f" ∨ data = ascii "F" ∨ data = ascii "false"
      ∨ data = ascii "FALSE" ∨ data = ascii "False") ↔ data ∈ falseTexts := by
    simp only [falseTexts, List.mem_cons, List.mem_singleton, List.not_mem_nil, or_false]
    tauto
  have hnT : ascii "null" ∉ trueTexts := by decide
  have hnF : ascii "null" ∉ falseTexts := by decide
  have hTF : ∀ x ∈ trueTexts, x ∉ falseTexts := by decide
  unfold Bool_UnmarshalJSON ParseBool
  simp only [hT, hF]
  by_cases hn : data = ascii "null"
  · subst hn
    simp [hnT, hnF]
  · by_cases h1 : data ∈ trueTexts
    · simp [hn, h1, hTF data h1]
    · by_cases h2 : data ∈ falseTexts
      · simp [hn, h1, h2]
      · simp [hn, h1, h2]


theorem index_append_quote (q : Byte) : ∀ s : GoString, q ∉ s →
    index (s ++ [q]) q = some s.length := by
  intro s
  induction s with
  | nil => intro _; simp [index]
  | cons b rest ih =>
    intro h
    have hb : b ≠ q := fun hh => h (by simp [hh])
    have hr : q ∉ rest := fun hh => h (List.mem_cons_of_mem b hh)
    simp [index, hb, ih hr]

/-- The fast path of `Unquote`: a double-quoted text without quote, backslash or
newline, and valid as UTF-8, is returned without its quotes. -/
theorem Unquote_quoted (s : GoString) (hq : (34 : Byte) ∉ s) (hb : (92 : Byte) ∉ s)
    (hn : (10 : Byte) ∉ s) (hv : ValidString s = true) :
    Unquote (quoted s) = (s, none) := by
  have hlen : ¬ (quoted s).length < 2 := by simp [quoted]
  have htake : (quoted s).take (s.length + 2) = quoted s := by
    apply List.take_of_length_le
    simp [quoted]
  have hdrop : (quoted s).drop (s.length + 2) = [] := by
    apply List.drop_of_length_le
    simp [quoted]
  have hin : (((quoted s).take (s.length + 2)).drop 1).take (s.length + 2 - 2) = s := by
    rw [htake]
    simp [quoted]
  have h92 : ¬ (92 : Byte) ∈ (quoted s).take (s.length + 2) := by
    rw [htake]
    simp [quoted, hb]
  have h10 : ¬ (10 : Byte) ∈ (quoted s).take (s.length + 2) := by
    rw [htake]
    simp [quoted, hn]
  have hu : unquote (quoted s) = (s, [], none) := by
    have hidx := index_append_quote 34 s hq
    unfold unquote
    simp only [quoted, List.cons_append] at hlen htake hdrop hin h92 h10 ⊢
    simp only [hlen, if_false]
    rw [hidx]
    dsimp only
    simp only [hin, hdrop, h92, h10, hv]
    simp
  unfold Unquote
  rw [hu]
  simp

theorem unquote_err (s : GoString) :
    (unquote s).2.2 = none ∨ (unquote s).2.2 = some ErrKind.ErrSyntax := by
  unfold unquote
  repeat' split
  all_goals simp
  all_goals (split <;> simp)

theorem Unquote_err (s : GoString) (e : ErrKind) (h : (Unquote s).2 = some e) :
    e = ErrKind.ErrSyntax := by
  unfold Unquote at h
  split at h
  rename_i out rem err hu
  split at h
  · simp at h
    exact h.symm
  · have h1 : (unquote s).2.2 = some e := by
      rw [hu]
      exact h
    rcases unquote_err s with h2 | h2
    · rw [h2] at h1
      exact absurd h1 (by simp)
    · rw [h2] at h1
      exact (Option.some.inj h1).symm


theorem DecodeRuneInString_size_pos (c : Byte) (rest : GoString) :
    1 ≤ (DecodeRuneInString (c :: rest)).2 := by
  unfold DecodeRuneInString
  dsimp only
  repeat' split
  all_goals simp

theorem tail_ite (n : Nat) (p : Prop) [Decidable p]
    (a b : Nat × Bool × GoString × Option ErrKind)
    (ha : a.2.2.2 = none → a.2.2.1.length ≤ n) (hb : b.2.2.2 = none → b.2.2.1.length ≤ n) :
    (if p then a else b).2.2.2 = none → (if p then a else b).2.2.1.length ≤ n := by
  split
  · exact ha
  · exact hb

theorem tail_err (n v : Nat) (mb : Bool) (t : GoString) (e : ErrKind) :
    (v, mb, t, some e).2.2.2 = none → (v, mb, t, some e).2.2.1.length ≤ n := by
  intro h
  simp at h

theorem tail_ok (n v : Nat) (mb : Bool) (t : GoString) (h : t.length ≤ n) :
    (v, mb, t, (none : Option ErrKind)).2.2.2 = none →
      (v, mb, t, (none : Option ErrKind)).2.2.1.length ≤ n :=
  fun _ => h

theorem unquoteHex_tail (c : Byte) (s : GoString) :
    (unquoteHex c s).2.2.2 = none → (unquoteHex c s).2.2.1.length ≤ s.length := by
  unfold unquoteHex
  generalize (if c = 120 then 2 else if c = 117 then 4 else 8) = n
  dsimp only
  apply tail_ite
  · exact tail_err _ _ _ _ _
  · split
    · exact tail_err _ _ _ _ _
    · apply tail_ite
      · exact tail_ok _ _ _ _ (by rw [List.length_drop]; omega)
      · apply tail_ite
        · exact tail_err _ _ _ _ _
        · exact tail_ok _ _ _ _ (by rw [List.length_drop]; omega)

theorem unquoteOctal_tail (c : Byte) (s : GoString) :
    (unquoteOctal c s).2.2.2 = none → (unquoteOctal c s).2.2.1.length ≤ s.length := by
  unfold unquoteOctal
  apply tail_ite
  · exact tail_err _ _ _ _ _
  · split
    · exact tail_err _ _ _ _ _
    · apply tail_ite
      · exact tail_err _ _ _ _ _
      · exact tail_ok _ _ _ _ (by rw [List.length_drop]; omega)

theorem unquoteEscape_tail (s1 : GoString) (q : Byte) :
    (unquoteEscape s1 q).2.2.2 = none → (unquoteEscape s1 q).2.2.1.length ≤ s1.length := by
  cases s1 with
  | nil => exact tail_err _ _ _ _ _
  | cons c s =>
    have hs : s.length ≤ (c :: s).length := by simp
    have hx := unquoteHex_tail c s
    have ho := unquoteOctal_tail c s
    unfold unquoteEscape
    dsimp only
    repeat' first
      | exact tail_err _ _ _ _ _
      | exact tail_ok _ _ _ _ hs
      | exact fun h => Nat.le_trans (hx h) hs
      | exact fun h => Nat.le_trans (ho h) hs
      | apply tail_ite

/-- A successful `UnquoteChar` consumes at least one byte. -/
theorem UnquoteChar_tail (s : GoString) (q : Byte) :
    (UnquoteChar s q).2.2.2 = none → (UnquoteChar s q).2.2.1.length < s.length := by
  cases s with
  | nil =>
    intro h
    simp [UnquoteChar] at h
  | cons c s1 =>
    have hpos := DecodeRuneInString_size_pos c s1
    have he := unquoteEscape_tail s1 q
    unfold UnquoteChar
    dsimp only
    split
    · intro h
      simp at h
    · split
      · intro _
        simp only [List.length_drop, List.length_cons]
        omega
      · split
        · intro _
          simp
        · intro h
          have := he h
          simp only [List.length_cons]
          omega

/-- The iteration bound of the loop of `unquote` is never what ends it. -/
theorem unquoteLoop_fuel (q : Byte) : ∀ (fuel : Nat) (inp buf : GoString),
    inp.length < fuel → unquoteLoop q fuel inp buf ≠ none := by
  intro fuel
  induction fuel with
  | zero => intro inp buf h; omega
  | succ n ih =>
    intro inp buf h
    unfold unquoteLoop
    cases inp with
    | nil => simp
    | cons c rest =>
      dsimp only
      split
      · simp
      · split
        · simp
        · rename_i hne
          split
          · simp
          · apply ih
            have herr : (UnquoteChar (c :: rest) q).2.2.2 = none := by
              by_contra hh
              exact hne (Or.inr hh)
            exact Nat.lt_of_lt_of_le (UnquoteChar_tail (c :: rest) q herr) (Nat.le_of_lt_succ h)


/-- A text that does not start with a double quote, a single quote or a
backquote is rejected by `Unquote`. -/
theorem Unquote_unquoted (data : GoString)
    (h : ∀ c rest, data = c :: rest → c ≠ 34 ∧ c ≠ 39 ∧ c ≠ 96) :
    Unquote data = ([], some ErrKind.ErrSyntax) := by
  have hu : (unquote data).2.2 = some ErrKind.ErrSyntax := by
    cases data with
    | nil => rfl
    | cons c in1 =>
      obtain ⟨h1, h2, h3⟩ := h c in1 rfl
      unfold unquote
      dsimp only
      split
      · rfl
      · split
        · rfl
        · simp [h1, h2, h3]
  unfold Unquote
  split
  rename_i out rem err he
  rw [he] at hu
  simp only at hu
  split
  · rfl
  · rw [hu]
    have hout : out = [] := by
      have h1 : (unquote data).1 = out := by rw [he]
      rw [← h1]
      cases data with
      | nil => rfl
      | cons c in1 =>
        obtain ⟨h1, h2, h3⟩ := h c in1 rfl
        unfold unquote
        dsimp only
        split
        · rfl
        · split
          · rfl
          · simp [h1, h2, h3]
    rw [hout]

theorem index_some (c : Byte) : ∀ (s : GoString) (i : Nat), index s c = some i →
    i < s.length := by
  intro s
  induction s with
  | nil => intro i h; simp [index] at h
  | cons b rest ih =>
    intro i h
    unfold index at h
    by_cases hb : b = c
    · rw [if_pos hb] at h
      have : i = 0 := (Option.some.inj h).symm
      subst this
      simp
    · rw [if_neg hb] at h
      cases hr : index rest c with
      | none => rw [hr] at h; simp at h
      | some j =>
        rw [hr] at h
        have : i = j + 1 := (Option.some.inj h).symm
        subst this
        have := ih j hr
        simp only [List.length_cons]
        omega

theorem index_some_get (c : Byte) : ∀ (s : GoString) (i : Nat), index s c = some i →
    s[i]? = some c := by
  intro s
  induction s with
  | nil => intro i h; simp [index] at h
  | cons b rest ih =>
    intro i h
    unfold index at h
    by_cases hb : b = c
    · rw [if_pos hb] at h
      have : i = 0 := (Option.some.inj h).symm
      subst this
      simp [hb]
    · rw [if_neg hb] at h
      cases hr : index rest c with
      | none => rw [hr] at h; simp at h
      | some j =>
        rw [hr] at h
        have : i = j + 1 := (Option.some.inj h).symm
        subst this
        simpa using ih j hr

theorem suffix_ite (s : GoString) (p : Prop) [Decidable p]
    (a b : Nat × Bool × GoString × Option ErrKind)
    (ha : a.2.2.2 = none → a.2.2.1 <:+ s) (hb : b.2.2.2 = none → b.2.2.1 <:+ s) :
    (if p then a else b).2.2.2 = none → (if p then a else b).2.2.1 <:+ s := by
  split
  · exact ha
  · exact hb

theorem suffix_err (s : GoString) (v : Nat) (mb : Bool) (t : GoString) (e : ErrKind) :
    (v, mb, t, some e).2.2.2 = none → (v, mb, t, some e).2.2.1 <:+ s := by
  intro h
  simp at h

theorem suffix_ok (s : GoString) (v : Nat) (mb : Bool) (t : GoString) (h : t <:+ s) :
    (v, mb, t, (none : Option ErrKind)).2.2.2 = none →
      (v, mb, t, (none : Option ErrKind)).2.2.1 <:+ s :=
  fun _ => h

theorem unquoteHex_suffix (c : Byte) (s : GoString) :
    (unquoteHex c s).2.2.2 = none → (unquoteHex c s).2.2.1 <:+ s := by
  unfold unquoteHex
  generalize (if c = 120 then 2 else if c = 117 then 4 else 8) = n
  dsimp only
  apply suffix_ite
  · exact suffix_err _ _ _ _ _
  · split
    · exact suffix_err _ _ _ _ _
    · apply suffix_ite
      · exact suffix_ok _ _ _ _ (List.drop_suffix _ _)
      · apply suffix_ite
        · exact suffix_err _ _ _ _ _
        · exact suffix_ok _ _ _ _ (List.drop_suffix _ _)

theorem unquoteOctal_suffix (c : Byte) (s : GoString) :
    (unquoteOctal c s).2.2.2 = none → (unquoteOctal c s).2.2.1 <:+ s := by
  unfold unquoteOctal
  apply suffix_ite
  · exact suffix_err _ _ _ _ _
  · split
    · exact suffix_err _ _ _ _ _
    · apply suffix_ite
      · exact suffix_err _ _ _ _ _
      · exact suffix_ok _ _ _ _ (List.drop_suffix _ _)

theorem unquoteEscape_suffix (s1 : GoString) (q : Byte) :
    (unquoteEscape s1 q).2.2.2 = none → (unquoteEscape s1 q).2.2.1 <:+ s1 := by
  cases s1 with
  | nil => exact suffix_err _ _ _ _ _
  | cons c s =>
    have hs : s <:+ c :: s := List.suffix_cons c s
    have hx := unquoteHex_suffix c s
    have ho := unquoteOctal_suffix c s
    unfold unquoteEscape
    dsimp only
    repeat' first
      | exact suffix_err _ _ _ _ _
      | exact suffix_ok _ _ _ _ hs
      | exact fun h => List.IsSuffix.trans (hx h) hs
      | exact fun h => List.IsSuffix.trans (ho h) hs
      | apply suffix_ite

/-- The text that a successful `UnquoteChar` leaves is a tail of its input. -/
theorem UnquoteChar_suffix (s : GoString) (q : Byte) :
    (UnquoteChar s q).2.2.2 = none → (UnquoteChar s q).2.2.1 <:+ s := by
  cases s with
  | nil =>
    intro h
    simp [UnquoteChar] at h
  | cons c s1 =>
    have he := unquoteEscape_suffix s1 q
    unfold UnquoteChar
    dsimp only
    split
    · intro h
      simp at h
    · split
      · intro _
        exact List.drop_suffix _ _
      · split
        · intro _
          exact List.suffix_cons c s1
        · intro h
          exact List.IsSuffix.trans (he h) (List.suffix_cons c s1)

/-- The text that the loop of `unquote` leaves is a tail of its input. -/
theorem unquoteLoop_suffix (q : Byte) : ∀ (fuel : Nat) (inp buf inp1 buf1 : GoString),
    unquoteLoop q fuel inp buf = some (some (inp1, buf1)) → inp1 <:+ inp := by
  intro fuel
  induction fuel with
  | zero => intro inp buf inp1 buf1 h; simp [unquoteLoop] at h
  | succ n ih =>
    intro inp buf inp1 buf1 h
    unfold unquoteLoop at h
    cases inp with
    | nil =>
      simp only at h
      have := (Prod.mk.inj (Option.some.inj (Option.some.inj h))).1
      rw [← this]
    | cons c rest =>
      dsimp only at h
      split at h
      · have := (Prod.mk.inj (Option.some.inj (Option.some.inj h))).1
        rw [← this]
      · split at h
        · exact absurd h (by simp)
        · rename_i hne
          have herr : (UnquoteChar (c :: rest) q).2.2.2 = none := by
            by_contra hh
            exact hne (Or.inr hh)
          have hsuf := UnquoteChar_suffix (c :: rest) q herr
          split at h
          · have := (Prod.mk.inj (Option.some.inj (Option.some.inj h))).1
            rw [← this]
            exact hsuf
          · exact List.IsSuffix.trans (ih _ _ _ _ h) hsuf

theorem getLast?_of_suffix (s : GoString) (c : Byte) (h : [c] <:+ s) :
    s.getLast? = some c := by
  obtain ⟨t, rfl⟩ := h
  simp

/-- A text that `Unquote` accepts is a quoted literal: it starts with one of the
three quote characters and ends with the same one. -/
theorem Unquote_ok_quoted (data : GoString) (h : (Unquote data).2 = none) :
    isQuotedLiteral data := by
  unfold Unquote at h
  split at h
  rename_i out rem err hu
  split at h
  · simp at h
  · rename_i hrem
    have hrem0 : rem = [] := by
      cases rem with
      | nil => rfl
      | cons a t => simp at hrem
    subst hrem0
    simp only at h
    subst h
    unfold unquote at hu
    cases data with
    | nil => simp at hu
    | cons quote in1 =>
      dsimp only at hu
      split at hu
      · simp at hu
      · rename_i hlen
        cases hi : index in1 quote with
        | none => rw [hi] at hu; simp at hu
        | some i =>
          rw [hi] at hu
          dsimp only at hu
          have hil := index_some quote in1 i hi
          have hig := index_some_get quote in1 i hi
          have hlast_of_drop : (quote :: in1).drop (i + 2) = [] → in1.getLast? = some quote := by
            intro hd
            have hl : in1.length ≤ i + 1 := by
              have := List.drop_eq_nil_iff.mp hd
              simp only [List.length_cons] at this
              omega
            have hi1 : i = in1.length - 1 := by omega
            rw [List.getLast?_eq_getElem?, ← hi1]
            exact hig
          have hfin : in1.getLast? = some quote →
              (quote = 34 ∨ quote = 39 ∨ quote = 96) → isQuotedLiteral (quote :: in1) := by
            intro hl hq
            have hne : in1 ≠ [] := by
              intro e
              rw [e] at hl
              simp at hl
            refine ⟨?_, ?_, ?_⟩
            · simp only [List.length_cons]
              omega
            · cases in1 with
              | nil => exact absurd rfl hne
              | cons a t =>
                rw [List.getLast?_cons_cons, hl]
                rfl
            · simpa using hq
          split at hu
          · rename_i hq
            split at hu
            · have := (Prod.mk.inj (Prod.mk.inj hu).2).1
              exact hfin (hlast_of_drop this) (Or.inr (Or.inr hq))
            · have := (Prod.mk.inj (Prod.mk.inj hu).2).1
              exact hfin (hlast_of_drop this) (Or.inr (Or.inr hq))
          · split at hu
            · rename_i hq
              have hq1 : quote = 34 ∨ quote = 39 ∨ quote = 96 := by
                rcases hq with hq | hq
                · exact Or.inl hq
                · exact Or.inr (Or.inl hq)
              generalize (if quote = 34 then
                  ValidString (((quote :: in1).take (i + 2)).drop 1 |>.take (i + 2 - 2))
                else
                  decide (1 + (DecodeRuneInString
                    ((((quote :: in1).take (i + 2)).drop 1).take (i + 2 - 2))).2 + 1 = i + 2 ∧
                    ((DecodeRuneInString
                      ((((quote :: in1).take (i + 2)).drop 1).take (i + 2 - 2))).1 ≠ RuneError ∨
                    (DecodeRuneInString
                      ((((quote :: in1).take (i + 2)).drop 1).take (i + 2 - 2))).2 ≠ 1))) = valid
                at hu
              split at hu
              · have := (Prod.mk.inj (Prod.mk.inj hu).2).1
                exact hfin (hlast_of_drop this) hq1
              · split at hu
                · rename_i c rest buf hloop
                  split at hu
                  · rename_i hc
                    have hr : rest = [] := ((Prod.mk.inj (Prod.mk.inj hu).2).1)
                    have hsuf := unquoteLoop_suffix quote _ _ _ _ _ hloop
                    rw [hr, hc] at hsuf
                    exact hfin (getLast?_of_suffix _ _ hsuf) hq1
                  · simp at hu
                · simp at hu
            · simp at hu

theorem Unquote_not_quoted (data : GoString) (h : ¬ isQuotedLiteral data) :
    (Unquote data).2 = some ErrKind.ErrSyntax := by
  cases he : (Unquote data).2 with
  | none => exact absurd (Unquote_ok_quoted data he) h
  | some e => rw [Unquote_err data e he]

set_option maxRecDepth 100000 in
/-- Counterexample to claim C13: the one-byte string `\xff` contains no double
quote, backslash or newline, yet unquoting it between double quotes stores the
three bytes of U+FFFD, not the string itself.  And the inputs `'a'` and
`` `abc` ``, which are not null and not in double quotes, return no error: they
decode to `a` and to `abc`. -/
theorem String_UnmarshalJSON_quoted_counterexample :
    ((34 : Byte) ∉ ([255] : GoString) ∧ (92 : Byte) ∉ ([255] : GoString) ∧
      (10 : Byte) ∉ ([255] : GoString) ∧
      String_UnmarshalJSON Unquote [] (quoted [255]) = ([0xEF, 0xBF, 0xBD], none) ∧
      String_UnmarshalJSON Unquote [] (quoted [255]) ≠ ([255], none)) ∧
    ((39 :: ascii "a" ++ [39] : GoString) ≠ ascii "null" ∧
      (39 :: ascii "a" ++ [39] : GoString).head? ≠ some 34 ∧
      String_UnmarshalJSON Unquote [] (39 :: ascii "a" ++ [39]) = (ascii "a", none)) ∧
    ((96 :: ascii "abc" ++ [96] : GoString) ≠ ascii "null" ∧
      (96 :: ascii "abc" ++ [96] : GoString).head? ≠ some 34 ∧
      String_UnmarshalJSON Unquote [] (96 :: ascii "abc" ++ [96]) = (ascii "abc", none)) := by
  decide

/-- Claim C13, amended: for every valid UTF-8 string `s` without double quote,
backslash or newline, `String.UnmarshalJSON` applied to `s` between double quotes
returns no error and sets the target to exactly `s`; the quoted `"null"` decodes
to the string `null`; and every non-null input that is not a quoted literal, that
is a text of at least two bytes that starts with a double quote, a single quote or
a backquote and ends with that same character, returns an error and leaves the
target as it was: so do `abc`, `123`, `"abc` and `"abc"def`. -/
theorem String_UnmarshalJSON_quoted (self s : GoString) (hq : (34 : Byte) ∉ s)
    (hb : (92 : Byte) ∉ s) (hn : (10 : Byte) ∉ s) (hv : ValidString s = true) :
    String_UnmarshalJSON Unquote self (quoted s) = (s, none) ∧
    String_UnmarshalJSON Unquote self (quoted (ascii "null")) = (ascii "null", none) ∧
    (∀ data : GoString, data ≠ ascii "null" → ¬ isQuotedLiteral data →
      String_UnmarshalJSON Unquote self data = (self, some ErrKind.ErrSyntax)) ∧
    String_UnmarshalJSON Unquote self (ascii "abc") = (self, some ErrKind.ErrSyntax) ∧
    String_UnmarshalJSON Unquote self (ascii "123") = (self, some ErrKind.ErrSyntax) ∧
    String_UnmarshalJSON Unquote self (34 :: ascii "abc") = (self, some ErrKind.ErrSyntax) ∧
    String_UnmarshalJSON Unquote self (quoted (ascii "abc") ++ ascii "def")
      = (self, some ErrKind.ErrSyntax) := by
  have hnull : ∀ t : GoString, quoted t ≠ ascii "null" := by
    intro t ht
    have e : ascii "null" = [110, 117, 108, 108] := by decide
    rw [e] at ht
    simp [quoted] at ht
  have e1 : Unquote (quoted (ascii "null")) = (ascii "null", none) := by decide
  have hgen : ∀ data : GoString, data ≠ ascii "null" → ¬ isQuotedLiteral data →
      String_UnmarshalJSON Unquote self data = (self, some ErrKind.ErrSyntax) := by
    intro data hd hh
    have he := Unquote_not_quoted data hh
    unfold String_UnmarshalJSON
    dsimp only
    rw [if_neg hd]
    split
    · rename_i str err hU
      rw [hU] at he
      simp only at he
      rw [he]
    · rename_i str hU
      rw [hU] at he
      simp at he
  refine ⟨?_, ?_, hgen, ?_, ?_, ?_, ?_⟩
  · simp [String_UnmarshalJSON, hnull s, Unquote_quoted s hq hb hn hv]
  · simp [String_UnmarshalJSON, hnull (ascii "null"), e1]
  · exact hgen _ (by decide) (by decide)
  · exact hgen _ (by decide) (by decide)
  · exact hgen _ (by decide) (by decide)
  · exact hgen _ (by decide) (by decide)

set_option maxRecDepth 100000 in
/-- Witness of the amended claim C13 at the string `cus_123`. -/
theorem String_UnmarshalJSON_quoted_witness :
    ValidString (ascii "cus_123") = true ∧
    String_UnmarshalJSON Unquote [] (quoted (ascii "cus_123")) = (ascii "cus_123", none) :=
  ⟨by decide,
    (String_UnmarshalJSON_quoted [] (ascii "cus_123") (by decide) (by decide) (by decide)
      (by decide)).1⟩

/-- Claim C14 fails on the code: the JSON literals `"\/"` (an escaped solidus)
and `"\ud83d\ude00"` (a surrogate pair) are well formed, yet `String.UnmarshalJSON`
returns `ErrSyntax` on both and leaves the target as it was, because
`strconv.Unquote` reads Go syntax, where these escapes are invalid. -/
theorem String_UnmarshalJSON_json_escapes (self : GoString) :
    String_UnmarshalJSON Unquote self (quoted [92, 47]) = (self, some ErrKind.ErrSyntax) ∧
    String_UnmarshalJSON Unquote self
      (quoted [92, 117, 100, 56, 51, 100, 92, 117, 100, 101, 48, 48])
      = (self, some ErrKind.ErrSyntax) := by
  have e1 : Unquote (quoted [92, 47]) = ([], some ErrKind.ErrSyntax) := by decide
  have e2 : Unquote (quoted [92, 117, 100, 56, 51, 100, 92, 117, 100, 101, 48, 48])
      = ([], some ErrKind.ErrSyntax) := by decide
  have n1 : (quoted [92, 47] : GoString) ≠ ascii "null" := by decide
  have n2 : (quoted [92, 117, 100, 56, 51, 100, 92, 117, 100, 101, 48, 48] : GoString)
      ≠ ascii "null" := by decide
  constructor
  · simp [String_UnmarshalJSON, n1, e1]
  · simp [String_UnmarshalJSON, n2, e2]

/-- Counterexample to claim C16: no function reads the raw text off the error of
`String.UnmarshalJSON`, since the texts `abc` and `xyz` fail with the same
error value. -/
theorem String_UnmarshalJSON_error_counterexample :
    ¬ ∃ f : ErrKind → GoString, ∀ (data : GoString) (e : ErrKind),
      data ≠ ascii "null" → (String_UnmarshalJSON Unquote [] data).2 = some e → f e = data := by
  rintro ⟨f, hf⟩
  have h1 := hf (ascii "abc") ErrKind.ErrSyntax (by decide) (by decide)
  have h2 := hf (ascii "xyz") ErrKind.ErrSyntax (by decide) (by decide)
  rw [h1] at h2
  revert h2
  decide

/-- Claim C16, amended: when `UnmarshalJSON` of `Int`, `Int64` or `Bool` fails,
the returned error is a `NumError` whose `Num` is the raw text passed in; when
`UnmarshalJSON` of `String` fails, the error is the fixed value `ErrSyntax`, which
carries no text. -/
theorem UnmarshalJSON_error_text (data : GoString) :
    (∀ (self : Int) (e : NumError), (Int_UnmarshalJSON self data).2 = some e → e.Num = data) ∧
    (∀ (self : Int) (e : NumError),
      (Int64_UnmarshalJSON self data).2 = some e → e.Num = data) ∧
    (∀ (self : Bool) (e : NumError),
      (Bool_UnmarshalJSON self data).2 = some e → e.Num = data) ∧
    (∀ (self : GoString) (e : ErrKind),
      (String_UnmarshalJSON Unquote self data).2 = some e → e = ErrKind.ErrSyntax) := by
  refine ⟨?_, ?_, ?_, ?_⟩
  · intro self e h
    unfold Int_UnmarshalJSON at h
    by_cases hn : data = ascii "null"
    · simp [hn] at h
    · by_cases hok : ∃ v, intText data = some v ∧ fitsInt64 v
      · obtain ⟨v, hv, hf⟩ := hok
        simp [hn, Atoi_ok data v hv hf] at h
      · obtain ⟨v, k, hA⟩ := Atoi_bad data (fun v hv hf => hok ⟨v, hv, hf⟩)
        simp [hn, hA] at h
        rw [← h]
  · intro self e h
    unfold Int64_UnmarshalJSON at h
    by_cases hn : data = ascii "null"
    · simp [hn] at h
    · by_cases hok : ∃ v, intText data = some v ∧ fitsInt64 v
      · obtain ⟨v, hv, hf⟩ := hok
        simp [hn, ParseInt_ok data v hv hf] at h
      · obtain ⟨v, k, hA⟩ := ParseInt_bad data (fun v hv hf => hok ⟨v, hv, hf⟩)
        simp [hn, hA] at h
        rw [← h]
  · intro self e h
    have hP : ∀ e', (ParseBool data).2 = some e' → e'.Num = data := by
      intro e' h'
      unfold ParseBool at h'
      split at h'
      · simp at h'
      · split at h'
        · simp at h'
        · simp [syntaxError] at h'
          rw [← h']
    unfold Bool_UnmarshalJSON at h
    dsimp only at h
    split at h
    · simp at h
    · split at h
      · rename_i x b err hB
        simp at h
        subst h
        exact hP err (by rw [hB])
      · simp at h
  · intro self e h
    unfold String_UnmarshalJSON at h
    dsimp only at h
    split at h
    · simp at h
    · split at h
      · rename_i x out err hU
        simp at h
        subst h
        exact Unquote_err data err (by rw [hU])
      · simp at h


/-- The request of `buildRequest`, field by field. -/
theorem buildRequest_ok {ε τ : Type} (L : Library ε τ) (_url _key method path : GoString)
    (values : Values) (req : Request)
    (h : buildRequest L _url _key method path values = .ok req) :
    ∃ endpoint, L.Parse _url = .ok endpoint ∧
      req.Method = method ∧
      req.URL.Scheme = endpoint.Scheme ∧ req.URL.Opaque = endpoint.Opaque ∧
      req.URL.User = some (User _key) ∧ req.URL.Host = endpoint.Host ∧
      req.URL.Path = path ∧ req.URL.RawPath = endpoint.RawPath ∧
      req.URL.ForceQuery = endpoint.ForceQuery ∧
      req.URL.RawQuery = (if method = ascii "GET" then L.Encode values else endpoint.RawQuery) ∧
      req.URL.Fragment = endpoint.Fragment ∧ req.URL.RawFragment = endpoint.RawFragment ∧
      req.Body = (if method ≠ ascii "GET" ∧ values ≠ none then some (L.Encode values)
        else none) ∧
      req.Header = [(ascii "Bhojpur-Version", apiVersion)] := by
  unfold buildRequest at h
  split at h
  · exact absurd h (by simp)
  · rename_i endpoint hp
    refine ⟨endpoint, hp, ?_⟩
    dsimp only at h
    split at h
    · exact absurd h (by simp)
    · have hr := Except.ok.inj h
      subst hr
      by_cases hm : method = ascii "GET" <;> simp [hm]

set_option maxRecDepth 100000 in
/-- Counterexample to claim C17: with the base URL `https://api.bhojpur.net?debug=1`
the request of a POST has the query string `debug=1`, not an empty one; and the
request of a DELETE with a nil parameter set has no body at all. -/
theorem buildRequest_params_counterexample :
    (∃ req, buildRequest (exampleLibrary ⟨200, .ok []⟩) (ascii "https://api.bhojpur.net?debug=1")
        (ascii "sk_test") (ascii "POST") (ascii "/v1/charges")
        (some [(ascii "amount", [ascii "300"])]) = .ok req ∧
      req.URL.RawQuery = ascii "debug=1" ∧ req.URL.RawQuery ≠ [] ∧
      req.Body = some (ascii "amount=300")) ∧
    (∃ req, buildRequest (exampleLibrary ⟨200, .ok []⟩) (ascii "https://api.bhojpur.net")
        (ascii "sk_test") (ascii "DELETE") (ascii "/v1/plans/gold") none = .ok req ∧
      req.Body = none ∧ req.Body ≠ some (EncodeValues none)) :=
  ⟨⟨_, rfl, by decide, by decide, by decide⟩, ⟨_, rfl, by decide, by decide⟩⟩

/-- Claim C17, amended: in the request that `query` builds, when the method is GET
the URL query string is the form-encoding of the parameter set and no body is
sent; for every other method the URL query string is the one of the base URL
(empty when the base URL has none) and the body is that same form-encoding when
the parameter set is not nil, while no body is sent when it is nil. -/
theorem buildRequest_params {ε τ : Type} (L : Library ε τ)
    (_url _key method path : GoString) (values : Values) (req : Request)
    (h : buildRequest L _url _key method path values = .ok req) :
    (method = ascii "GET" → req.URL.RawQuery = L.Encode values ∧ req.Body = none) ∧
    (method ≠ ascii "GET" →
      (∃ endpoint, L.Parse _url = .ok endpoint ∧ req.URL.RawQuery = endpoint.RawQuery) ∧
      (values ≠ none → req.Body = some (L.Encode values)) ∧
      (values = none → req.Body = none)) := by
  obtain ⟨endpoint, hp, -, -, -, -, -, -, -, -, hq, -, -, hb, -⟩ :=
    buildRequest_ok L _url _key method path values req h
  constructor
  · intro hm
    rw [hq, hb]
    simp [hm]
  · intro hm
    refine ⟨⟨endpoint, hp, ?_⟩, ?_, ?_⟩
    · rw [hq, if_neg hm]
    · intro hv
      rw [hb, if_pos ⟨hm, hv⟩]
    · intro hv
      rw [hb]
      simp [hv]

set_option maxRecDepth 100000 in
/-- Witness of the amended claim C17: a GET on the default base URL with one
parameter. -/
theorem buildRequest_params_witness :
    ∃ req, buildRequest (exampleLibrary ⟨200, .ok []⟩) (ascii "https://api.bhojpur.net")
        (ascii "sk_test") (ascii "GET") (ascii "/v1/charges")
        (some [(ascii "count", [ascii "10"])]) = .ok req ∧
      req.URL.RawQuery = ascii "count=10" ∧ req.Body = none :=
  ⟨_, rfl, ((buildRequest_params (exampleLibrary ⟨200, .ok []⟩)
    (ascii "https://api.bhojpur.net") (ascii "sk_test") (ascii "GET") (ascii "/v1/charges")
    (some [(ascii "count", [ascii "10"])]) _ rfl).1 rfl).1.trans (by decide),
    ((buildRequest_params (exampleLibrary ⟨200, .ok []⟩)
    (ascii "https://api.bhojpur.net") (ascii "sk_test") (ascii "GET") (ascii "/v1/charges")
    (some [(ascii "count", [ascii "10"])]) _ rfl).1 rfl).2⟩


theorem readResponse_ne {ε τ : Type} (L : Library ε τ) (status : Int) (body : GoString)
    (v : τ) (hs : status ≠ 200) :
    readResponse L ⟨status, .ok body⟩ v
      = (v, some (QueryErr.domain (L.UnmarshalError body ⟨[], none, []⟩))) := by
  unfold readResponse
  simp [hs]

theorem readResponse_eq {ε τ : Type} (L : Library ε τ) (body : GoString) (v : τ) :
    readResponse L ⟨200, .ok body⟩ v
      = ((L.Unmarshal body v).1, (L.Unmarshal body v).2.map QueryErr.lib) := by
  unfold readResponse
  simp only [ne_eq, not_true_eq_false, if_false]
  split <;> simp_all

theorem query_eq_readResponse {ε τ : Type} (L : Library ε τ)
    (_url _key method path : GoString) (values : Values) (v : τ) (req : Request)
    (r : Response ε) (body : GoString)
    (hb : buildRequest L _url _key method path values = .ok req)
    (hd : L.Do req = .ok r) (hr : r.Body = .ok body) :
    query L _url _key method path values v = readResponse L ⟨r.StatusCode, .ok body⟩ v := by
  unfold query
  rw [hb]
  dsimp only
  rw [hd]
  dsimp only
  cases r with
  | mk sc b =>
    simp only at hr
    subst hr
    rfl

/-- Claim C18: once the request is built, the transport has returned a response
and its body has been read, `query` returns a Domain Error if and only if the
status code is not 200: every other status yields the Domain Error filled from the
body, whatever the body is, and leaves the target as it was; and status 200 yields
exactly the result of decoding the body into the target, the target so filled and
the error of the decoder or none. -/
theorem query_status {ε τ : Type} (L : Library ε τ) (_url _key method path : GoString)
    (values : Values) (v : τ) (req : Request) (r : Response ε) (body : GoString)
    (hb : buildRequest L _url _key method path values = .ok req)
    (hd : L.Do req = .ok r) (hr : r.Body = .ok body) :
    ((∃ e, (query L _url _key method path values v).2 = some (QueryErr.domain e))
      ↔ r.StatusCode ≠ 200) ∧
    (r.StatusCode ≠ 200 → query L _url _key method path values v
      = (v, some (QueryErr.domain (L.UnmarshalError body ⟨[], none, []⟩)))) ∧
    (r.StatusCode = 200 →
      (query L _url _key method path values v).1 = (L.Unmarshal body v).1 ∧
      (query L _url _key method path values v).2 = (L.Unmarshal body v).2.map QueryErr.lib) := by
  rw [query_eq_readResponse L _url _key method path values v req r body hb hd hr]
  by_cases hs : r.StatusCode = 200
  · rw [hs, readResponse_eq]
    refine ⟨?_, fun h => absurd rfl h, fun _ => ⟨rfl, rfl⟩⟩
    simp only [ne_eq, not_true_eq_false, iff_false, not_exists]
    intro e
    cases (L.Unmarshal body v).2 <;> simp
  · rw [readResponse_ne L r.StatusCode body v hs]
    exact ⟨⟨fun _ => hs, fun _ => ⟨_, rfl⟩⟩, fun _ => rfl, fun h => absurd h hs⟩

set_option maxRecDepth 100000 in
/-- Witness of claim C18: status 404 with an empty body, which is not JSON, gives a
Domain Error and leaves the target as it was. -/
theorem query_status_witness :
    query (exampleLibrary ⟨404, .ok []⟩) (ascii "https://api.bhojpur.net")
      (ascii "sk_test") (ascii "GET") (ascii "/v1/charges/ch_1") none ()
        = ((), some (QueryErr.domain ⟨[], none, []⟩)) :=
  (query_status (exampleLibrary ⟨404, .ok []⟩) (ascii "https://api.bhojpur.net")
    (ascii "sk_test") (ascii "GET") (ascii "/v1/charges/ch_1") none () _ ⟨404, .ok []⟩ []
    rfl rfl rfl).2.1 (by decide)

/-- Claim C21: every request that `query` builds, for every method, path and
parameter set, carries the header `Bhojpur-Version` with the fixed value
`2018-03-26`, and no other header. -/
theorem buildRequest_version {ε τ : Type} (L : Library ε τ)
    (_url _key method path : GoString) (values : Values) (req : Request)
    (h : buildRequest L _url _key method path values = .ok req) :
    req.Header = [(ascii "Bhojpur-Version", ascii "2018-03-26")] ∧
    (ascii "Bhojpur-Version", ascii "2018-03-26") ∈ req.Header := by
  obtain ⟨endpoint, -, -, -, -, -, -, -, -, -, -, -, -, -, hh⟩ :=
    buildRequest_ok L _url _key method path values req h
  rw [hh]
  exact ⟨rfl, List.mem_singleton.mpr rfl⟩

set_option maxRecDepth 100000 in
/-- Witness of claim C21: a DELETE on the default base URL with a nil parameter
set. -/
theorem buildRequest_version_witness :
    ∃ req, buildRequest (exampleLibrary ⟨200, .ok []⟩) (ascii "https://api.bhojpur.net")
        (ascii "sk_test") (ascii "DELETE") (ascii "/v1/plans/gold") none = .ok req ∧
      req.Header = [(ascii "Bhojpur-Version", ascii "2018-03-26")] :=
  ⟨_, rfl, (buildRequest_version (exampleLibrary ⟨200, .ok []⟩)
    (ascii "https://api.bhojpur.net") (ascii "sk_test") (ascii "DELETE")
    (ascii "/v1/plans/gold") none _ rfl).1⟩

/-- Claim C23: `SetKeyEnv` sets the key to the value of the environment variable
`BHOJPUR_API_KEY` and returns an error if and only if that value is missing or
empty; when it returns an error the stored key is the empty string, even after a
non-empty key was set with `SetKey`. -/
theorem SetKeyEnv_key (env : GoString → Option GoString) (key0 key1 : GoString) :
    (SetKeyEnv env (SetKey key1 key0)).1 = (env (ascii "BHOJPUR_API_KEY")).getD [] ∧
    ((SetKeyEnv env (SetKey key1 key0)).2 ≠ none ↔
      env (ascii "BHOJPUR_API_KEY") = none ∨ env (ascii "BHOJPUR_API_KEY") = some []) ∧
    ((SetKeyEnv env (SetKey key1 key0)).2 ≠ none → (SetKeyEnv env (SetKey key1 key0)).1 = []) := by
  unfold SetKeyEnv Getenv
  cases hv : env (ascii "BHOJPUR_API_KEY") with
  | none => simp
  | some val =>
    by_cases he : val = []
    · simp [he]
    · simp [he]

/-- Claim C28: for each wrapper type, `UnmarshalJSON` writes the target only on a
successful parse of a non-null input: when the input is `null`, or when the call
returns an error, the target keeps the value it held before the call. -/
theorem UnmarshalJSON_frame (data : GoString) :
    (∀ self : Int, (data = ascii "null" ∨ (Int_UnmarshalJSON self data).2 ≠ none) →
      (Int_UnmarshalJSON self data).1 = self) ∧
    (∀ self : Int, (data = ascii "null" ∨ (Int64_UnmarshalJSON self data).2 ≠ none) →
      (Int64_UnmarshalJSON self data).1 = self) ∧
    (∀ self : Bool, (data = ascii "null" ∨ (Bool_UnmarshalJSON self data).2 ≠ none) →
      (Bool_UnmarshalJSON self data).1 = self) ∧
    (∀ self : GoString, (data = ascii "null" ∨ (String_UnmarshalJSON Unquote self data).2 ≠ none) →
      (String_UnmarshalJSON Unquote self data).1 = self) := by
  refine ⟨?_, ?_, ?_, ?_⟩
  · intro self h
    unfold Int_UnmarshalJSON at h ⊢
    dsimp only at h ⊢
    by_cases hn : data = ascii "null"
    · simp [hn]
    · simp only [hn, if_false, false_or] at h ⊢
      split
      · rfl
      · rename_i hA
        rw [hA] at h
        exact absurd rfl h
  · intro self h
    unfold Int64_UnmarshalJSON at h ⊢
    dsimp only at h ⊢
    by_cases hn : data = ascii "null"
    · simp [hn]
    · simp only [hn, if_false, false_or] at h ⊢
      split
      · rfl
      · rename_i hA
        rw [hA] at h
        exact absurd rfl h
  · intro self h
    unfold Bool_UnmarshalJSON at h ⊢
    dsimp only at h ⊢
    by_cases hn : data = ascii "null"
    · simp [hn]
    · simp only [hn, if_false, false_or] at h ⊢
      split
      · rfl
      · rename_i hA
        rw [hA] at h
        exact absurd rfl h
  · intro self h
    unfold String_UnmarshalJSON at h ⊢
    dsimp only at h ⊢
    by_cases hn : data = ascii "null"
    · simp [hn]
    · simp only [hn, if_false, false_or] at h ⊢
      split
      · rfl
      · rename_i hA
        rw [hA] at h
        exact absurd rfl h


/-! ## Lemmas on the Luhn sum -/

theorem luhnSum_eq (s : GoString) : luhnSum s = luhnSumFrom 0 s.reverse := rfl

/-- On a string of ASCII digits `IsLuhnValid` tests the Luhn sum. -/
theorem IsLuhnValid_eval (s : GoString) (h : ∀ c ∈ s, isDigit c) :
    IsLuhnValid s = (decide (luhnSumFrom 0 s.reverse % 10 = 0), none) := by
  have he : explode s = s.map (fun c => [c]) :=
    explodeAux_digits s.length s (Nat.le_refl _) h
  have hr : ∀ c ∈ s.reverse, isDigit c := fun c hc => h c (List.mem_reverse.mp hc)
  have hl := luhnLoop_digits s.reverse 0 0 hr
  unfold IsLuhnValid
  rw [he, ← List.map_reverse]
  simpa [luhnSumFrom] using hl

theorem luhnSumFrom_cons (k : Nat) (c : Byte) (l : GoString) :
    luhnSumFrom k (c :: l) = luhnTerm k (digitVal c) + luhnSumFrom (k + 1) l := by
  simp [luhnSumFrom, List.enumFrom_cons]

theorem luhnSumFrom_append : ∀ (l1 l2 : GoString) (k : Nat),
    luhnSumFrom k (l1 ++ l2) = luhnSumFrom k l1 + luhnSumFrom (k + l1.length) l2 := by
  intro l1
  induction l1 with
  | nil => intro l2 k; simp [luhnSumFrom]
  | cons c rest ih =>
    intro l2 k
    rw [List.cons_append, luhnSumFrom_cons, luhnSumFrom_cons, ih, List.length_cons]
    have : k + 1 + rest.length = k + (rest.length + 1) := by omega
    rw [this]
    omega

theorem luhnTerm_le (k d : Nat) (h : d ≤ 9) : luhnTerm k d ≤ 9 := by
  unfold luhnTerm
  split_ifs <;> omega

theorem luhnTerm_inj (k d e : Nat) (hd : d ≤ 9) (he : e ≤ 9)
    (h : luhnTerm k d = luhnTerm k e) : d = e := by
  unfold luhnTerm at h
  split_ifs at h <;> omega

theorem digitVal_le (c : Byte) (h : isDigit c) : digitVal c ≤ 9 := by
  unfold digitVal
  omega

theorem digitVal_inj (c d : Byte) (hc : isDigit c) (hd : isDigit d)
    (h : digitVal c = digitVal d) : c = d := by
  unfold digitVal at h
  apply Fin.ext
  omega

theorem luhnSumFrom_zeros : ∀ (n k : Nat), luhnSumFrom k (List.replicate n (48 : Byte)) = 0 := by
  intro n
  induction n with
  | zero => intro k; rfl
  | succ n ih =>
    intro k
    rw [List.replicate_succ, luhnSumFrom_cons, ih]
    have : digitVal (48 : Byte) = 0 := rfl
    rw [this]
    unfold luhnTerm
    split_ifs <;> rfl

/-- Claim C29: `IsLuhnValid` accepts the empty card number, and every string made
only of the digit 0: it returns `(true, nil)` on them. -/
theorem IsLuhnValid_zeros :
    IsLuhnValid (ascii "") = (true, none) ∧
    ∀ n : Nat, IsLuhnValid (List.replicate n (48 : Byte)) = (true, none) := by
  have hz : ∀ n : Nat, IsLuhnValid (List.replicate n (48 : Byte)) = (true, none) := by
    intro n
    have hd : ∀ c ∈ List.replicate n (48 : Byte), isDigit c := by
      intro c hc
      rw [(List.mem_replicate.mp hc).2]
      decide
    rw [IsLuhnValid_eval _ hd, List.reverse_replicate, luhnSumFrom_zeros]
    rfl
  exact ⟨hz 0, hz⟩

/-- Claim C26: `IsLuhnValid` detects every single-digit error: when a digit
string passes the check, replacing the digit at any position by a different digit
gives a string that fails it. -/
theorem IsLuhnValid_single_digit (s : GoString) (hs : ∀ c ∈ s, isDigit c)
    (hv : IsLuhnValid s = (true, none)) (i : Nat) (hi : i < s.length) (c1 : Byte)
    (hc1 : isDigit c1) (hne : c1 ≠ s[i]) :
    IsLuhnValid (s.set i c1) = (false, none) := by
  have hsplit : s = s.take i ++ s[i] :: s.drop (i + 1) := by
    rw [← List.drop_eq_getElem_cons hi, List.take_append_drop]
  have hset : s.set i c1 = s.take i ++ c1 :: s.drop (i + 1) := by
    rw [List.set_eq_take_append_cons_drop, if_pos hi]
  have hci : isDigit s[i] := hs _ (List.getElem_mem hi)
  have hs1 : ∀ c ∈ s.set i c1, isDigit c := by
    intro c hc
    rw [hset] at hc
    rcases List.mem_append.mp hc with h | h
    · exact hs c (List.mem_of_mem_take h)
    · rcases List.mem_cons.mp h with rfl | h
      · exact hc1
      · exact hs c (List.mem_of_mem_drop h)
  have hsum : ∀ c : Byte, luhnSumFrom 0 (s.take i ++ c :: s.drop (i + 1)).reverse
      = luhnSumFrom 0 (s.drop (i + 1)).reverse
        + luhnTerm (s.drop (i + 1)).length (digitVal c)
        + luhnSumFrom ((s.drop (i + 1)).length + 1) (s.take i).reverse := by
    intro c
    rw [List.reverse_append, List.reverse_cons, List.append_assoc, luhnSumFrom_append,
      List.singleton_append, luhnSumFrom_cons, List.length_reverse]
    simp only [Nat.zero_add]
    omega
  rw [IsLuhnValid_eval s hs] at hv
  rw [IsLuhnValid_eval _ hs1]
  have hv0 : luhnSumFrom 0 s.reverse % 10 = 0 := by simpa using hv
  rw [hsplit, hsum] at hv0
  rw [hset, hsum]
  have ht : luhnTerm (s.drop (i + 1)).length (digitVal c1)
      ≠ luhnTerm (s.drop (i + 1)).length (digitVal s[i]) := by
    intro h
    exact hne (digitVal_inj _ _ hc1 hci
      (luhnTerm_inj _ _ _ (digitVal_le _ hc1) (digitVal_le _ hci) h))
  have h1 := luhnTerm_le (s.drop (i + 1)).length _ (digitVal_le _ hc1)
  have h2 := luhnTerm_le (s.drop (i + 1)).length _ (digitVal_le _ hci)
  have hnz : ¬ ((luhnSumFrom 0 (s.drop (i + 1)).reverse
        + luhnTerm (s.drop (i + 1)).length (digitVal c1)
        + luhnSumFrom ((s.drop (i + 1)).length + 1) (s.take i).reverse) % 10 = 0) := by
    omega
  rw [decide_eq_false hnz]

set_option maxRecDepth 100000 in
/-- Witness of claim C26: the valid number `79927398713` with its last digit
replaced by 0. -/
theorem IsLuhnValid_single_digit_witness :
    IsLuhnValid ((ascii "79927398713").set 10 48) = (false, none) :=
  IsLuhnValid_single_digit (ascii "79927398713") (by decide) (by decide) 10 (by decide) 48
    (by decide) (by decide)

/-- Claim C27: every string of ASCII decimal digits, the empty one included, has
exactly one check digit: one digit `d` such that `IsLuhnValid` returns true on the
string followed by `d`. -/
theorem IsLuhnValid_check_digit (s : GoString) (hs : ∀ c ∈ s, isDigit c) :
    ∃! d : Byte, isDigit d ∧ IsLuhnValid (s ++ [d]) = (true, none) := by
  have hev : ∀ d : Byte, isDigit d →
      (IsLuhnValid (s ++ [d]) = (true, none) ↔
        (digitVal d + luhnSumFrom 1 s.reverse) % 10 = 0) := by
    intro d hd
    have hsd : ∀ c ∈ s ++ [d], isDigit c := by
      intro c hc
      rcases List.mem_append.mp hc with h | h
      · exact hs c h
      · rw [List.mem_singleton.mp h]
        exact hd
    rw [IsLuhnValid_eval _ hsd, List.reverse_append, List.reverse_singleton,
      List.singleton_append, luhnSumFrom_cons]
    have : luhnTerm 0 (digitVal d) = digitVal d := by simp [luhnTerm]
    rw [this]
    simp
  have hlt : (10 - luhnSumFrom 1 s.reverse % 10) % 10 < 10 := Nat.mod_lt _ (by norm_num)
  obtain ⟨hd0, hv0⟩ := digit_byte _ hlt
  refine ⟨Fin.ofNat ((10 - luhnSumFrom 1 s.reverse % 10) % 10 + 48), ⟨hd0, ?_⟩, ?_⟩
  · rw [hev _ hd0, hv0]
    omega
  · rintro d ⟨hd, hv⟩
    rw [hev d hd] at hv
    apply digitVal_inj d _ hd hd0
    rw [hv0]
    have := digitVal_le d hd
    omega

set_option maxRecDepth 100000 in
/-- Witness of claim C27 at the digit string `7992739871`, whose check digit is 3. -/
theorem IsLuhnValid_check_digit_witness :
    (∃! d : Byte, isDigit d ∧ IsLuhnValid (ascii "7992739871" ++ [d]) = (true, none)) ∧
    IsLuhnValid (ascii "7992739871" ++ [51]) = (true, none) :=
  ⟨IsLuhnValid_check_digit (ascii "7992739871") (by decide), by decide⟩


theorem hasKey_Add : ∀ (m : List (GoString × List GoString)) (k v k1 : GoString),
    hasKey (Values_Add m k v) k1 ↔ k1 = k ∨ hasKey m k1 := by
  intro m
  induction m with
  | nil => intro k v k1; simp [Values_Add, hasKey]
  | cons e rest ih =>
    intro k v k1
    obtain ⟨ek, evs⟩ := e
    have ih1 := ih k v k1
    unfold hasKey at ih1 ⊢
    unfold Values_Add
    by_cases h : ek = k
    · subst h
      simp only [if_true, List.map_cons, List.mem_cons]
      tauto
    · simp only [h, if_false, List.map_cons, List.mem_cons, ih1]
      tauto

theorem index_Add : ∀ (m : List (GoString × List GoString)) (k v k1 : GoString),
    Values_index (Values_Add m k v) k1 =
      if k1 = k then Values_index m k ++ [v] else Values_index m k1 := by
  intro m
  induction m with
  | nil =>
    intro k v k1
    by_cases h : k1 = k
    · subst h
      simp [Values_Add, Values_index]
    · have h1 : ¬ k = k1 := fun hh => h hh.symm
      simp [Values_Add, Values_index, h, h1]
  | cons e rest ih =>
    intro k v k1
    obtain ⟨ek, evs⟩ := e
    unfold Values_Add
    by_cases h : ek = k
    · subst h
      by_cases h1 : k1 = ek
      · subst h1
        simp [Values_index]
      · have h2 : ¬ ek = k1 := fun hh => h1 hh.symm
        simp [Values_index, h1, h2]
    · simp only [h, if_false]
      by_cases h1 : k1 = k
      · subst h1
        simp [Values_index, h, ih]
      · by_cases h2 : ek = k1
        · simp [Values_index, h1, h2]
        · simp [Values_index, h1, h2, ih]

/-- Claim C24 fails on the code: `InvoiceItemClient.Update` never sends the key
`amount`; it sends a non-zero amount under the key `invoice`, while
`InvoiceItemClient.Create` sends it under `amount`. -/
theorem InvoiceItemClient_Update_keys {F : Type} (isZero : F → Bool)
    (FormatFloat : F → GoString) (id : GoString) (params : InvoiceItemParams F) :
    ∃ m, (InvoiceItemClient_Update isZero FormatFloat id params).2.2 = some m ∧
      ¬ hasKey m (ascii "amount") ∧
      (isZero params.Amount = false →
        Values_index m (ascii "invoice") = [FormatFloat params.Amount]) ∧
      (hasKey m (ascii "description") ↔ params.Desc ≠ []) ∧
      ∃ m1, (InvoiceItemClient_Create FormatFloat params).2.2 = some m1 ∧
        Values_index m1 (ascii "amount") = [FormatFloat params.Amount] := by
  refine ⟨_, rfl, ?_, ?_, ?_, _, rfl, ?_⟩
  · have h0 : ¬ hasKey ([] : List (GoString × List GoString)) (ascii "amount") := by
      simp [hasKey]
    split_ifs <;> simp +decide [hasKey_Add, h0]
  · intro hz
    simp only [hz, if_true]
    split_ifs <;> simp +decide [index_Add, Values_index]
  · have h0 : ¬ hasKey ([] : List (GoString × List GoString)) (ascii "description") := by
      simp [hasKey]
    split_ifs with h1 h2 h2 <;> simp +decide [hasKey_Add, h0] <;>
      simpa [List.length_eq_zero] using h2
  · split_ifs <;> simp +decide [index_Add, Values_index]


theorem GetCardType_len1 (a : Byte) :
    GetCardType [a] =
      if a = 52 then some Visa
      else if a = 50 ∨ a = 49 ∨ a = 54 ∨ a = 53 ∨ a = 51 then none
      else some UnknownCard := by
  obtain ⟨h1, h2, h3, h4, h5, h6, h7, h8, h9, h10, h11, h12, h13, h14, h15, h16, h17, h18,
    h19, h20, h21, h22, h23, h24, h25⟩ := ascii_literals
  simp only [GetCardType, slice, h1, h2, h3, h4, h5, h6, h7, h8, h9, h10, h11, h12, h13, h14,
    h15, h16, h17, h18, h19, h20, h21, h22, h23, h24, h25]
  clear h1 h2 h3 h4 h5 h6 h7 h8 h9 h10 h11 h12 h13 h14 h15 h16 h17 h18 h19 h20 h21 h22 h23 h24 h25
  simp
  by_cases ha : a = 52
  · simp [ha]
  by_cases ha1 : a = 50
  · simp [ha1]
  by_cases ha2 : a = 49
  · simp [ha2]
  by_cases ha3 : a = 54
  · simp [ha3]
  by_cases ha4 : a = 53
  · simp [ha4]
  by_cases ha5 : a = 51
  · simp [ha5]
  simp [ha, ha1, ha2, ha3, ha4, ha5]

theorem GetCardType_len2 (a b : Byte) :
    GetCardType [a, b] =
      if a = 52 then some Visa
      else if a = 50 ∨ a = 49 ∨ a = 54 then none
      else if a = 53 then
        some (if b = 49 ∨ b = 50 ∨ b = 51 ∨ b = 52 ∨ b = 53 then MasterCard else UnknownCard)
      else if a = 51 then
        (if b = 52 ∨ b = 55 then some AmericanExpress
         else if b = 53 then some RuPay
         else if b = 54 then some DinersClub
         else if b = 48 then none
         else some JCB)
      else some UnknownCard := by
  obtain ⟨h1, h2, h3, h4, h5, h6, h7, h8, h9, h10, h11, h12, h13, h14, h15, h16, h17, h18,
    h19, h20, h21, h22, h23, h24, h25⟩ := ascii_literals
  simp only [GetCardType, slice, h1, h2, h3, h4, h5, h6, h7, h8, h9, h10, h11, h12, h13, h14,
    h15, h16, h17, h18, h19, h20, h21, h22, h23, h24, h25]
  clear h1 h2 h3 h4 h5 h6 h7 h8 h9 h10 h11 h12 h13 h14 h15 h16 h17 h18 h19 h20 h21 h22 h23 h24 h25
  simp
  by_cases ha : a = 52
  · simp [ha]
  by_cases ha1 : a = 50
  · simp [ha1]
  by_cases ha2 : a = 49
  · simp [ha2]
  by_cases ha3 : a = 54
  · simp [ha3]
  by_cases ha4 : a = 53
  · simp [ha4, apply_ite some]
  by_cases ha5 : a = 51
  · by_cases hb : b = 48
    · simp [ha5, hb]
    · simp [ha5, hb]
  simp [ha, ha1, ha2, ha3, ha4, ha5]

theorem GetCardType_len3 (a b c : Byte) :
    GetCardType [a, b, c] =
      if a = 52 then some Visa
      else if a = 50 ∨ a = 49 ∨ a = 54 then none
      else if a = 53 then
        some (if b = 49 ∨ b = 50 ∨ b = 51 ∨ b = 52 ∨ b = 53 then MasterCard else UnknownCard)
      else if a = 51 then
        some (if b = 52 ∨ b = 55 then AmericanExpress
         else if b = 53 then RuPay
         else if b = 54 then DinersClub
         else if b = 48 then
           (if c = 48 ∨ c = 49 ∨ c = 50 ∨ c = 51 ∨ c = 52 ∨ c = 53 then DinersClub
            else UnknownCard)
         else JCB)
      else some UnknownCard := by
  obtain ⟨h1, h2, h3, h4, h5, h6, h7, h8, h9, h10, h11, h12, h13, h14, h15, h16, h17, h18,
    h19, h20, h21, h22, h23, h24, h25⟩ := ascii_literals
  simp only [GetCardType, slice, h1, h2, h3, h4, h5, h6, h7, h8, h9, h10, h11, h12, h13, h14,
    h15, h16, h17, h18, h19, h20, h21, h22, h23, h24, h25]
  clear h1 h2 h3 h4 h5 h6 h7 h8 h9 h10 h11 h12 h13 h14 h15 h16 h17 h18 h19 h20 h21 h22 h23 h24 h25
  simp
  by_cases ha : a = 52
  · simp [ha]
  by_cases ha1 : a = 50
  · simp [ha1]
  by_cases ha2 : a = 49
  · simp [ha2]
  by_cases ha3 : a = 54
  · simp [ha3]
  by_cases ha4 : a = 53
  · simp [ha4, apply_ite some]
  by_cases ha5 : a = 51
  · by_cases hb : b = 48
    · simp [ha5, hb, apply_ite some]
    · simp [ha5, hb, apply_ite some]
  simp [ha, ha1, ha2, ha3, ha4, ha5]

theorem ite_cardTag {p : Prop} [Decidable p] {x y : String} (hx : x ∈ cardTags)
    (hy : y ∈ cardTags) : (if p then x else y) ∈ cardTags := by
  split <;> assumption

theorem cardTags_mem :
    Visa ∈ cardTags ∧ MasterCard ∈ cardTags ∧ AmericanExpress ∈ cardTags ∧
    DinersClub ∈ cardTags ∧ Discover ∈ cardTags ∧ JCB ∈ cardTags ∧ RuPay ∈ cardTags ∧
    UnknownCard ∈ cardTags := by
  simp [cardTags]

theorem GetCardType_cons4_tag (a b c d : Byte) (rest : GoString) :
    ∃ tag ∈ cardTags, GetCardType (a :: b :: c :: d :: rest) = some tag := by
  obtain ⟨m1, m2, m3, m4, m5, m6, m7, m8⟩ := cardTags_mem
  refine ⟨_, ?_, GetCardType_cons4 a b c d rest⟩
  repeat' first
    | exact m1 | exact m2 | exact m3 | exact m4 | exact m5 | exact m6 | exact m7 | exact m8
    | apply ite_cardTag

theorem GetCardType_none_iff (card : GoString) :
    GetCardType card = none ↔
      card = [] ∨
      (([49] <+: card ∨ [50] <+: card ∨ [54] <+: card) ∧ card.length < 4) ∨
      (([51] <+: card ∨ [53] <+: card) ∧ card.length = 1) ∨
      card = [51, 48] := by
  match card with
  | [] => simp [GetCardType, slice]
  | [a] =>
    rw [GetCardType_len1]
    simp only [prefix_one]
    by_cases ha : a = 52
    · subst ha; decide
    by_cases ha1 : a = 50
    · subst ha1; decide
    by_cases ha2 : a = 49
    · subst ha2; decide
    by_cases ha3 : a = 54
    · subst ha3; decide
    by_cases ha4 : a = 53
    · subst ha4; decide
    by_cases ha5 : a = 51
    · subst ha5; decide
    simp [ha, ha1, ha2, ha3, ha4, ha5]
  | [a, b] =>
    rw [GetCardType_len2]
    simp only [prefix_one]
    by_cases ha : a = 52
    · subst ha; simp +decide
    by_cases ha1 : a = 50
    · subst ha1; simp +decide
    by_cases ha2 : a = 49
    · subst ha2; simp +decide
    by_cases ha3 : a = 54
    · subst ha3; simp +decide
    by_cases ha4 : a = 53
    · subst ha4; simp +decide
    by_cases ha5 : a = 51
    · subst ha5
      by_cases hb1 : b = 52 ∨ b = 55
      · rcases hb1 with rfl | rfl <;> decide
      by_cases hb2 : b = 53
      · subst hb2; decide
      by_cases hb3 : b = 54
      · subst hb3; decide
      by_cases hb4 : b = 48
      · subst hb4; decide
      simp +decide [hb1, hb2, hb3, hb4]
    simp [ha, ha1, ha2, ha3, ha4, ha5]
  | [a, b, c] =>
    rw [GetCardType_len3]
    simp only [prefix_one]
    by_cases ha : a = 52
    · subst ha; simp +decide
    by_cases ha1 : a = 50
    · subst ha1; simp +decide
    by_cases ha2 : a = 49
    · subst ha2; simp +decide
    by_cases ha3 : a = 54
    · subst ha3; simp +decide
    by_cases ha4 : a = 53
    · subst ha4; simp +decide
    by_cases ha5 : a = 51
    · subst ha5; simp +decide
    simp [ha, ha1, ha2, ha3, ha4, ha5]
  | a :: b :: c :: d :: rest =>
    rw [GetCardType_cons4]
    simp

theorem GetCardType_none_or_tag (card : GoString) :
    GetCardType card = none ∨ ∃ tag ∈ cardTags, GetCardType card = some tag := by
  obtain ⟨m1, m2, m3, m4, m5, m6, m7, m8⟩ := cardTags_mem
  match card with
  | [] => left; simp [GetCardType, slice]
  | [a] =>
    rw [GetCardType_len1]
    by_cases ha : a = 52
    · right; exact ⟨_, m1, by simp [ha]⟩
    by_cases hn : a = 50 ∨ a = 49 ∨ a = 54 ∨ a = 53 ∨ a = 51
    · left; simp [ha, hn]
    · right; exact ⟨_, m8, by simp [ha, hn]⟩
  | [a, b] =>
    rw [GetCardType_len2]
    by_cases ha : a = 52
    · right; exact ⟨_, m1, by simp [ha]⟩
    by_cases hn : a = 50 ∨ a = 49 ∨ a = 54
    · left; simp [ha, hn]
    by_cases ha4 : a = 53
    · right
      refine ⟨_, ?_, by rw [if_neg ha, if_neg hn, if_pos ha4]⟩
      exact ite_cardTag m2 m8
    by_cases ha5 : a = 51
    · rw [if_neg ha, if_neg hn, if_neg ha4, if_pos ha5]
      by_cases hb1 : b = 52 ∨ b = 55
      · right; exact ⟨_, m3, by rw [if_pos hb1]⟩
      by_cases hb2 : b = 53
      · right; exact ⟨_, m7, by rw [if_neg hb1, if_pos hb2]⟩
      by_cases hb3 : b = 54
      · right; exact ⟨_, m4, by rw [if_neg hb1, if_neg hb2, if_pos hb3]⟩
      by_cases hb4 : b = 48
      · left; rw [if_neg hb1, if_neg hb2, if_neg hb3, if_pos hb4]
      · right; exact ⟨_, m6, by rw [if_neg hb1, if_neg hb2, if_neg hb3, if_neg hb4]⟩
    · right; exact ⟨_, m8, by rw [if_neg ha, if_neg hn, if_neg ha4, if_neg ha5]⟩
  | [a, b, c] =>
    rw [GetCardType_len3]
    by_cases ha : a = 52
    · right; exact ⟨_, m1, by simp [ha]⟩
    by_cases hn : a = 50 ∨ a = 49 ∨ a = 54
    · left; simp [ha, hn]
    by_cases ha4 : a = 53
    · right
      refine ⟨_, ?_, by rw [if_neg ha, if_neg hn, if_pos ha4]⟩
      exact ite_cardTag m2 m8
    by_cases ha5 : a = 51
    · right
      refine ⟨_, ?_, by rw [if_neg ha, if_neg hn, if_neg ha4, if_pos ha5]⟩
      repeat' first
        | exact m1 | exact m2 | exact m3 | exact m4 | exact m5 | exact m6 | exact m7
        | exact m8 | apply ite_cardTag
    · right; exact ⟨_, m8, by rw [if_neg ha, if_neg hn, if_neg ha4, if_neg ha5]⟩
  | a :: b :: c :: d :: rest => right; exact GetCardType_cons4_tag a b c d rest

/-- Claim C30: `GetCardType` panics on a slice expression exactly when the input is
empty, or starts with 1, 2 or 6 and has fewer than 4 bytes, or starts with 3 or 5
and has exactly 1 byte, or is the string `30`; on every other input, among them
every input of at least 4 bytes and every input that starts with 4, it returns
one of the eight tags. -/
theorem GetCardType_faults_iff (card : GoString) :
    (GetCardType card = none ↔
      card = ascii "" ∨
      ((ascii "1" <+: card ∨ ascii "2" <+: card ∨ ascii "6" <+: card) ∧ card.length < 4) ∨
      ((ascii "3" <+: card ∨ ascii "5" <+: card) ∧ card.length = 1) ∨
      card = ascii "30") ∧
    (GetCardType card = none ∨ ∃ tag ∈ cardTags, GetCardType card = some tag) ∧
    (4 ≤ card.length ∨ ascii "4" <+: card →
      ∃ tag ∈ cardTags, GetCardType card = some tag) := by
  obtain ⟨h1, h2, h3, h4, h5, h6, -, -, -, -, -, -, -, -, -, -, -, -, h19, -⟩ := ascii_literals
  have h0 : ascii "" = ([] : GoString) := rfl
  have hiff := GetCardType_none_iff card
  rw [h0, h1, h2, h3, h4, h5, h6, h19]
  refine ⟨hiff, GetCardType_none_or_tag card, ?_⟩
  intro h
  rcases GetCardType_none_or_tag card with hn | ht
  · exfalso
    rw [hiff] at hn
    rcases h with h | h
    · rcases hn with rfl | ⟨-, hl⟩ | ⟨-, hl⟩ | rfl
      · simp at h
      · omega
      · omega
      · simp at h
    · obtain ⟨t, rfl⟩ := h
      simp at hn
  · exact ht


theorem index_not_mem (c : Byte) : ∀ s : GoString, c ∉ s → index s c = none := by
  intro s
  induction s with
  | nil => intro _; rfl
  | cons b rest ih =>
    intro h
    have hb : b ≠ c := fun hh => h (by simp [hh])
    have hr : c ∉ rest := fun hh => h (List.mem_cons_of_mem b hh)
    simp [index, hb, ih hr]

theorem index_append_cons (c : Byte) (r : GoString) : ∀ p : GoString, c ∉ p →
    index (p ++ c :: r) c = some p.length := by
  intro p
  induction p with
  | nil => intro _; simp [index]
  | cons b rest ih =>
    intro h
    have hb : b ≠ c := fun hh => h (by simp [hh])
    have hr : c ∉ rest := fun hh => h (List.mem_cons_of_mem b hh)
    simp [index, hb, ih hr]

theorem Cut_not_mem (c : Byte) (s : GoString) (h : c ∉ s) : Cut s c = (s, [], false) := by
  simp [Cut, index_not_mem c s h]

theorem Cut_append_cons (c : Byte) (p r : GoString) (h : c ∉ p) :
    Cut (p ++ c :: r) c = (p, r, true) := by
  simp [Cut, index_append_cons c r p h]

theorem Cut_append (c : Byte) (p r : GoString) (h : c ∉ p) :
    (Cut (p ++ r) c).1 = p ++ (Cut r c).1 ∧ (Cut (p ++ r) c).2.1 = (Cut r c).2.1 := by
  by_cases hr : c ∈ r
  · obtain ⟨r1, r2, rfl, hr1⟩ := List.eq_append_cons_of_mem hr
    have hp : c ∉ p ++ r1 := by
      simp only [List.mem_append, not_or]
      exact ⟨h, hr1⟩
    rw [← List.append_assoc, Cut_append_cons c (p ++ r1) r2 hp, Cut_append_cons c r1 r2 hr1]
    exact ⟨rfl, rfl⟩
  · have hp : c ∉ p ++ r := by
      simp only [List.mem_append, not_or]
      exact ⟨h, hr⟩
    rw [Cut_not_mem c _ hp, Cut_not_mem c _ hr]
    simp

theorem LastIndex_not_mem (c : Byte) : ∀ s : GoString, c ∉ s → LastIndex s c = none := by
  intro s
  induction s with
  | nil => intro _; rfl
  | cons b rest ih =>
    intro h
    have hb : b ≠ c := fun hh => h (by simp [hh])
    have hr : c ∉ rest := fun hh => h (List.mem_cons_of_mem b hh)
    simp [LastIndex, hb, ih hr]

theorem LastIndex_append_cons (c : Byte) (r : GoString) (hr : c ∉ r) : ∀ p : GoString,
    LastIndex (p ++ c :: r) c = some p.length := by
  intro p
  induction p with
  | nil => simp [LastIndex, LastIndex_not_mem c r hr]
  | cons b rest ih => simp [LastIndex, ih]

theorem stringContainsCTLByte_append (a b : GoString) :
    stringContainsCTLByte (a ++ b) = (stringContainsCTLByte a || stringContainsCTLByte b) := by
  simp [stringContainsCTLByte, List.any_append]

theorem splitQuery_append (p q : GoString) (hp : (63 : Byte) ∉ p)
    (hq : q = [] ∨ ∃ rq, q = 63 :: rq) :
    (splitQuery (p ++ q)).1 = p ∧ (splitQuery (p ++ q)).2 = (splitQuery q).2 := by
  rcases hq with rfl | ⟨rq, rfl⟩
  · have hl : ¬ (p.getLast? = some 63 ∧ p.count 63 = 1) := by
      rintro ⟨h1, -⟩
      exact hp (List.mem_of_getLast?_eq_some h1)
    have hn : ¬ (([] : GoString).getLast? = some 63 ∧ ([] : GoString).count 63 = 1) := by simp
    unfold splitQuery
    rw [List.append_nil, if_neg hl, if_neg hn, Cut_not_mem 63 p hp,
      Cut_not_mem 63 [] (by simp)]
    exact ⟨rfl, rfl⟩
  · have hc : (p ++ 63 :: rq).count 63 = (63 :: rq : GoString).count 63 := by
      rw [List.count_append, List.count_eq_zero_of_not_mem hp, Nat.zero_add]
    have hg : (p ++ 63 :: rq).getLast? = (63 :: rq : GoString).getLast? := by
      rw [List.getLast?_append]
      cases h : (63 :: rq : GoString).getLast? with
      | none => simp at h
      | some x => rfl
    unfold splitQuery
    rw [hc, hg]
    by_cases hcond : (63 :: rq : GoString).getLast? = some 63 ∧
        (63 :: rq : GoString).count 63 = 1
    · rw [if_pos hcond, if_pos hcond]
      obtain ⟨h1, h2⟩ := hcond
      have h3 : (63 : Byte) ∉ rq := by
        rw [List.count_cons_self] at h2
        exact List.count_eq_zero.mp (by omega)
      have h4 : rq = [] := by
        cases rq with
        | nil => rfl
        | cons x xs =>
          exfalso
          rw [List.getLast?_cons_cons] at h1
          exact h3 (List.mem_of_getLast?_eq_some h1)
      subst h4
      simp
    · have h0 : Cut (63 :: rq) 63 = ([], rq, true) := Cut_append_cons 63 [] rq (by simp)
      rw [if_neg hcond, if_neg hcond, Cut_append_cons 63 p rq hp, h0]
      exact ⟨rfl, rfl⟩

set_option maxRecDepth 100000 in
theorem upperhex_unhex : ∀ c : Byte,
    url_ishex (upperhex (c.val / 16)) = true ∧ url_ishex (upperhex (c.val % 16)) = true ∧
    (Fin.ofNat (url_unhex (upperhex (c.val / 16)) * 16 + url_unhex (upperhex (c.val % 16)))
      : Byte) = c := by
  decide

set_option maxRecDepth 100000 in
theorem shouldEscape_percent : ∀ mode : encoding, shouldEscape 37 mode = true := by
  intro mode
  cases mode <;> decide

theorem unescapeBytes_cons (mode : encoding) (c : Byte) (rest : GoString) (hc : c ≠ 37) :
    unescapeBytes mode (c :: rest) =
      (if c = 43 then (if mode = encoding.encodeQueryComponent then 32 else 43) else c)
        :: unescapeBytes mode rest := by
  conv_lhs => unfold unescapeBytes
  rw [if_neg hc]
  split <;> rfl

theorem unescapeBytes_hex (mode : encoding) (a b : Byte) (rest : GoString) :
    unescapeBytes mode (37 :: a :: b :: rest) =
      Fin.ofNat (url_unhex a * 16 + url_unhex b) :: unescapeBytes mode rest := by
  conv_lhs => unfold unescapeBytes
  rw [if_pos rfl]

theorem unescapeValid_cons (mode : encoding) (c : Byte) (rest : GoString) (hc : c ≠ 37)
    (h : unescapeValid mode (c :: rest) = true) : unescapeValid mode rest = true := by
  unfold unescapeValid at h
  rw [if_neg hc] at h
  split at h
  · exact absurd h (by simp)
  · exact h

theorem unescapeValid_hex (mode : encoding) (rest : GoString)
    (h : unescapeValid mode (37 :: rest) = true) :
    ∃ a b rest1, rest = a :: b :: rest1 ∧ unescapeValid mode rest1 = true := by
  unfold unescapeValid at h
  rw [if_pos rfl] at h
  cases rest with
  | nil => simp at h
  | cons a t =>
    cases t with
    | nil => simp at h
    | cons b rest1 =>
      refine ⟨a, b, rest1, rfl, ?_⟩
      simp only at h
      split at h
      · exact absurd h (by simp)
      · split at h
        · exact absurd h (by simp)
        · split at h
          · exact absurd h (by simp)
          · exact h

theorem escape_nil (mode : encoding) : escape [] mode = [] := rfl

theorem escape_cons_keep (c : Byte) (s : GoString) (mode : encoding)
    (h : shouldEscape c mode = false) : escape (c :: s) mode = c :: escape s mode := by
  simp [escape, h]

theorem escape_cons_hex (c : Byte) (s : GoString) (mode : encoding)
    (h : shouldEscape c mode = true) (hm : mode ≠ encoding.encodeQueryComponent) :
    escape (c :: s) mode
      = 37 :: upperhex (c.val / 16) :: upperhex (c.val % 16) :: escape s mode := by
  simp [escape, h, hm]

/-- Decoding an escaped text gives the text back. -/
theorem unescapeBytes_escape (mode mode1 : encoding)
    (hm : mode ≠ encoding.encodeQueryComponent) (hm1 : mode1 ≠ encoding.encodeQueryComponent) :
    ∀ s : GoString, unescapeBytes mode1 (escape s mode) = s := by
  intro s
  induction s with
  | nil => rfl
  | cons c rest ih =>
    by_cases h : shouldEscape c mode = true
    · rw [escape_cons_hex c rest mode h hm]
      simp only [unescapeBytes, if_true]
      rw [ih, (upperhex_unhex c).2.2]
    · have h0 : shouldEscape c mode = false := by simpa using h
      rw [escape_cons_keep c rest mode h0]
      have hc : c ≠ 37 := by
        intro hc
        rw [hc, shouldEscape_percent] at h0
        exact absurd h0 (by simp)
      unfold unescapeBytes
      rw [if_neg hc, ih]
      by_cases h43 : c = 43
      · simp [h43, hm1]
      · simp [h43]

/-- The bytes of an escaped text: `%`, hexadecimal digits, and the bytes that are
not escaped. -/
theorem escape_forall (mode : encoding) (hm : mode ≠ encoding.encodeQueryComponent)
    (Q : Byte → Prop) (h37 : Q 37) (hhex : ∀ c : Byte, Q (upperhex (c.val / 16)) ∧
      Q (upperhex (c.val % 16)))
    (hkeep : ∀ c, shouldEscape c mode = false → Q c) :
    ∀ s : GoString, ∀ b ∈ escape s mode, Q b := by
  intro s
  induction s with
  | nil => intro b hb; simp [escape] at hb
  | cons c rest ih =>
    intro b hb
    by_cases h : shouldEscape c mode = true
    · rw [escape_cons_hex c rest mode h hm] at hb
      simp only [List.mem_cons] at hb
      rcases hb with rfl | rfl | rfl | hb
      · exact h37
      · exact (hhex c).1
      · exact (hhex c).2
      · exact ih b hb
    · have h0 : shouldEscape c mode = false := by simpa using h
      rw [escape_cons_keep c rest mode h0] at hb
      rcases List.mem_cons.mp hb with rfl | hb
      · exact hkeep _ h0
      · exact ih b hb

/-- An escaped text passes the check of `unescape` in a mode other than the host
modes. -/
theorem unescapeValid_escape (mode mode1 : encoding)
    (hm : mode ≠ encoding.encodeQueryComponent)
    (h1 : mode1 ≠ encoding.encodeHost) (h2 : mode1 ≠ encoding.encodeZone) :
    ∀ s : GoString, unescapeValid mode1 (escape s mode) = true := by
  intro s
  induction s with
  | nil => rfl
  | cons c rest ih =>
    by_cases h : shouldEscape c mode = true
    · rw [escape_cons_hex c rest mode h hm]
      unfold unescapeValid
      simp only [if_true, (upperhex_unhex c).1, (upperhex_unhex c).2.1, h1, h2, false_and,
        if_false, Bool.not_true, Bool.or_self, Bool.false_eq_true]
      exact ih
    · have h0 : shouldEscape c mode = false := by simpa using h
      rw [escape_cons_keep c rest mode h0]
      have hc : c ≠ 37 := by
        intro hc
        rw [hc, shouldEscape_percent] at h0
        exact absurd h0 (by simp)
      unfold unescapeValid
      simp only [hc, if_false, h1, h2, false_or, false_and]
      exact ih

theorem unescape_escape (mode : encoding) (hm : mode ≠ encoding.encodeQueryComponent)
    (h1 : mode ≠ encoding.encodeHost) (h2 : mode ≠ encoding.encodeZone) (s : GoString) :
    unescape (escape s mode) mode = .ok s := by
  unfold unescape
  rw [unescapeValid_escape mode mode hm h1 h2 s, if_pos rfl, unescapeBytes_escape mode mode hm hm]

theorem unescape_ok (s t : GoString) (mode : encoding) (h : unescape s mode = .ok t) :
    unescapeValid mode s = true ∧ t = unescapeBytes mode s := by
  unfold unescape at h
  by_cases hv : unescapeValid mode s = true
  · rw [if_pos hv] at h
    exact ⟨hv, (Except.ok.inj h).symm⟩
  · rw [if_neg hv] at h
    exact absurd h (by simp)

theorem unescapeBytes_mode (mode mode1 : encoding)
    (hm : mode ≠ encoding.encodeQueryComponent) (hm1 : mode1 ≠ encoding.encodeQueryComponent) :
    ∀ (n : Nat) (s : GoString), s.length ≤ n → unescapeBytes mode s = unescapeBytes mode1 s := by
  intro n
  induction n with
  | zero =>
    intro s hs
    have : s = [] := List.length_eq_zero.mp (Nat.le_zero.mp hs)
    subst this
    rfl
  | succ n ih =>
    intro s hs
    match s with
    | [] => rfl
    | c :: rest =>
      by_cases hc : c = 37
      · subst hc
        match rest with
        | [] => rfl
        | [_] => rfl
        | a :: b :: rest1 =>
          rw [unescapeBytes_hex, unescapeBytes_hex,
            ih rest1 (by simp only [List.length_cons] at hs ⊢; omega)]
      · rw [unescapeBytes_cons mode c rest hc, unescapeBytes_cons mode1 c rest hc,
          ih rest (by simp only [List.length_cons] at hs ⊢; omega), if_neg hm, if_neg hm1]

/-- Decoding goes through a concatenation whose first part passes the check. -/
theorem unescapeBytes_append (mode mode1 : encoding) (b : GoString) :
    ∀ (n : Nat) (a : GoString), a.length ≤ n → unescapeValid mode a = true →
      unescapeBytes mode1 (a ++ b) = unescapeBytes mode1 a ++ unescapeBytes mode1 b := by
  intro n
  induction n with
  | zero =>
    intro a ha _
    have : a = [] := List.length_eq_zero.mp (Nat.le_zero.mp ha)
    subst this
    rfl
  | succ n ih =>
    intro a ha hv
    match a with
    | [] => rfl
    | c :: rest =>
      by_cases hc : c = 37
      · subst hc
        obtain ⟨x, y, rest1, rfl, hv1⟩ := unescapeValid_hex mode rest hv
        simp only [List.cons_append]
        rw [unescapeBytes_hex, unescapeBytes_hex,
          ih rest1 (by simp only [List.length_cons] at ha ⊢; omega) hv1]
        rfl
      · have hv1 := unescapeValid_cons mode c rest hc hv
        simp only [List.cons_append]
        rw [unescapeBytes_cons mode1 c _ hc, unescapeBytes_cons mode1 c _ hc,
          ih rest (by simp only [List.length_cons] at ha ⊢; omega) hv1]
        rfl

theorem Index_le : ∀ (s sub : GoString) (k : Nat), Index s sub = some k → k ≤ s.length := by
  intro s
  induction s with
  | nil =>
    intro sub k h
    unfold Index at h
    split at h
    · simp at h; omega
    · simp at h
  | cons b rest ih =>
    intro sub k h
    unfold Index at h
    split at h
    · simp at h; omega
    · cases hr : Index rest sub with
      | none => rw [hr] at h; simp at h
      | some j =>
        rw [hr] at h
        simp at h
        have := ih sub j hr
        simp only [List.length_cons]
        omega

/-- When `parseHost` succeeds, its result is the decoded text. -/
theorem parseHost_decode (x h : GoString) (hp : parseHost x = .ok h) :
    h = unescapeBytes encoding.encodeHost x := by
  have hbase : ∀ y h1, unescape y encoding.encodeHost = .ok h1 →
      h1 = unescapeBytes encoding.encodeHost y := fun y h1 hy => (unescape_ok y h1 _ hy).2
  unfold parseHost at hp
  split at hp
  · split at hp
    · exact absurd hp (by simp)
    · rename_i i hi
      split at hp
      · exact absurd hp (by simp)
      · split at hp
        · rename_i zone hz
          have hzi : zone ≤ i := by
            have := Index_le _ _ _ hz
            rw [List.length_take] at this
            omega
          split at hp
          · exact absurd hp (by simp)
          · rename_i host1 h1
            split at hp
            · exact absurd hp (by simp)
            · rename_i host2 h2
              split at hp
              · exact absurd hp (by simp)
              · rename_i host3 h3
                have hh := Except.ok.inj hp
                obtain ⟨v1, e1⟩ := unescape_ok _ _ _ h1
                obtain ⟨v2, e2⟩ := unescape_ok _ _ _ h2
                obtain ⟨-, e3⟩ := unescape_ok _ _ _ h3
                have hx : x = x.take zone ++ ((x.take i).drop zone ++ x.drop i) := by
                  have t1 : x.take zone = (x.take i).take zone := by
                    rw [List.take_take, Nat.min_eq_left hzi]
                  rw [t1, ← List.append_assoc, List.take_append_drop, List.take_append_drop]
                have hm := unescapeBytes_mode encoding.encodeZone encoding.encodeHost
                  (by decide) (by decide) _ ((x.take i).drop zone) (Nat.le_refl _)
                rw [← hh, e1, e2, e3, hm]
                conv_rhs => rw [hx]
                rw [unescapeBytes_append encoding.encodeHost encoding.encodeHost _ _ _
                    (Nat.le_refl _) v1,
                  unescapeBytes_append encoding.encodeZone encoding.encodeHost _ _ _
                    (Nat.le_refl _) v2, List.append_assoc]
        · exact hbase _ _ hp
  · split at hp
    · split at hp
      · exact absurd hp (by simp)
      · exact hbase _ _ hp
    · exact hbase _ _ hp

set_option maxRecDepth 100000 in
theorem lower_byte : ∀ c : Byte, ((97 ≤ c.val ∧ c.val ≤ 122) ∨ (65 ≤ c.val ∧ c.val ≤ 90)) →
    97 ≤ (if 65 ≤ c.val ∧ c.val ≤ 90 then c + 32 else c).val ∧
    (if 65 ≤ c.val ∧ c.val ≤ 90 then c + 32 else c).val ≤ 122 := by
  decide

theorem ToLower_isScheme (sch : GoString) (h : isScheme sch) : ToLower sch = sch := by
  unfold ToLower
  conv_rhs => rw [← List.map_id sch]
  apply List.map_congr_left
  intro c hc
  have := h.2 c hc
  have hn : ¬ (65 ≤ c.val ∧ c.val ≤ 90) := by
    rcases this with h1 | h1 | h1 | h1 | h1
    · omega
    · omega
    · rw [h1]; decide
    · rw [h1]; decide
    · rw [h1]; decide
  rw [if_neg hn]
  rfl

theorem getSchemeLoop_scheme (X : GoString) : ∀ (s pre : GoString),
    (∀ c ∈ s, (97 ≤ c.val ∧ c.val ≤ 122) ∨ (48 ≤ c.val ∧ c.val ≤ 57) ∨ c = 43 ∨ c = 45 ∨ c = 46) →
    (pre ≠ [] ∨ ∃ c rest, s = c :: rest ∧ 97 ≤ c.val ∧ c.val ≤ 122) →
    getSchemeLoop (pre ++ s ++ 58 :: X) pre.length (s ++ 58 :: X) = .ok (pre ++ s, X) := by
  intro s
  induction s with
  | nil =>
    intro pre _ hpre
    have hne : pre ≠ [] := by
      rcases hpre with h | ⟨c, rest, h, -⟩
      · exact h
      · exact absurd h (by simp)
    have hlen : pre.length ≠ 0 := fun h => hne (List.length_eq_zero.mp h)
    simp only [List.append_nil, List.nil_append]
    unfold getSchemeLoop
    have h1 : ¬ ((97 ≤ (58 : Byte).val ∧ (58 : Byte).val ≤ 122) ∨
      (65 ≤ (58 : Byte).val ∧ (58 : Byte).val ≤ 90)) := by decide
    have h2 : ¬ ((48 ≤ (58 : Byte).val ∧ (58 : Byte).val ≤ 57) ∨ (58 : Byte) = 43 ∨
      (58 : Byte) = 45 ∨ (58 : Byte) = 46) := by decide
    rw [if_neg h1, if_neg h2, if_pos rfl, if_neg hlen]
    simp
  | cons c rest ih =>
    intro pre hs hpre
    have hc := hs c (List.mem_cons_self c rest)
    have hrest : ∀ d ∈ rest, (97 ≤ d.val ∧ d.val ≤ 122) ∨ (48 ≤ d.val ∧ d.val ≤ 57) ∨
        d = 43 ∨ d = 45 ∨ d = 46 := fun d hd => hs d (List.mem_cons_of_mem c hd)
    have hnext := ih (pre ++ [c]) hrest (Or.inl (by simp))
    simp only [List.append_assoc, List.singleton_append, List.length_append,
      List.length_singleton] at hnext
    have e : pre ++ c :: rest ++ 58 :: X = pre ++ (c :: rest ++ 58 :: X) := by simp
    rw [e]
    simp only [List.cons_append] at hnext ⊢
    unfold getSchemeLoop
    by_cases hl : (97 ≤ c.val ∧ c.val ≤ 122) ∨ (65 ≤ c.val ∧ c.val ≤ 90)
    · rw [if_pos hl]
      exact hnext
    · rw [if_neg hl]
      have hd : (48 ≤ c.val ∧ c.val ≤ 57) ∨ c = 43 ∨ c = 45 ∨ c = 46 := by
        rcases hc with h | h
        · exact absurd (Or.inl h) hl
        · exact h
      have hlen : pre.length ≠ 0 := by
        rcases hpre with h | ⟨c1, rest1, h, h1, h2⟩
        · exact fun hh => h (List.length_eq_zero.mp hh)
        · have := (List.cons.inj h).1
          subst this
          exact absurd (Or.inl ⟨h1, h2⟩) hl
      rw [if_pos hd, if_neg hlen]
      exact hnext

theorem getScheme_scheme (sch X : GoString) (h : isScheme sch) :
    getScheme (sch ++ 58 :: X) = .ok (sch, X) := by
  have := getSchemeLoop_scheme X sch [] h.2 (Or.inr h.1)
  simpa [getScheme] using this

theorem getScheme_slash (X : GoString) : getScheme (47 :: X) = .ok ([], 47 :: X) := by
  unfold getScheme getSchemeLoop
  have h1 : ¬ ((97 ≤ (47 : Byte).val ∧ (47 : Byte).val ≤ 122) ∨
    (65 ≤ (47 : Byte).val ∧ (47 : Byte).val ≤ 90)) := by decide
  have h2 : ¬ ((48 ≤ (47 : Byte).val ∧ (47 : Byte).val ≤ 57) ∨ (47 : Byte) = 43 ∨
    (47 : Byte) = 45 ∨ (47 : Byte) = 46) := by decide
  have h3 : ¬ (47 : Byte) = 58 := by decide
  rw [if_neg h1, if_neg h2, if_neg h3]

set_option maxRecDepth 100000 in
theorem lower_scheme_byte : ∀ c : Byte,
    ((48 ≤ c.val ∧ c.val ≤ 57) ∨ c = 43 ∨ c = 45 ∨ c = 46) →
    ¬ (65 ≤ c.val ∧ c.val ≤ 90) := by
  decide

theorem isScheme_snoc (pre : GoString) (c : Byte)
    (hpre : pre = [] ∨ isScheme (ToLower pre))
    (hc : ((97 ≤ c.val ∧ c.val ≤ 122) ∨ (65 ≤ c.val ∧ c.val ≤ 90)) ∨
      (pre ≠ [] ∧ ((48 ≤ c.val ∧ c.val ≤ 57) ∨ c = 43 ∨ c = 45 ∨ c = 46))) :
    isScheme (ToLower (pre ++ [c])) := by
  have hm : ToLower (pre ++ [c]) = ToLower pre ++
      [if 65 ≤ c.val ∧ c.val ≤ 90 then c + 32 else c] := by
    simp [ToLower]
  rw [hm]
  have hbyte : (97 ≤ (if 65 ≤ c.val ∧ c.val ≤ 90 then c + 32 else c).val ∧
      (if 65 ≤ c.val ∧ c.val ≤ 90 then c + 32 else c).val ≤ 122) ∨
      (48 ≤ (if 65 ≤ c.val ∧ c.val ≤ 90 then c + 32 else c).val ∧
        (if 65 ≤ c.val ∧ c.val ≤ 90 then c + 32 else c).val ≤ 57) ∨
      (if 65 ≤ c.val ∧ c.val ≤ 90 then c + 32 else c) = 43 ∨
      (if 65 ≤ c.val ∧ c.val ≤ 90 then c + 32 else c) = 45 ∨
      (if 65 ≤ c.val ∧ c.val ≤ 90 then c + 32 else c) = 46 := by
    rcases hc with h | ⟨-, h⟩
    · exact Or.inl (lower_byte c h)
    · rw [if_neg (lower_scheme_byte c h)]
      exact Or.inr h
  rcases hpre with rfl | hs
  · rcases hc with h | ⟨h, -⟩
    · refine ⟨⟨_, [], rfl, lower_byte c h⟩, ?_⟩
      intro d hd
      simp only [ToLower, List.map_nil, List.nil_append, List.mem_singleton] at hd
      rw [hd]
      exact hbyte
    · exact absurd rfl h
  · obtain ⟨⟨c0, rest0, e0, l0⟩, hall⟩ := hs
    refine ⟨⟨c0, rest0 ++ [_], by rw [e0]; rfl, l0⟩, ?_⟩
    intro d hd
    rcases List.mem_append.mp hd with h | h
    · exact hall d h
    · rw [List.mem_singleton.mp h]
      exact hbyte

theorem getSchemeLoop_isScheme (raw sch r : GoString) : ∀ (rest pre : GoString),
    raw = pre ++ rest → (pre = [] ∨ isScheme (ToLower pre)) →
    getSchemeLoop raw pre.length rest = .ok (sch, r) →
    sch = [] ∨ isScheme (ToLower sch) := by
  intro rest
  induction rest with
  | nil =>
    intro pre _ _ h
    unfold getSchemeLoop at h
    have := Except.ok.inj h
    left
    exact (Prod.mk.inj this).1.symm
  | cons c rest ih =>
    intro pre hraw hpre h
    have hraw1 : raw = (pre ++ [c]) ++ rest := by simp [hraw]
    have hlen : (pre ++ [c]).length = pre.length + 1 := by simp
    unfold getSchemeLoop at h
    split at h
    · rename_i hl
      rw [← hlen] at h
      exact ih (pre ++ [c]) hraw1 (Or.inr (isScheme_snoc pre c hpre (Or.inl hl))) h
    · split at h
      · rename_i hd
        split at h
        · left
          exact (Prod.mk.inj (Except.ok.inj h)).1.symm
        · rename_i hi
          have hne : pre ≠ [] := fun hh => hi (by rw [hh]; rfl)
          rw [← hlen] at h
          exact ih (pre ++ [c]) hraw1 (Or.inr (isScheme_snoc pre c hpre (Or.inr ⟨hne, hd⟩))) h
      · split at h
        · split at h
          · exact absurd h (by simp)
          · rename_i hi
            have hne : pre ≠ [] := fun hh => hi (by rw [hh]; rfl)
            have e := (Prod.mk.inj (Except.ok.inj h)).1
            rw [hraw, List.take_left] at e
            rcases hpre with hp | hp
            · exact absurd hp hne
            · right
              rw [← e]
              exact hp
        · left
          exact (Prod.mk.inj (Except.ok.inj h)).1.symm

theorem getScheme_isScheme (raw sch r : GoString) (h : getScheme raw = .ok (sch, r)) :
    sch = [] ∨ isScheme (ToLower sch) :=
  getSchemeLoop_isScheme raw sch r raw [] rfl (Or.inl rfl) h

theorem isScheme_bytes (sch : GoString) (h : isScheme sch) :
    ∀ b ∈ sch, b ≠ 35 ∧ b ≠ 63 ∧ b ≠ 47 := by
  intro b hb
  rcases h.2 b hb with h1 | h1 | h1 | h1 | h1
  · refine ⟨?_, ?_, ?_⟩ <;> (intro e; rw [e] at h1; revert h1; decide)
  · refine ⟨?_, ?_, ?_⟩ <;> (intro e; rw [e] at h1; revert h1; decide)
  · rw [h1]; decide
  · rw [h1]; decide
  · rw [h1]; decide

theorem splitAuthority_text (a pth : GoString) (ha : (47 : Byte) ∉ a)
    (hpth : pth = [] ∨ ∃ t, pth = 47 :: t) : splitAuthority (a ++ pth) = (a, pth) := by
  rcases hpth with rfl | ⟨t, rfl⟩
  · rw [List.append_nil]
    simp [splitAuthority, index_not_mem 47 a ha]
  · simp [splitAuthority, index_append_cons 47 t a ha]

/-- What `parseAuthority` gives on an escaped user name, `@` and a host text. -/
theorem parseAuthority_text (key ek eh : GoString)
    (hek : ∀ b ∈ ek, b ≠ 58)
    (hekv : validUserinfo ek = true)
    (heku : unescape ek encoding.encodeUserPassword = .ok key)
    (heh : ∀ b ∈ eh, b ≠ 64) :
    parseAuthority (ek ++ 64 :: eh) =
      match parseHost eh with
      | .error e => .error e
      | .ok host => .ok (some (User key), host) := by
  have h64 : (64 : Byte) ∉ eh := fun h => (heh 64 h) rfl
  have h58 : ¬ (58 : Byte) ∈ ek := fun h => (hek 58 h) rfl
  unfold parseAuthority
  rw [LastIndex_append_cons 64 eh h64 ek]
  simp only [List.take_left, List.drop_left', List.drop_succ_cons, List.drop_zero]
  have hd : List.drop (ek.length + 1) (ek ++ 64 :: eh) = eh := by
    rw [← List.drop_drop, List.drop_left]
    rfl
  rw [hd]
  cases parseHost eh with
  | error e => rfl
  | ok host =>
    simp only [hekv, Bool.not_true, Bool.false_eq_true, if_false, h58, not_false_eq_true,
      if_true, heku]

/-- What `parseAfterScheme` gives on `//`, an escaped user name, `@`, a host text,
a path text that is empty or starts with a slash, and a query part. -/
theorem parseAfterScheme_text (sch key ek eh pth q1 : GoString)
    (hek : ∀ b ∈ ek, b ≠ 47 ∧ b ≠ 58 ∧ b ≠ 63)
    (hekv : validUserinfo ek = true)
    (heku : unescape ek encoding.encodeUserPassword = .ok key)
    (heh : ∀ b ∈ eh, b ≠ 47 ∧ b ≠ 63 ∧ b ≠ 64)
    (hpth : pth = [] ∨ ∃ t, pth = 47 :: t) (hpq : (63 : Byte) ∉ pth)
    (hq1 : q1 = [] ∨ ∃ rq, q1 = 63 :: rq) :
    parseAfterScheme sch (47 :: 47 :: (ek ++ 64 :: eh ++ pth) ++ q1) =
      match parseHost eh with
      | .error e => .error e
      | .ok host =>
        match setPath pth with
        | .error e => .error e
        | .ok (path, rawPath) =>
          .ok ⟨sch, [], some (User key), host, path, rawPath, (splitQuery q1).2.1,
            (splitQuery q1).2.2, [], []⟩ := by
  have h63 : (63 : Byte) ∉ (47 :: 47 :: (ek ++ 64 :: eh ++ pth) : GoString) := by
    intro h
    simp only [List.mem_cons, List.mem_append] at h
    rcases h with h | h | (h | h | h) | h
    · exact absurd h (by decide)
    · exact absurd h (by decide)
    · exact (hek 63 h).2.2 rfl
    · exact absurd h (by decide)
    · exact (heh 63 h).2.1 rfl
    · exact hpq h
  have h47 : (47 : Byte) ∉ ek ++ 64 :: eh := by
    intro h
    simp only [List.mem_cons, List.mem_append] at h
    rcases h with h | h | h
    · exact (hek 47 h).1 rfl
    · exact absurd h (by decide)
    · exact (heh 47 h).1 rfl
  obtain ⟨hs1, hs2⟩ := splitQuery_append _ q1 h63 hq1
  have hhead : (47 :: 47 :: (ek ++ 64 :: eh ++ pth) : GoString).head? = some 47 := rfl
  have ht2 : (47 :: 47 :: (ek ++ 64 :: eh ++ pth) : GoString).take 2 = [47, 47] := rfl
  have ht3 : (47 :: 47 :: (ek ++ 64 :: eh ++ pth) : GoString).take 3 ≠ [47, 47, 47] := by
    cases ek with
    | nil => simp
    | cons c t =>
      have := (hek c (List.mem_cons_self c t)).1
      simp [this]
  have hd2 : (47 :: 47 :: (ek ++ 64 :: eh ++ pth) : GoString).drop 2 = (ek ++ 64 :: eh) ++ pth := by
    simp
  have hsa := splitAuthority_text (ek ++ 64 :: eh) pth h47 hpth
  have hpa := parseAuthority_text key ek eh (fun b hb => (hek b hb).2.1) hekv heku
    (fun b hb => (heh b hb).2.2)
  unfold parseAfterScheme
  simp only [hs1, hs2, hhead, ht2, ht3, hd2, hsa, hpa, ne_eq, not_true_eq_false, false_and,
    if_false, not_false_eq_true, or_true, and_self, if_true]
  cases parseHost eh with
  | error e => rfl
  | ok host => rfl

theorem schemeText (sch X : GoString) (hsch : sch = [] ∨ isScheme sch) :
    getScheme ((if sch ≠ [] then sch ++ [58] else []) ++ 47 :: X) = .ok (sch, 47 :: X) ∧
    ToLower sch = sch ∧
    (35 : Byte) ∉ (if sch ≠ [] then sch ++ [58] else [] : GoString) := by
  rcases hsch with rfl | hs
  · refine ⟨?_, rfl, by simp⟩
    simp only [ne_eq, not_true_eq_false, if_false, List.nil_append]
    exact getScheme_slash X
  · have hne : sch ≠ [] := by
      obtain ⟨⟨c, rest, e, -⟩, -⟩ := hs
      rw [e]
      simp
    refine ⟨?_, ToLower_isScheme sch hs, ?_⟩
    · rw [if_pos hne, List.append_assoc]
      exact getScheme_scheme sch (47 :: X) hs
    · rw [if_pos hne]
      intro h
      rcases List.mem_append.mp h with h | h
      · exact (isScheme_bytes sch hs 35 h).1 rfl
      · simp at h

theorem Cut_query_part (qf : GoString)
    (hqf : qf = [] ∨ (∃ t, qf = 63 :: t) ∨ ∃ t, qf = 35 :: t) :
    (Cut qf 35).1 = [] ∨ ∃ rq, (Cut qf 35).1 = 63 :: rq := by
  rcases hqf with rfl | ⟨t, rfl⟩ | ⟨t, rfl⟩
  · left; rfl
  · right
    have := (Cut_append 35 [63] t (by decide)).1
    exact ⟨_, this⟩
  · left
    have := Cut_append_cons 35 [] t (by simp)
    simp only [List.nil_append] at this
    rw [this]

/-- What `Parse` gives on the text of a scheme, `//`, an escaped user name, `@`, a
host text, a path text that is empty or starts with a slash, and a part that is
empty or starts with `?` or `#`. -/
theorem Parse_text (sch key ek eh pth qf : GoString) (u : URL)
    (hsch : sch = [] ∨ isScheme sch)
    (hek : ∀ b ∈ ek, b ≠ 35 ∧ b ≠ 47 ∧ b ≠ 58 ∧ b ≠ 63)
    (hekv : validUserinfo ek = true)
    (heku : unescape ek encoding.encodeUserPassword = .ok key)
    (heh : ∀ b ∈ eh, b ≠ 35 ∧ b ≠ 47 ∧ b ≠ 63 ∧ b ≠ 64)
    (hpth : pth = [] ∨ ∃ t, pth = 47 :: t) (hpq : ∀ b ∈ pth, b ≠ 35 ∧ b ≠ 63)
    (hqf : qf = [] ∨ (∃ t, qf = 63 :: t) ∨ ∃ t, qf = 35 :: t)
    (h : Parse ((if sch ≠ [] then sch ++ [58] else []) ++
      (47 :: 47 :: (ek ++ 64 :: eh ++ pth) ++ qf)) = .ok u) :
    ∃ host path rawPath frag rawFrag,
      parseHost eh = .ok host ∧ setPath pth = .ok (path, rawPath) ∧
      ((Cut qf 35).2.1 = [] ∧ frag = [] ∧ rawFrag = [] ∨
        (Cut qf 35).2.1 ≠ [] ∧ setFragment (Cut qf 35).2.1 = .ok (frag, rawFrag)) ∧
      u = ⟨sch, [], some (User key), host, path, rawPath,
        (splitQuery (Cut qf 35).1).2.1, (splitQuery (Cut qf 35).1).2.2, frag, rawFrag⟩ := by
  obtain ⟨hget, hlow, hS35⟩ := schemeText sch ((47 :: (ek ++ 64 :: eh ++ pth)) ++ (Cut qf 35).1) hsch
  have hP35 : (35 : Byte) ∉ (if sch ≠ [] then sch ++ [58] else [] : GoString) ++
      (47 :: 47 :: (ek ++ 64 :: eh ++ pth)) := by
    intro hm
    rcases List.mem_append.mp hm with hm | hm
    · exact hS35 hm
    · simp only [List.mem_cons, List.mem_append] at hm
      rcases hm with hm | hm | (hm | hm | hm) | hm
      · exact absurd hm (by decide)
      · exact absurd hm (by decide)
      · exact (hek 35 hm).1 rfl
      · exact absurd hm (by decide)
      · exact (heh 35 hm).1 rfl
      · exact (hpq 35 hm).1 rfl
  have hcut := Cut_append 35 _ qf hP35
  rw [← List.append_assoc] at h
  unfold Parse at h
  rw [hcut.1, hcut.2] at h
  have hq1 := Cut_query_part qf hqf
  have hne : (if sch ≠ [] then sch ++ [58] else [] : GoString) ++
      (47 :: 47 :: (ek ++ 64 :: eh ++ pth)) ++ (Cut qf 35).1 ≠ [42] := by
    intro e
    have := congrArg List.length e
    simp only [List.length_append, List.length_cons, List.length_nil] at this
    omega
  have hparse : parse ((if sch ≠ [] then sch ++ [58] else [] : GoString) ++
      (47 :: 47 :: (ek ++ 64 :: eh ++ pth)) ++ (Cut qf 35).1) =
      if stringContainsCTLByte ((if sch ≠ [] then sch ++ [58] else [] : GoString) ++
        (47 :: 47 :: (ek ++ 64 :: eh ++ pth)) ++ (Cut qf 35).1) = true then
        .error "net/url: invalid control character in URL"
      else
        match parseHost eh with
        | .error e => .error e
        | .ok host =>
          match setPath pth with
          | .error e => .error e
          | .ok (path, rawPath) =>
            .ok ⟨sch, [], some (User key), host, path, rawPath,
              (splitQuery (Cut qf 35).1).2.1, (splitQuery (Cut qf 35).1).2.2, [], []⟩ := by
    have e1 : (if sch ≠ [] then sch ++ [58] else [] : GoString) ++
        (47 :: 47 :: (ek ++ 64 :: eh ++ pth)) ++ (Cut qf 35).1 =
        (if sch ≠ [] then sch ++ [58] else [] : GoString) ++
        47 :: ((47 :: (ek ++ 64 :: eh ++ pth)) ++ (Cut qf 35).1) := by
      simp
    have := parseAfterScheme_text sch key ek eh pth (Cut qf 35).1
      (fun b hb => ⟨(hek b hb).2.1, (hek b hb).2.2.1, (hek b hb).2.2.2⟩) hekv heku
      (fun b hb => ⟨(heh b hb).2.1, (heh b hb).2.2.1, (heh b hb).2.2.2⟩) hpth
      (fun hm => (hpq 63 hm).2 rfl) hq1
    have this1 : parseAfterScheme sch (47 :: ((47 :: (ek ++ 64 :: eh ++ pth)) ++ (Cut qf 35).1))
        = _ := this
    unfold parse
    rw [if_neg hne]
    rw [e1, hget]
    dsimp only
    rw [hlow, this1]
  rw [hparse] at h
  by_cases hctl : stringContainsCTLByte ((if sch ≠ [] then sch ++ [58] else [] : GoString) ++
        (47 :: 47 :: (ek ++ 64 :: eh ++ pth)) ++ (Cut qf 35).1) = true
  · rw [if_pos hctl] at h
    exact absurd h (by simp)
  · rw [if_neg hctl] at h
    cases hh : parseHost eh with
    | error e => rw [hh] at h; exact absurd h (by simp)
    | ok host =>
      rw [hh] at h
      cases hp : setPath pth with
      | error e => rw [hp] at h; exact absurd h (by simp)
      | ok pr =>
        obtain ⟨path, rawPath⟩ := pr
        rw [hp] at h
        simp only at h
        by_cases hf : (Cut qf 35).2.1 = []
        · rw [if_pos hf] at h
          exact ⟨host, path, rawPath, [], [], rfl, rfl, Or.inl ⟨hf, rfl, rfl⟩,
            (Except.ok.inj h).symm⟩
        · rw [if_neg hf] at h
          cases hfr : setFragment (Cut qf 35).2.1 with
          | error e => rw [hfr] at h; exact absurd h (by simp)
          | ok fr =>
            obtain ⟨frag, rawFrag⟩ := fr
            rw [hfr] at h
            exact ⟨host, path, rawPath, frag, rawFrag, rfl, rfl, Or.inr ⟨hf, rfl⟩,
              (Except.ok.inj h).symm⟩

theorem index_some_drop (c : Byte) : ∀ (s : GoString) (i : Nat), index s c = some i →
    ∃ t, s.drop i = c :: t := by
  intro s
  induction s with
  | nil => intro i h; simp [index] at h
  | cons b rest ih =>
    intro i h
    unfold index at h
    by_cases hb : b = c
    · rw [if_pos hb] at h
      have : i = 0 := (Option.some.inj h).symm
      subst this
      exact ⟨rest, by rw [hb]; rfl⟩
    · rw [if_neg hb] at h
      cases hr : index rest c with
      | none => rw [hr] at h; simp at h
      | some j =>
        rw [hr] at h
        have : i = j + 1 := (Option.some.inj h).symm
        subst this
        exact ih j hr

theorem splitAuthority_snd (s : GoString) :
    (splitAuthority s).2 = [] ∨ ∃ t, (splitAuthority s).2 = 47 :: t := by
  unfold splitAuthority
  cases h : index s 47 with
  | none => left; rfl
  | some i => right; exact index_some_drop 47 s i h

theorem setPath_raw (p path rawPath : GoString) (h : setPath p = .ok (path, rawPath)) :
    rawPath = [] ∨ rawPath = p := by
  unfold setPath at h
  cases hu : unescape p encoding.encodePath with
  | error e => rw [hu] at h; exact absurd h (by simp)
  | ok q =>
    rw [hu] at h
    have := (Prod.mk.inj (Except.ok.inj h)).2
    rw [← this]
    split
    · left; rfl
    · right; rfl

/-- The fields of a URL that `parseAfterScheme` returns: the scheme is the one
given, and a URL with a host is not opaque and has a raw path that is empty or
starts with a slash. -/
theorem parseAfterScheme_fields (scheme rest0 : GoString) (u : URL)
    (h : parseAfterScheme scheme rest0 = .ok u) :
    u.Scheme = scheme ∧
    (u.Host ≠ [] → u.Opaque = [] ∧ (u.RawPath = [] ∨ ∃ t, u.RawPath = 47 :: t)) := by
  unfold parseAfterScheme at h
  dsimp only at h
  split at h
  · have := Except.ok.inj h
    subst this
    exact ⟨rfl, fun hh => absurd rfl hh⟩
  · split at h
    · exact absurd h (by simp)
    · split at h
      · split at h
        · exact absurd h (by simp)
        · rename_i user host hpa
          split at h
          · exact absurd h (by simp)
          · rename_i path rawPath hsp
            have := Except.ok.inj h
            subst this
            refine ⟨rfl, fun _ => ⟨rfl, ?_⟩⟩
            rcases setPath_raw _ _ _ hsp with hr | hr
            · exact Or.inl hr
            · simp only
              rw [hr]
              exact splitAuthority_snd _
      · split at h
        · exact absurd h (by simp)
        · have := Except.ok.inj h
          subst this
          exact ⟨rfl, fun hh => absurd rfl hh⟩

/-- The fields of a URL that `Parse` returns: the scheme is empty or in the stored
form, and a URL with a host is not opaque and has a raw path that is empty or
starts with a slash. -/
theorem Parse_fields (rawURL : GoString) (u : URL) (h : Parse rawURL = .ok u) :
    (u.Scheme = [] ∨ isScheme u.Scheme) ∧
    (u.Host ≠ [] → u.Opaque = [] ∧ (u.RawPath = [] ∨ ∃ t, u.RawPath = 47 :: t)) := by
  have hparse : ∀ url, parse (Cut rawURL 35).1 = .ok url →
      (url.Scheme = [] ∨ isScheme url.Scheme) ∧
      (url.Host ≠ [] → url.Opaque = [] ∧ (url.RawPath = [] ∨ ∃ t, url.RawPath = 47 :: t)) := by
    intro url hp
    unfold parse at hp
    split at hp
    · exact absurd hp (by simp)
    · split at hp
      · have := Except.ok.inj hp
        subst this
        exact ⟨Or.inl rfl, fun hh => absurd rfl hh⟩
      · split at hp
        · exact absurd hp (by simp)
        · rename_i scheme rest hg
          obtain ⟨h1, h2⟩ := parseAfterScheme_fields _ _ _ hp
          refine ⟨?_, h2⟩
          rw [h1]
          rcases getScheme_isScheme _ _ _ hg with hs | hs
          · left
            rw [hs]
            rfl
          · exact Or.inr hs
  unfold Parse at h
  split at h
  · exact absurd h (by simp)
  · rename_i url hp
    split at h
    · have := Except.ok.inj h
      subst this
      exact hparse _ hp
    · split at h
      · exact absurd h (by simp)
      · have := Except.ok.inj h
        subst this
        exact hparse url hp

set_option maxRecDepth 100000 in
theorem user_keep : ∀ c : Byte, shouldEscape c encoding.encodeUserPassword = false →
    c ≠ 35 ∧ c ≠ 47 ∧ c ≠ 58 ∧ c ≠ 63 ∧ validUserinfo [c] = true := by
  decide

set_option maxRecDepth 100000 in
theorem user_hex : ∀ c : Byte,
    (upperhex (c.val / 16) ≠ 35 ∧ upperhex (c.val / 16) ≠ 47 ∧ upperhex (c.val / 16) ≠ 58 ∧
      upperhex (c.val / 16) ≠ 63 ∧ validUserinfo [upperhex (c.val / 16)] = true) ∧
    (upperhex (c.val % 16) ≠ 35 ∧ upperhex (c.val % 16) ≠ 47 ∧ upperhex (c.val % 16) ≠ 58 ∧
      upperhex (c.val % 16) ≠ 63 ∧ validUserinfo [upperhex (c.val % 16)] = true) := by
  decide

set_option maxRecDepth 100000 in
theorem host_keep : ∀ c : Byte, shouldEscape c encoding.encodeHost = false →
    c ≠ 35 ∧ c ≠ 47 ∧ c ≠ 63 ∧ c ≠ 64 := by
  decide

set_option maxRecDepth 100000 in
theorem host_hex : ∀ c : Byte,
    (upperhex (c.val / 16) ≠ 35 ∧ upperhex (c.val / 16) ≠ 47 ∧ upperhex (c.val / 16) ≠ 63 ∧
      upperhex (c.val / 16) ≠ 64) ∧
    (upperhex (c.val % 16) ≠ 35 ∧ upperhex (c.val % 16) ≠ 47 ∧ upperhex (c.val % 16) ≠ 63 ∧
      upperhex (c.val % 16) ≠ 64) := by
  decide

set_option maxRecDepth 100000 in
theorem path_keep : ∀ c : Byte, shouldEscape c encoding.encodePath = false →
    c ≠ 35 ∧ c ≠ 63 := by
  decide

set_option maxRecDepth 100000 in
theorem path_hex : ∀ c : Byte,
    (upperhex (c.val / 16) ≠ 35 ∧ upperhex (c.val / 16) ≠ 63) ∧
    (upperhex (c.val % 16) ≠ 35 ∧ upperhex (c.val % 16) ≠ 63) := by
  decide

set_option maxRecDepth 100000 in
theorem path_valid : ∀ c : Byte, validEncoded [c] encoding.encodePath = true →
    c ≠ 35 ∧ c ≠ 63 := by
  decide

/-- The escaped user name that `String` writes: it has none of `#`, `/`, `:`, `?`,
it is a valid user information, and unescaping it gives the name back. -/
theorem escape_user (key : GoString) :
    (∀ b ∈ escape key encoding.encodeUserPassword, b ≠ 35 ∧ b ≠ 47 ∧ b ≠ 58 ∧ b ≠ 63) ∧
    validUserinfo (escape key encoding.encodeUserPassword) = true ∧
    unescape (escape key encoding.encodeUserPassword) encoding.encodeUserPassword = .ok key := by
  have h := escape_forall encoding.encodeUserPassword (by decide)
    (fun b => b ≠ 35 ∧ b ≠ 47 ∧ b ≠ 58 ∧ b ≠ 63 ∧ validUserinfo [b] = true)
    (by decide) user_hex user_keep key
  refine ⟨fun b hb => ⟨(h b hb).1, (h b hb).2.1, (h b hb).2.2.1, (h b hb).2.2.2.1⟩, ?_,
    unescape_escape _ (by decide) (by decide) (by decide) key⟩
  unfold validUserinfo
  rw [List.all_eq_true]
  intro b hb
  have := (h b hb).2.2.2.2
  simpa [validUserinfo] using this

theorem escape_host (host : GoString) :
    ∀ b ∈ escape host encoding.encodeHost, b ≠ 35 ∧ b ≠ 47 ∧ b ≠ 63 ∧ b ≠ 64 :=
  escape_forall encoding.encodeHost (by decide)
    (fun b => b ≠ 35 ∧ b ≠ 47 ∧ b ≠ 63 ∧ b ≠ 64) (by decide) host_hex host_keep host

theorem escape_path (path : GoString) :
    ∀ b ∈ escape path encoding.encodePath, b ≠ 35 ∧ b ≠ 63 :=
  escape_forall encoding.encodePath (by decide)
    (fun b => b ≠ 35 ∧ b ≠ 63) (by decide) path_hex path_keep path

theorem validEncoded_path (s : GoString) (h : validEncoded s encoding.encodePath = true) :
    ∀ b ∈ s, b ≠ 35 ∧ b ≠ 63 := by
  intro b hb
  apply path_valid
  unfold validEncoded at h ⊢
  rw [List.all_eq_true] at h
  simp only [List.all_cons, List.all_nil, Bool.and_true]
  exact h b hb

theorem escape_path_head (path : GoString) :
    (escape path encoding.encodePath = [] ∨
      (escape path encoding.encodePath).head? = some 47) ↔
    (path = [] ∨ path.head? = some 47) := by
  cases path with
  | nil => simp [escape]
  | cons c t =>
    by_cases h : shouldEscape c encoding.encodePath = true
    · rw [escape_cons_hex c t _ h (by decide)]
      have hc : c ≠ 47 := by
        intro e
        rw [e] at h
        revert h
        decide
      simp [hc]
    · have h0 : shouldEscape c encoding.encodePath = false := by simpa using h
      rw [escape_cons_keep c t _ h0]
      simp

/-- The text of the path that `String` writes for a URL whose raw path is empty or
starts with a slash: it has no `#` and no `?`, it decodes to the path, and it is
empty or starts with a slash exactly when the path is or does. -/
theorem EscapedPath_props (u : URL) (hr : u.RawPath = [] ∨ ∃ t, u.RawPath = 47 :: t) :
    (∀ b ∈ EscapedPath u, b ≠ 35 ∧ b ≠ 63) ∧
    unescapeBytes encoding.encodePath (EscapedPath u) = u.Path ∧
    ((EscapedPath u = [] ∨ (EscapedPath u).head? = some 47) ↔
      (u.Path = [] ∨ u.Path.head? = some 47)) := by
  have hdef : (∀ b ∈ (if u.Path = [42] then [42] else escape u.Path encoding.encodePath
        : GoString), b ≠ 35 ∧ b ≠ 63) ∧
      unescapeBytes encoding.encodePath
        (if u.Path = [42] then [42] else escape u.Path encoding.encodePath) = u.Path ∧
      (((if u.Path = [42] then [42] else escape u.Path encoding.encodePath : GoString) = [] ∨
        (if u.Path = [42] then [42] else escape u.Path encoding.encodePath
          : GoString).head? = some 47) ↔ (u.Path = [] ∨ u.Path.head? = some 47)) := by
    by_cases hs : u.Path = [42]
    · rw [if_pos hs, hs]
      refine ⟨?_, rfl, ?_⟩
      · intro b hb
        rw [List.mem_singleton.mp hb]
        decide
      · decide
    · rw [if_neg hs]
      exact ⟨escape_path _, unescapeBytes_escape _ _ (by decide) (by decide) _,
        escape_path_head _⟩
  unfold EscapedPath
  dsimp only
  split
  · rename_i hc
    split
    · rename_i p hp
      split
      · rename_i hpe
        obtain ⟨-, e⟩ := unescape_ok _ _ _ hp
        refine ⟨validEncoded_path _ hc.2, by rw [← e, hpe], ?_⟩
        rcases hr with h0 | ⟨t, ht⟩
        · exact absurd h0 hc.1
        · have hp47 : u.Path.head? = some 47 := by
            rw [← hpe, e, ht, unescapeBytes_cons _ _ _ (by decide)]
            rfl
          rw [ht]
          simp [hp47]
      · exact hdef
    · exact hdef
  · exact hdef

/-- The text that `String` writes for a URL that is not opaque, has a host and
has a user name without password. -/
theorem URL_String_text (u : URL) (key : GoString) (hO : u.Opaque = [])
    (hU : u.User = some (User key)) (hH : u.Host ≠ []) :
    URL_String u = (if u.Scheme ≠ [] then u.Scheme ++ [58] else []) ++
      (47 :: 47 :: (escape key encoding.encodeUserPassword ++
        64 :: escape u.Host encoding.encodeHost ++
        ((if EscapedPath u ≠ [] ∧ (EscapedPath u).head? ≠ some 47 then [47] else []) ++
          EscapedPath u)) ++
      ((if u.ForceQuery = true ∨ u.RawQuery ≠ [] then 63 :: u.RawQuery else []) ++
        (if u.Fragment ≠ [] then 35 :: EscapedFragment u else []))) := by
  unfold URL_String
  simp [hO, hU, hH, Userinfo_String, User]

theorem queryRequest_ok {τ : Type} (L : Library String τ) (_url _key method path : GoString)
    (values : Values) (req : Request)
    (h : queryRequest L _url _key method path values = .ok req) :
    ∃ r0 u, buildRequest L _url _key method path values = .ok r0 ∧
      Parse (URL_String r0.URL) = .ok u ∧
      req = ⟨if r0.Method = [] then ascii "GET" else r0.Method,
        ⟨u.Scheme, u.Opaque, u.User, removeEmptyPort u.Host, u.Path, u.RawPath, u.ForceQuery,
          u.RawQuery, u.Fragment, u.RawFragment⟩, r0.Body, r0.Header⟩ := by
  unfold queryRequest at h
  split at h
  · exact absurd h (by simp)
  · rename_i r0 hb
    refine ⟨r0, ?_⟩
    cases hn : NewRequest r0.Method (URL_String r0.URL) r0.Body with
    | error e => rw [hn] at h; exact absurd h (by simp)
    | ok req0 =>
      rw [hn] at h
      unfold NewRequest at hn
      by_cases hv : (!validMethod (if r0.Method = [] then ascii "GET" else r0.Method)) = true
      · rw [if_pos hv] at hn
        exact absurd hn (by simp)
      · rw [if_neg hv] at hn
        cases hp : Parse (URL_String r0.URL) with
        | error e => rw [hp] at hn; exact absurd hn (by simp)
        | ok u =>
          rw [hp] at hn
          refine ⟨u, hb, rfl, ?_⟩
          have e1 := Except.ok.inj hn
          have e2 := Except.ok.inj h
          rw [← e2, ← e1]

/-- The URL that `query` assembles, field by field. -/
theorem buildRequest_URL {ε τ : Type} (L : Library ε τ) (_url _key method path : GoString)
    (values : Values) (r0 : Request) (endpoint : URL) (hp : L.Parse _url = .ok endpoint)
    (h : buildRequest L _url _key method path values = .ok r0) :
    r0 = ⟨method, ⟨endpoint.Scheme, endpoint.Opaque, some (User _key), endpoint.Host, path,
        endpoint.RawPath, endpoint.ForceQuery,
        (if method = ascii "GET" then L.Encode values else endpoint.RawQuery),
        endpoint.Fragment, endpoint.RawFragment⟩,
      (if method ≠ ascii "GET" ∧ values ≠ none then some (L.Encode values) else none),
      [(ascii "Bhojpur-Version", apiVersion)]⟩ := by
  obtain ⟨endpoint1, hp1, h1, h2, h3, h4, h5, h6, h7, h8, h9, h10, h11, h12, h13⟩ :=
    buildRequest_ok L _url _key method path values r0 h
  rw [hp] at hp1
  have := Except.ok.inj hp1
  subst this
  obtain ⟨m, ⟨a1, a2, a3, a4, a5, a6, a7, a8, a9, a10⟩, b, hd⟩ := r0
  simp only at h1 h2 h3 h4 h5 h6 h7 h8 h9 h10 h11 h12 h13
  rw [h1, h2, h3, h4, h5, h6, h7, h8, h9, h10, h11, h12, h13]

/-- The request that `query` hands to the transport, for a base URL with a host:
the URL is the one parsed from the text `scheme://user@host/path?query#fragment`
that `String` writes. -/
theorem queryRequest_text {τ : Type} (L : Library String τ) (hP : L.Parse = Parse)
    (_url _key method path : GoString) (values : Values) (endpoint : URL) (req : Request)
    (he : Parse _url = .ok endpoint) (hh : endpoint.Host ≠ [])
    (h : queryRequest L _url _key method path values = .ok req) :
    ∃ host p rp frag rawFrag,
      parseHost (escape endpoint.Host encoding.encodeHost) = .ok host ∧
      setPath ((if EscapedPath ⟨[], [], none, [], path, endpoint.RawPath, false, [], [], []⟩ ≠ [] ∧
          (EscapedPath ⟨[], [], none, [], path, endpoint.RawPath, false, [], [], []⟩).head?
            ≠ some 47 then [47] else []) ++
        EscapedPath ⟨[], [], none, [], path, endpoint.RawPath, false, [], [], []⟩)
        = .ok (p, rp) ∧
      ((Cut ((if endpoint.ForceQuery = true ∨
            (if method = ascii "GET" then L.Encode values else endpoint.RawQuery) ≠ [] then
            63 :: (if method = ascii "GET" then L.Encode values else endpoint.RawQuery)
          else []) ++
          (if endpoint.Fragment ≠ [] then
            35 :: EscapedFragment ⟨[], [], none, [], [], [], false, [], endpoint.Fragment,
              endpoint.RawFragment⟩ else [])) 35).2.1 = [] ∧ frag = [] ∧ rawFrag = [] ∨
        (Cut ((if endpoint.ForceQuery = true ∨
            (if method = ascii "GET" then L.Encode values else endpoint.RawQuery) ≠ [] then
            63 :: (if method = ascii "GET" then L.Encode values else endpoint.RawQuery)
          else []) ++
          (if endpoint.Fragment ≠ [] then
            35 :: EscapedFragment ⟨[], [], none, [], [], [], false, [], endpoint.Fragment,
              endpoint.RawFragment⟩ else [])) 35).2.1 ≠ [] ∧
        setFragment (Cut ((if endpoint.ForceQuery = true ∨
            (if method = ascii "GET" then L.Encode values else endpoint.RawQuery) ≠ [] then
            63 :: (if method = ascii "GET" then L.Encode values else endpoint.RawQuery)
          else []) ++
          (if endpoint.Fragment ≠ [] then
            35 :: EscapedFragment ⟨[], [], none, [], [], [], false, [], endpoint.Fragment,
              endpoint.RawFragment⟩ else [])) 35).2.1 = .ok (frag, rawFrag)) ∧
      req = ⟨if method = [] then ascii "GET" else method,
        ⟨endpoint.Scheme, [], some (User _key), removeEmptyPort host, p, rp,
          (splitQuery (Cut ((if endpoint.ForceQuery = true ∨
            (if method = ascii "GET" then L.Encode values else endpoint.RawQuery) ≠ [] then
            63 :: (if method = ascii "GET" then L.Encode values else endpoint.RawQuery)
          else []) ++
          (if endpoint.Fragment ≠ [] then
            35 :: EscapedFragment ⟨[], [], none, [], [], [], false, [], endpoint.Fragment,
              endpoint.RawFragment⟩ else [])) 35).1).2.1,
          (splitQuery (Cut ((if endpoint.ForceQuery = true ∨
            (if method = ascii "GET" then L.Encode values else endpoint.RawQuery) ≠ [] then
            63 :: (if method = ascii "GET" then L.Encode values else endpoint.RawQuery)
          else []) ++
          (if endpoint.Fragment ≠ [] then
            35 :: EscapedFragment ⟨[], [], none, [], [], [], false, [], endpoint.Fragment,
              endpoint.RawFragment⟩ else [])) 35).1).2.2, frag, rawFrag⟩,
        (if method ≠ ascii "GET" ∧ values ≠ none then some (L.Encode values) else none),
        [(ascii "Bhojpur-Version", apiVersion)]⟩ := by
  obtain ⟨r0, u, hb, hp, hreq⟩ := queryRequest_ok L _url _key method path values req h
  have hpe : L.Parse _url = .ok endpoint := by rw [hP]; exact he
  have hr0 := buildRequest_URL L _url _key method path values r0 endpoint hpe hb
  obtain ⟨hsch, hhost⟩ := Parse_fields _url endpoint he
  obtain ⟨hO, hraw⟩ := hhost hh
  subst hr0
  simp only at hp hreq
  have ht := URL_String_text ⟨endpoint.Scheme, endpoint.Opaque, some (User _key), endpoint.Host,
      path, endpoint.RawPath, endpoint.ForceQuery,
      (if method = ascii "GET" then L.Encode values else endpoint.RawQuery),
      endpoint.Fragment, endpoint.RawFragment⟩ _key hO rfl hh
  rw [ht] at hp
  simp only at hp
  obtain ⟨hk1, hk2, hk3⟩ := escape_user _key
  obtain ⟨hp1, hp2, hp3⟩ := EscapedPath_props
    ⟨endpoint.Scheme, endpoint.Opaque, some (User _key), endpoint.Host, path,
      endpoint.RawPath, endpoint.ForceQuery,
      (if method = ascii "GET" then L.Encode values else endpoint.RawQuery),
      endpoint.Fragment, endpoint.RawFragment⟩ hraw
  have hpth : ∀ ep : GoString,
      ((if ep ≠ [] ∧ ep.head? ≠ some 47 then [47] else [] : GoString) ++ ep = [] ∨
        ∃ t, (if ep ≠ [] ∧ ep.head? ≠ some 47 then [47] else [] : GoString) ++ ep = 47 :: t) := by
    intro ep
    cases ep with
    | nil => left; simp
    | cons c t =>
      right
      by_cases hc : c = 47
      · simp [hc]
      · simp [hc]
  have hpq : ∀ ep : GoString, (∀ b ∈ ep, b ≠ 35 ∧ b ≠ 63) →
      ∀ b ∈ (if ep ≠ [] ∧ ep.head? ≠ some 47 then [47] else [] : GoString) ++ ep,
        b ≠ 35 ∧ b ≠ 63 := by
    intro ep hep b hb
    rcases List.mem_append.mp hb with hb | hb
    · split at hb
      · rw [List.mem_singleton.mp hb]
        decide
      · simp at hb
    · exact hep b hb
  have hqf : ∀ (q f : GoString) (c1 c2 : Prop) [Decidable c1] [Decidable c2],
      ((if c1 then 63 :: q else []) ++ (if c2 then 35 :: f else []) : GoString) = [] ∨
      (∃ t, ((if c1 then 63 :: q else []) ++ (if c2 then 35 :: f else []) : GoString) = 63 :: t) ∨
      ∃ t, ((if c1 then 63 :: q else []) ++ (if c2 then 35 :: f else []) : GoString) = 35 :: t := by
    intro q f c1 c2 _ _
    by_cases h1 : c1 <;> by_cases h2 : c2 <;> simp [h1, h2]
  obtain ⟨host, p, rp, frag, rawFrag, e1, e2, e3, e4⟩ :=
    Parse_text endpoint.Scheme _key _ _ _ _ u hsch hk1 hk2 hk3 (escape_host endpoint.Host)
      (hpth _) (hpq _ hp1) (hqf _ _ _ _) hp
  refine ⟨host, p, rp, frag, rawFrag, e1, e2, e3, ?_⟩
  rw [hreq, e4]
  rfl

/-! ## The placement of the parameters carries over to the request -/

/-- The method, the body and the headers of the request that `query` hands to the
transport are those of `buildRequest`, but for the empty method, which
`http.NewRequest` reads as `GET`. -/
theorem queryRequest_rest {τ : Type} (L : Library String τ) (_url _key method path : GoString)
    (values : Values) (req : Request)
    (h : queryRequest L _url _key method path values = .ok req) :
    req.Method = (if method = [] then ascii "GET" else method) ∧
    req.Body = (if method ≠ ascii "GET" ∧ values ≠ none then some (L.Encode values) else none) ∧
    req.Header = [(ascii "Bhojpur-Version", apiVersion)] := by
  obtain ⟨r0, u, hb, -, hreq⟩ := queryRequest_ok L _url _key method path values req h
  obtain ⟨endpoint, -, h1, -, -, -, -, -, -, -, -, -, -, h12, h13⟩ :=
    buildRequest_ok L _url _key method path values r0 hb
  rw [hreq]
  simp only
  rw [h1, h12, h13]
  exact ⟨rfl, rfl, rfl⟩

theorem Cut_fst_not_mem (c : Byte) (s : GoString) : c ∉ (Cut s c).1 := by
  by_cases h : c ∈ s
  · obtain ⟨p, r, rfl, hp⟩ := List.eq_append_cons_of_mem h
    rw [Cut_append_cons c p r hp]
    exact hp
  · rw [Cut_not_mem c s h]
    exact h

theorem Cut_snd_subset (c : Byte) (s : GoString) : ∀ b ∈ (Cut s c).2.1, b ∈ s := by
  intro b hb
  unfold Cut at hb
  split at hb
  · simp at hb
  · exact List.mem_of_mem_drop hb

theorem getSchemeLoop_subset (raw : GoString) : ∀ (rest : GoString) (i : Nat)
    (sch r : GoString), getSchemeLoop raw i rest = .ok (sch, r) → ∀ b ∈ r, b ∈ raw := by
  intro rest
  induction rest with
  | nil =>
    intro i sch r h b hb
    unfold getSchemeLoop at h
    rw [← (Prod.mk.inj (Except.ok.inj h)).2] at hb
    exact hb
  | cons c rest ih =>
    intro i sch r h b hb
    unfold getSchemeLoop at h
    split at h
    · exact ih _ _ _ h b hb
    · split at h
      · split at h
        · rw [← (Prod.mk.inj (Except.ok.inj h)).2] at hb
          exact hb
        · exact ih _ _ _ h b hb
      · split at h
        · split at h
          · exact absurd h (by simp)
          · rw [← (Prod.mk.inj (Except.ok.inj h)).2] at hb
            exact List.mem_of_mem_drop hb
        · rw [← (Prod.mk.inj (Except.ok.inj h)).2] at hb
          exact hb

theorem splitQuery_subset (s : GoString) : ∀ b ∈ (splitQuery s).2.2, b ∈ s := by
  intro b hb
  unfold splitQuery at hb
  split at hb
  · simp at hb
  · exact Cut_snd_subset 63 s b hb

theorem parseAfterScheme_RawQuery (scheme rest0 : GoString) (u : URL)
    (h : parseAfterScheme scheme rest0 = .ok u) : u.RawQuery = (splitQuery rest0).2.2 := by
  unfold parseAfterScheme at h
  dsimp only at h
  split at h
  · rw [← Except.ok.inj h]
  · split at h
    · exact absurd h (by simp)
    · split at h
      · split at h
        · exact absurd h (by simp)
        · split at h
          · exact absurd h (by simp)
          · rw [← Except.ok.inj h]
      · split at h
        · exact absurd h (by simp)
        · rw [← Except.ok.inj h]

/-- The query string of a URL that `Parse` returns has no `#`. -/
theorem Parse_RawQuery (rawURL : GoString) (u : URL) (h : Parse rawURL = .ok u) :
    (35 : Byte) ∉ u.RawQuery := by
  have hparse : ∀ url, parse (Cut rawURL 35).1 = .ok url → (35 : Byte) ∉ url.RawQuery := by
    intro url hp
    unfold parse at hp
    split at hp
    · exact absurd hp (by simp)
    · split at hp
      · rw [← Except.ok.inj hp]
        simp
      · split at hp
        · exact absurd hp (by simp)
        · rename_i scheme rest hg
          rw [parseAfterScheme_RawQuery _ _ _ hp]
          intro hm
          have h1 := splitQuery_subset rest 35 hm
          have h2 := getSchemeLoop_subset _ _ _ _ _ hg 35 h1
          exact Cut_fst_not_mem 35 rawURL h2
  unfold Parse at h
  split at h
  · exact absurd h (by simp)
  · rename_i url hp
    split at h
    · rw [← Except.ok.inj h]
      exact hparse url hp
    · split at h
      · exact absurd h (by simp)
      · rw [← Except.ok.inj h]
        exact hparse url hp

theorem splitQuery_query (fq : Bool) (q f : GoString) (c : Prop) [Decidable c]
    (hq : (35 : Byte) ∉ q) :
    (splitQuery (Cut ((if fq = true ∨ q ≠ [] then 63 :: q else []) ++
      (if c then 35 :: f else [])) 35).1).2.2 = q := by
  have hQ : (35 : Byte) ∉ (if fq = true ∨ q ≠ [] then 63 :: q else [] : GoString) := by
    split
    · intro hm
      rcases List.mem_cons.mp hm with hm | hm
      · exact absurd hm (by decide)
      · exact hq hm
    · simp
  have hF : (Cut (if c then 35 :: f else [] : GoString) 35).1 = [] := by
    split
    · have := Cut_append_cons 35 [] f (by simp)
      simp only [List.nil_append] at this
      rw [this]
    · rfl
  rw [(Cut_append 35 _ _ hQ).1, hF, List.append_nil]
  by_cases hc : fq = true ∨ q ≠ []
  · rw [if_pos hc]
    unfold splitQuery
    split
    · rename_i hl
      obtain ⟨h1, h2⟩ := hl
      have h3 : (63 : Byte) ∉ q := by
        rw [List.count_cons_self] at h2
        exact List.count_eq_zero.mp (by omega)
      cases q with
      | nil => rfl
      | cons x xs =>
        exfalso
        rw [List.getLast?_cons_cons] at h1
        exact h3 (List.mem_of_getLast?_eq_some h1)
    · have h0 : Cut (63 :: q) 63 = ([], q, true) := Cut_append_cons 63 [] q (by simp)
      rw [h0]
  · rw [if_neg hc]
    have : q = [] := by
      by_contra hne
      exact hc (Or.inr hne)
    rw [this]
    rfl

/-- The query string of the request that `query` hands to the transport, for a
base URL with a host: the form-encoding of the parameters for a GET, when it has no
`#`, and the query string of the base URL for another method, as in
`buildRequest`. -/
theorem queryRequest_query {τ : Type} (L : Library String τ) (hP : L.Parse = Parse)
    (_url _key method path : GoString) (values : Values) (endpoint : URL) (req : Request)
    (he : Parse _url = .ok endpoint) (hh : endpoint.Host ≠ [])
    (h : queryRequest L _url _key method path values = .ok req) :
    (method = ascii "GET" → (35 : Byte) ∉ L.Encode values →
      req.URL.RawQuery = L.Encode values) ∧
    (method ≠ ascii "GET" → req.URL.RawQuery = endpoint.RawQuery) := by
  obtain ⟨host, p, rp, frag, rawFrag, -, -, -, e4⟩ :=
    queryRequest_text L hP _url _key method path values endpoint req he hh h
  rw [e4]
  simp only
  constructor
  · intro hm hq
    simp only [hm, if_true]
    exact splitQuery_query _ _ _ _ hq
  · intro hm
    simp only [hm, if_false]
    exact splitQuery_query _ _ _ _ (Parse_RawQuery _url endpoint he)

theorem ok_of_toOption {α : Type} (e : Except String α) (a : α) (h : e.toOption = some a) :
    e = .ok a := by
  cases e with
  | error x => simp [Except.toOption] at h
  | ok b =>
    simp only [Except.toOption] at h
    rw [Option.some.inj h]

theorem exists_ok_of {α : Type} (e : Except String α) (P : α → Prop) [DecidablePred P]
    (h : (match e with
      | .ok a => decide (P a)
      | .error _ => false) = true) : ∃ a, e = .ok a ∧ P a := by
  cases e with
  | error x => simp at h
  | ok a => exact ⟨a, rfl, by simpa using h⟩

/-- Counterexample to claim C20: with the base URL `localhost:8080`, which
`url.Parse` reads as the scheme `localhost` and the opaque text `8080`, the text
of the URL that `query` hands to `http.NewRequest` is `localhost:8080` again, and
the request that is built has no user information: the key `sk_test` is not
carried as the user name. -/
theorem queryRequest_credential_counterexample :
    ∃ req, queryRequest (exampleLibrary ⟨200, .ok []⟩) (ascii "localhost:8080")
        (ascii "sk_test") (ascii "POST") (ascii "/v1/charges")
        (some [(ascii "amount", [ascii "300"])]) = .ok req ∧
      (req.URL.User = none ∧ req.URL.User ≠ some ⟨ascii "sk_test", [], false⟩ ∧
        req.URL.Scheme = ascii "localhost" ∧ req.URL.Opaque = ascii "8080") :=
  exists_ok_of _ _ (by decide!)

/-- Claim C20, amended: for a base URL that parses with a host that is not empty,
the URL of the request that `query` builds and hands to the transport carries the
key as its user information, as the user name and with no password; and nothing
else of that request depends on the key: the request built with another key is the
same but for that user information, so the key is not in its query string, its
body or its headers. -/
theorem queryRequest_credential {τ : Type} (L : Library String τ) (hP : L.Parse = Parse)
    (_url _key method path : GoString) (values : Values) (endpoint : URL) (req : Request)
    (he : Parse _url = .ok endpoint) (hh : endpoint.Host ≠ [])
    (h : queryRequest L _url _key method path values = .ok req) :
    req.URL.User = some ⟨_key, [], false⟩ ∧
    (∀ (key1 : GoString) (req1 : Request),
      queryRequest L _url key1 method path values = .ok req1 →
      withoutUser req1 = withoutUser req) := by
  obtain ⟨host, p, rp, frag, rawFrag, e1, e2, e3, e4⟩ :=
    queryRequest_text L hP _url _key method path values endpoint req he hh h
  constructor
  · rw [e4]
    rfl
  · intro key1 req1 h1
    obtain ⟨host1, p1, rp1, frag1, rawFrag1, f1, f2, f3, f4⟩ :=
      queryRequest_text L hP _url key1 method path values endpoint req1 he hh h1
    rw [e1] at f1
    have hhost : host1 = host := (Except.ok.inj f1).symm
    rw [e2] at f2
    have hpp := Prod.mk.inj (Except.ok.inj f2)
    have hfrag : frag1 = frag ∧ rawFrag1 = rawFrag := by
      rcases e3 with ⟨a1, a2, a3⟩ | ⟨a1, a2⟩
      · rcases f3 with ⟨b1, b2, b3⟩ | ⟨b1, b2⟩
        · rw [a2, a3, b2, b3]
          exact ⟨rfl, rfl⟩
        · exact absurd a1 b1
      · rcases f3 with ⟨b1, b2, b3⟩ | ⟨b1, b2⟩
        · exact absurd b1 a1
        · rw [a2] at b2
          have := Prod.mk.inj (Except.ok.inj b2)
          exact ⟨this.1.symm, this.2.symm⟩
    rw [e4, f4, hhost, ← hpp.1, ← hpp.2, hfrag.1, hfrag.2]
    rfl

/-- Witness of the amended claim C20: a POST on the default base URL with the key
`sk_test`. -/
theorem queryRequest_credential_witness :
    Parse (ascii "https://api.bhojpur.net") =
      .ok ⟨ascii "https", [], none, ascii "api.bhojpur.net", [], [], false, [], [], []⟩ ∧
    queryRequest (exampleLibrary ⟨200, .ok []⟩) (ascii "https://api.bhojpur.net")
        (ascii "sk_test") (ascii "POST") (ascii "/v1/charges")
        (some [(ascii "amount", [ascii "300"])]) =
      .ok ⟨ascii "POST", ⟨ascii "https", [], some ⟨ascii "sk_test", [], false⟩,
        ascii "api.bhojpur.net", ascii "/v1/charges", [], false, [], [], []⟩,
        some (ascii "amount=300"), [(ascii "Bhojpur-Version", ascii "2018-03-26")]⟩ ∧
    (⟨ascii "POST", ⟨ascii "https", [], some ⟨ascii "sk_test", [], false⟩,
        ascii "api.bhojpur.net", ascii "/v1/charges", [], false, [], [], []⟩,
        some (ascii "amount=300"), [(ascii "Bhojpur-Version", ascii "2018-03-26")]⟩
      : Request).URL.User = some ⟨ascii "sk_test", [], false⟩ :=
  ⟨ok_of_toOption _ _ (by decide!), ok_of_toOption _ _ (by decide!),
    (queryRequest_credential (exampleLibrary ⟨200, .ok []⟩) rfl (ascii "https://api.bhojpur.net")
      (ascii "sk_test") (ascii "POST") (ascii "/v1/charges")
      (some [(ascii "amount", [ascii "300"])])
      ⟨ascii "https", [], none, ascii "api.bhojpur.net", [], [], false, [], [], []⟩
      ⟨ascii "POST", ⟨ascii "https", [], some ⟨ascii "sk_test", [], false⟩,
        ascii "api.bhojpur.net", ascii "/v1/charges", [], false, [], [], []⟩,
        some (ascii "amount=300"), [(ascii "Bhojpur-Version", ascii "2018-03-26")]⟩
      (ok_of_toOption _ _ (by decide!)) (by decide) (ok_of_toOption _ _ (by decide!))).1⟩

/-- Counterexample to claim C22: with the base URL `http://localhost:8080/api` and
the path `/v1/charges` the request addresses `/v1/charges`, not
`/api/v1/charges`: the path of the base URL is dropped.  Further, a path without a
leading slash gets one, an empty port is removed from the host, and with the
opaque base URL `localhost:8080` the request has neither host nor path. -/
theorem queryRequest_path_counterexample :
    (∃ req, queryRequest (exampleLibrary ⟨200, .ok []⟩) (ascii "http://localhost:8080/api")
        (ascii "sk_test") (ascii "POST") (ascii "/v1/charges")
        (some [(ascii "amount", [ascii "300"])]) = .ok req ∧
      (req.URL.Path = ascii "/v1/charges" ∧ req.URL.Path ≠ ascii "/api/v1/charges" ∧
        req.URL.Host = ascii "localhost:8080")) ∧
    (∃ req, queryRequest (exampleLibrary ⟨200, .ok []⟩) (ascii "http://localhost:8080/api")
        (ascii "sk_test") (ascii "GET") (ascii "v1/charges") none = .ok req ∧
      (req.URL.Path = ascii "/v1/charges" ∧ req.URL.Path ≠ ascii "v1/charges")) ∧
    (∃ req, queryRequest (exampleLibrary ⟨200, .ok []⟩) (ascii "http://localhost:/api")
        (ascii "sk_test") (ascii "GET") (ascii "/v1/charges") none = .ok req ∧
      (req.URL.Host = ascii "localhost" ∧ req.URL.Host ≠ ascii "localhost:")) ∧
    (∃ req, queryRequest (exampleLibrary ⟨200, .ok []⟩) (ascii "localhost:8080")
        (ascii "sk_test") (ascii "GET") (ascii "/v1/charges") none = .ok req ∧
      (req.URL.Scheme = ascii "localhost" ∧ req.URL.Opaque = ascii "8080" ∧
        req.URL.Host = [] ∧ req.URL.Path = [])) :=
  ⟨exists_ok_of _ _ (by decide!), exists_ok_of _ _ (by decide!),
    exists_ok_of _ _ (by decide!), exists_ok_of _ _ (by decide!)⟩

/-- Claim C22, amended: for a base URL that parses with a host that is not empty,
and for every path, the URL of the request that `query` builds has the scheme of
the base URL, the host of the base URL without an empty port, and as its path the
given path alone, with a slash put in front when the path is not empty and does
not start with one: the path of the base URL is dropped. -/
theorem queryRequest_path {τ : Type} (L : Library String τ) (hP : L.Parse = Parse)
    (_url _key method path : GoString) (values : Values) (endpoint : URL) (req : Request)
    (he : Parse _url = .ok endpoint) (hh : endpoint.Host ≠ [])
    (h : queryRequest L _url _key method path values = .ok req) :
    req.URL.Scheme = endpoint.Scheme ∧
    req.URL.Host = removeEmptyPort endpoint.Host ∧
    req.URL.Path = (if path = [] ∨ path.head? = some 47 then path else 47 :: path) := by
  obtain ⟨host, p, rp, frag, rawFrag, e1, e2, -, e4⟩ :=
    queryRequest_text L hP _url _key method path values endpoint req he hh h
  obtain ⟨-, hraw⟩ := (Parse_fields _url endpoint he).2 hh
  obtain ⟨-, hp2, hp3⟩ := EscapedPath_props
    ⟨[], [], none, [], path, endpoint.RawPath, false, [], [], []⟩ hraw
  simp only at hp2 hp3
  have hhost : host = endpoint.Host := by
    rw [parseHost_decode _ _ e1]
    exact unescapeBytes_escape _ _ (by decide) (by decide) _
  have hpath : p = (if path = [] ∨ path.head? = some 47 then path else 47 :: path) := by
    unfold setPath at e2
    cases hu : unescape ((if EscapedPath ⟨[], [], none, [], path, endpoint.RawPath, false, [],
        [], []⟩ ≠ [] ∧ (EscapedPath ⟨[], [], none, [], path, endpoint.RawPath, false, [], [],
        []⟩).head? ≠ some 47 then [47] else []) ++
        EscapedPath ⟨[], [], none, [], path, endpoint.RawPath, false, [], [], []⟩)
        encoding.encodePath with
    | error e => rw [hu] at e2; exact absurd e2 (by simp)
    | ok q =>
      rw [hu] at e2
      have hq : q = p := (Prod.mk.inj (Except.ok.inj e2)).1
      obtain ⟨-, hdec⟩ := unescape_ok _ _ _ hu
      rw [← hq, hdec]
      by_cases hc : path = [] ∨ path.head? = some 47
      · have hc1 := hp3.mpr hc
        have hn : ¬ (EscapedPath ⟨[], [], none, [], path, endpoint.RawPath, false, [], [], []⟩
            ≠ [] ∧ (EscapedPath ⟨[], [], none, [], path, endpoint.RawPath, false, [], [],
            []⟩).head? ≠ some 47) := by
          rintro ⟨n1, n2⟩
          rcases hc1 with h1 | h1
          · exact n1 h1
          · exact n2 h1
        rw [if_neg hn, if_pos hc, List.nil_append, hp2]
      · have hy : EscapedPath ⟨[], [], none, [], path, endpoint.RawPath, false, [], [], []⟩
            ≠ [] ∧ (EscapedPath ⟨[], [], none, [], path, endpoint.RawPath, false, [], [],
            []⟩).head? ≠ some 47 := by
          constructor
          · intro n1
            exact hc (hp3.mp (Or.inl n1))
          · intro n2
            exact hc (hp3.mp (Or.inr n2))
        rw [if_pos hy, if_neg hc, List.singleton_append,
          unescapeBytes_cons _ _ _ (by decide), hp2]
        rfl
  rw [e4]
  refine ⟨rfl, ?_, ?_⟩
  · rw [← hhost]
  · exact hpath

/-- Witness of the amended claim C22 at the base URL `http://localhost:8080/api`. -/
theorem queryRequest_path_witness :
    Parse (ascii "http://localhost:8080/api") =
      .ok ⟨ascii "http", [], none, ascii "localhost:8080", ascii "/api", [], false, [], [],
        []⟩ ∧
    queryRequest (exampleLibrary ⟨200, .ok []⟩) (ascii "http://localhost:8080/api")
        (ascii "sk_test") (ascii "GET") (ascii "/v1/charges") none =
      .ok ⟨ascii "GET", ⟨ascii "http", [], some ⟨ascii "sk_test", [], false⟩,
        ascii "localhost:8080", ascii "/v1/charges", [], false, [], [], []⟩,
        none, [(ascii "Bhojpur-Version", ascii "2018-03-26")]⟩ ∧
    (⟨ascii "GET", ⟨ascii "http", [], some ⟨ascii "sk_test", [], false⟩,
        ascii "localhost:8080", ascii "/v1/charges", [], false, [], [], []⟩,
        none, [(ascii "Bhojpur-Version", ascii "2018-03-26")]⟩ : Request).URL.Path =
      (if ascii "/v1/charges" = [] ∨ (ascii "/v1/charges").head? = some 47 then
        ascii "/v1/charges" else 47 :: ascii "/v1/charges") :=
  ⟨ok_of_toOption _ _ (by decide!), ok_of_toOption _ _ (by decide!),
    (queryRequest_path (exampleLibrary ⟨200, .ok []⟩) rfl (ascii "http://localhost:8080/api")
      (ascii "sk_test") (ascii "GET") (ascii "/v1/charges") none
      ⟨ascii "http", [], none, ascii "localhost:8080", ascii "/api", [], false, [], [], []⟩
      ⟨ascii "GET", ⟨ascii "http", [], some ⟨ascii "sk_test", [], false⟩,
        ascii "localhost:8080", ascii "/v1/charges", [], false, [], [], []⟩,
        none, [(ascii "Bhojpur-Version", ascii "2018-03-26")]⟩
      (ok_of_toOption _ _ (by decide!)) (by decide) (ok_of_toOption _ _ (by decide!))).2.2⟩

end Engine
